import Mathlib

/-!
# APEX profile statistics: a verification development

Shallow embedding of `src/apex/profile.hpp` (class `apex::profile`) and of the
`apex_profile` record it wraps, of `src/apex/task_identifier.cpp` (interning
and naming of task identifiers) and of `reduce_profiles` of
`src/apex/profile_reducer.cpp`: the unified name set, the row building and the
combining loops.

Modelling conventions.

* A C++ `double` is a rational number: every statement is about exact
  arithmetic, rounding, infinities and NaN are not represented.  A quotient
  whose divisor is zero has no finite value in C++; the statements that mention
  a quotient carry the guard of their caller (`calls > 0`).
* `int times_reset` is an `Int`.  Signed overflow is undefined in C++, so the
  model describes the executions that stay below `INT_MAX` resets.
* `size_t` fields are `Nat`; `uint64_t` thread ids are `Nat`.  A `double`
  stored into a `size_t` field goes through `double_to_size_t`, which is
  undefined outside the range of the type.
* `int num_metrics` is a `Nat` (a negative count runs no loop iteration, like
  0) and is at most 8, the size of the `papi_metrics` array; a `double *`
  argument is the list of the values it points to.
* `std::set<uint64_t>` is a `Finset Nat`.
* The mutex only serialises whole member functions; each member function is a
  pure state transformer on the record.  The accessors take no lock: a thread
  that reads the record while `increment` runs can see it between two
  statements, and `profile.increment_stages` lists the records it can see, a
  statement being one step.
* `APEX_HAVE_PAPI` is a build-time macro that is not defined in the sources at
  hand; it is a Boolean parameter of the functions that test it, and so is
  `APEX_HAVE_BFD`.
* A `std::string` is the list of its characters; a pointer to an object created
  by `new` is the index of the object in the list of the objects created so
  far.
* A conversion of a `double` to an integer or enumeration type is undefined
  when the value does not fit; a function that performs one returns an
  `Option`.  The conversion of a `size_t` to `double` is exact here, like the
  arithmetic; in the code it is exact up to 2^53, and the statements on the
  value of a `size_t` field that has passed through a `double` carry that
  bound.
* A run of `reduce_profiles` is given by the registries of its ranks in rank
  order.  A collective operation hands every rank the data of all ranks; it
  completes only when every rank enters it.  A `char` buffer is the list of its
  characters, a `std::set<std::string>` the sorted list of its members.
-/

namespace apex

/-! ## Data model (`apex_types.h`) -/

/-- The type of a profiler object (`apex_profile_type`). -/
inductive apex_profile_type where
  | APEX_TIMER
  | APEX_COUNTER
  deriving DecidableEq, Repr

/-- The value of `std::numeric_limits<double>::max()`, that is
`(2 - 2^(-52)) * 2^1023`. -/
def DBL_MAX : ℚ := 2 ^ 1024 - 2 ^ 971

/-- The profile object for a timer or counter (`apex_profile`), with the fields
that `profile.hpp` reads and writes.  The fields declared in `apex_types.h`
have the types declared there; `inclusive_accumulated`, `num_threads` and
`throttled` are used by `profile.hpp` without a declaration at hand and have
the types of the values stored in them (a `double`, the `size_t` returned by
`std::set::size`, a `bool`). -/
structure apex_profile where
  calls : ℚ
  stops : ℚ
  accumulated : ℚ
  inclusive_accumulated : ℚ
  sum_squares : ℚ
  minimum : ℚ
  maximum : ℚ
  type : apex_profile_type
  papi_metrics : List ℚ
  allocations : Nat
  frees : Nat
  bytes_allocated : Nat
  bytes_freed : Nat
  times_reset : Int
  num_threads : Nat
  throttled : Bool

/-- The class `apex::profile`: the wrapped record and the set of thread ids. -/
structure profile where
  _profile : apex_profile
  thread_ids : Finset Nat

/-- The result of `memset(&_profile, 0, sizeof(apex_profile))`. -/
def apex_profile.zeroed : apex_profile :=
  { calls := 0, stops := 0, accumulated := 0, inclusive_accumulated := 0,
    sum_squares := 0, minimum := 0, maximum := 0,
    type := apex_profile_type.APEX_TIMER,
    papi_metrics := List.replicate 8 0,
    allocations := 0, frees := 0, bytes_allocated := 0, bytes_freed := 0,
    times_reset := 0, num_threads := 0, throttled := false }

/-- The loop `for (i = 0; i < num_metrics; i++) dst[i] = src[i]` over the
eight-slot array `dst`. -/
def papi_store (num_metrics : Nat) (src dst : List ℚ) : List ℚ :=
  (List.range 8).map fun i =>
    if i < num_metrics then src.getD i 0 else dst.getD i 0

/-- The loop `for (i = 0; i < num_metrics; i++) dst[i] += src[i]` over the
eight-slot array `dst`. -/
def papi_accumulate (num_metrics : Nat) (src dst : List ℚ) : List ℚ :=
  (List.range 8).map fun i =>
    if i < num_metrics then dst.getD i 0 + src.getD i 0 else dst.getD i 0

/-- `std::max<double>(a, b)`, that is `(a < b) ? b : a`. -/
def std_max (a b : ℚ) : ℚ := if a < b then b else a

/-! ## Construction and mutation (`profile.hpp`) -/

/-- The constructor
`profile(initial, inclusive, num_metrics, papi_metrics, yielded, type)`.  It is
named `construct` because a declaration `profile.profile` would shadow the
class inside its own namespace. -/
def profile.construct (have_papi : Bool) (initial inclusive : ℚ)
    (num_metrics : Nat) (papi_metrics : List ℚ) (yielded : Bool)
    (type : apex_profile_type) : profile :=
  let z := apex_profile.zeroed
  { _profile :=
      { z with
        type := type
        calls := if !yielded then 1 else 0
        stops := 1
        accumulated := initial
        inclusive_accumulated := inclusive
        papi_metrics :=
          if have_papi then papi_store num_metrics papi_metrics z.papi_metrics
          else z.papi_metrics
        times_reset := 0
        sum_squares := initial * initial
        minimum := initial
        maximum := initial
        allocations := 0
        frees := 0
        bytes_allocated := 0
        bytes_freed := 0
        num_threads := 1
        throttled := false }
    thread_ids := ∅ }

/-- The member function
`increment(increase, inclusive, num_metrics, papi_metrics, yielded, thread_id)`. -/
def profile.increment (have_papi : Bool) (p : profile) (increase inclusive : ℚ)
    (num_metrics : Nat) (papi_metrics : List ℚ) (yielded : Bool)
    (thread_id : Nat) : profile :=
  let s := p._profile
  let ids := insert thread_id p.thread_ids
  { _profile :=
      { s with
        accumulated := s.accumulated + increase
        inclusive_accumulated := s.inclusive_accumulated + inclusive
        stops := s.stops + 1
        papi_metrics :=
          if have_papi then papi_accumulate num_metrics papi_metrics s.papi_metrics
          else s.papi_metrics
        sum_squares := s.sum_squares + increase * increase
        minimum := if s.minimum > increase then increase else s.minimum
        maximum := if s.maximum < increase then increase else s.maximum
        calls := if !yielded then s.calls + 1 else s.calls
        num_threads := ids.card }
    thread_ids := ids }

/-- Conversion of a `double` to `size_t`: the fractional part is discarded, and
the conversion is undefined (`none`) when the truncated value is not
representable in 64 bits. -/
def double_to_size_t (x : ℚ) : Option Nat :=
  if -1 < x ∧ x < 2 ^ 64 then some (Int.toNat (Rat.floor x)) else none

/-- The constructor
`profile(initial, inclusive, num_metrics, papi_metrics, yielded, allocations,
frees, bytes_allocated, bytes_freed)`.  It does not clear the record first, so
the hardware-counter slots it does not write keep the indeterminate content
`uninitialized` of the storage. -/
def profile.construct_allocations (have_papi : Bool) (uninitialized : List ℚ)
    (initial inclusive : ℚ) (num_metrics : Nat) (papi_metrics : List ℚ)
    (yielded : Bool) (allocations frees bytes_allocated bytes_freed : ℚ) :
    Option profile := do
  let a ← double_to_size_t allocations
  let f ← double_to_size_t frees
  let ba ← double_to_size_t bytes_allocated
  let bf ← double_to_size_t bytes_freed
  pure
    { _profile :=
        { type := apex_profile_type.APEX_TIMER
          calls := if !yielded then 1 else 0
          stops := 1
          accumulated := initial
          inclusive_accumulated := inclusive
          papi_metrics :=
            if have_papi then papi_store num_metrics papi_metrics uninitialized
            else uninitialized
          times_reset := 0
          sum_squares := initial * initial
          minimum := initial
          maximum := initial
          allocations := a
          frees := f
          bytes_allocated := ba
          bytes_freed := bf
          num_threads := 1
          throttled := false }
      thread_ids := ∅ }

/-- The member function
`increment(increase, inclusive, num_metrics, papi_metrics, allocations, frees,
bytes_allocated, bytes_freed, yielded, thread_id)`: the plain `increment`,
then the four allocation fields.  Each `+=` adds a `double` to a `size_t`
field, so the sum is converted back to `size_t`.  The sum is the exact one
here; the code forms it in a `double`, which is the exact sum as long as the
field and the sum are whole numbers of at most 2^53, and can be rounded
beyond: the statements on the value of these fields carry the bound 2^53. -/
def profile.increment_allocations (have_papi : Bool) (p : profile)
    (increase inclusive : ℚ) (num_metrics : Nat) (papi_metrics : List ℚ)
    (allocations frees bytes_allocated bytes_freed : ℚ) (yielded : Bool)
    (thread_id : Nat) : Option profile := do
  let q := p.increment have_papi increase inclusive num_metrics papi_metrics yielded thread_id
  let s := q._profile
  let a ← double_to_size_t ((s.allocations : ℚ) + allocations)
  let f ← double_to_size_t ((s.frees : ℚ) + frees)
  let ba ← double_to_size_t ((s.bytes_allocated : ℚ) + bytes_allocated)
  let bf ← double_to_size_t ((s.bytes_freed : ℚ) + bytes_freed)
  let ids := insert thread_id q.thread_ids
  pure
    { _profile :=
        { s with
          allocations := a
          frees := f
          bytes_allocated := ba
          bytes_freed := bf
          num_threads := ids.card }
      thread_ids := ids }

/-- The member function `reset()`. -/
def profile.reset (p : profile) : profile :=
  { _profile :=
      { p._profile with
        calls := 0
        stops := 0
        accumulated := 0
        sum_squares := 0
        minimum := DBL_MAX
        maximum := 0
        times_reset := p._profile.times_reset + 1
        num_threads := 1 }
    thread_ids := ∅ }

/-! ## Accessors (`profile.hpp`) -/

def profile.get_calls (p : profile) : ℚ := p._profile.calls

def profile.get_stops (p : profile) : ℚ := p._profile.stops

def profile.get_accumulated (p : profile) : ℚ := p._profile.accumulated

def profile.get_mean (p : profile) : ℚ := p.get_accumulated / p._profile.calls

def profile.get_inclusive_accumulated (p : profile) : ℚ :=
  if p._profile.type = apex_profile_type.APEX_TIMER then
    std_max p._profile.accumulated p._profile.inclusive_accumulated
  else 0

def profile.get_accumulated_useconds (p : profile) : ℚ :=
  p.get_accumulated * (1 / 1000)

def profile.get_accumulated_seconds (p : profile) : ℚ :=
  p.get_accumulated * (1 / 1000000000)

def profile.get_inclusive_accumulated_useconds (p : profile) : ℚ :=
  p.get_inclusive_accumulated * (1 / 1000)

def profile.get_inclusive_accumulated_seconds (p : profile) : ℚ :=
  p.get_inclusive_accumulated * (1 / 1000000000)

def profile.get_minimum (p : profile) : ℚ :=
  if p._profile.times_reset > 0 then
    if p._profile.minimum = DBL_MAX then 0
    else std_max p._profile.minimum 0
  else std_max p._profile.minimum 0

def profile.get_maximum (p : profile) : ℚ := p._profile.maximum

def profile.get_times_reset (p : profile) : Int := p._profile.times_reset

def profile.get_variance (p : profile) : ℚ :=
  let mean := p.get_mean
  let variance := p._profile.sum_squares / p._profile.calls - mean * mean
  if variance ≥ 0 then variance else 0

def profile.get_sum_squares (p : profile) : ℚ := p._profile.sum_squares

def profile.get_num_threads (p : profile) : ℚ := (p._profile.num_threads : ℚ)

def profile.get_allocations (p : profile) : ℚ := (p._profile.allocations : ℚ)

def profile.get_frees (p : profile) : ℚ := (p._profile.frees : ℚ)

def profile.get_bytes_allocated (p : profile) : ℚ := (p._profile.bytes_allocated : ℚ)

def profile.get_bytes_freed (p : profile) : ℚ := (p._profile.bytes_freed : ℚ)

def profile.get_type (p : profile) : apex_profile_type := p._profile.type

def profile.get_throttled (p : profile) : Bool := p._profile.throttled

/-! ## Sequences of operations -/

/-- The arguments of one call of the plain `increment`. -/
structure Sample where
  value : ℚ
  inclusive : ℚ
  num_metrics : Nat
  papi_metrics : List ℚ
  yielded : Bool
  thread_id : Nat

/-- The record constructed from a sample (the constructor takes no thread id). -/
def profile.of_sample (have_papi : Bool) (type : apex_profile_type) (s : Sample) : profile :=
  profile.construct have_papi s.value s.inclusive s.num_metrics s.papi_metrics s.yielded type

/-- One call of the plain `increment` with the arguments of a sample. -/
def profile.add_sample (have_papi : Bool) (p : profile) (s : Sample) : profile :=
  p.increment have_papi s.value s.inclusive s.num_metrics s.papi_metrics s.yielded s.thread_id

/-- The increments of a list of samples, applied from left to right. -/
def profile.add_samples (have_papi : Bool) (p : profile) (l : List Sample) : profile :=
  l.foldl (profile.add_sample have_papi) p

/-- The number of samples of a list that are not yielded. -/
def completed (l : List Sample) : Nat := (l.filter fun s => !s.yielded).length

/-- The records that a sample constructor followed by any sequence of
`increment` (either overload) and `reset` calls can produce. -/
inductive Reachable (have_papi : Bool) : profile → Prop where
  | construct (initial inclusive : ℚ) (num_metrics : Nat) (papi_metrics : List ℚ)
      (yielded : Bool) (type : apex_profile_type) :
      Reachable have_papi
        (profile.construct have_papi initial inclusive num_metrics papi_metrics yielded type)
  | construct_allocations (uninitialized : List ℚ) (initial inclusive : ℚ)
      (num_metrics : Nat) (papi_metrics : List ℚ) (yielded : Bool)
      (allocations frees bytes_allocated bytes_freed : ℚ) (r : profile) :
      profile.construct_allocations have_papi uninitialized initial inclusive num_metrics
        papi_metrics yielded allocations frees bytes_allocated bytes_freed = some r →
      Reachable have_papi r
  | increment (r : profile) (increase inclusive : ℚ) (num_metrics : Nat)
      (papi_metrics : List ℚ) (yielded : Bool) (thread_id : Nat) :
      Reachable have_papi r →
      Reachable have_papi
        (r.increment have_papi increase inclusive num_metrics papi_metrics yielded thread_id)
  | increment_allocations (r : profile) (increase inclusive : ℚ) (num_metrics : Nat)
      (papi_metrics : List ℚ) (allocations frees bytes_allocated bytes_freed : ℚ)
      (yielded : Bool) (thread_id : Nat) (r' : profile) :
      Reachable have_papi r →
      r.increment_allocations have_papi increase inclusive num_metrics papi_metrics
        allocations frees bytes_allocated bytes_freed yielded thread_id = some r' →
      Reachable have_papi r'
  | reset (r : profile) : Reachable have_papi r → Reachable have_papi r.reset


/-! ## Strings

A `std::string` is the list of its characters. -/

/-- `s.find(pat)`: the index of the first occurrence of `pat` in `s`, or `none`
for `std::string::npos`. -/
def find (pat : List Char) : List Char → Option Nat
  | [] => if pat.isPrefixOf [] then some 0 else none
  | c :: s => if pat.isPrefixOf (c :: s) then some 0 else (find pat s).map (· + 1)

/-- `s.find(pat) != std::string::npos`. -/
def contains (pat s : List Char) : Bool := (find pat s).isSome

/-- `s.rfind(pat, 0) == 0`: the search may only start at index 0, so it
succeeds exactly when `s` starts with `pat`. -/
def starts_with (s pat : List Char) : Bool := pat.isPrefixOf s

/-- Worker of `replace_all`: `skip` counts the characters of a match that are
still to be dropped. -/
def replace_all_aux (pat fmt : List Char) : Nat → List Char → List Char
  | _, [] => []
  | skip + 1, _ :: s => replace_all_aux pat fmt skip s
  | 0, c :: s =>
    if pat.isPrefixOf (c :: s) then fmt ++ replace_all_aux pat fmt (pat.length - 1) s
    else c :: replace_all_aux pat fmt 0 s

/-- `std::regex_replace(s, std::regex(pat), fmt)` for a non-empty pattern made
of ordinary characters and a format without `$`: the occurrences of `pat` are
found from left to right, each search starting where the previous match ended,
and each is replaced by `fmt`. -/
def replace_all (pat fmt s : List Char) : List Char := replace_all_aux pat fmt 0 s

/-! ## Task identifiers (`task_identifier.cpp`) -/

/-- The null function address `APEX_NULL_FUNCTION_ADDRESS`. -/
def APEX_NULL_FUNCTION_ADDRESS : Nat := 0

/-- Modelled from the spec: the class `task_identifier` is declared in
`task_identifier.hpp`, which is not among the sources at hand.  An identifier
is identified by an address or by a name; it holds the raw identity (`address`
or `name`, with `has_name` telling which) and the memoized resolved name
`_resolved_name`, empty until the first resolution.  These are the members that
`task_identifier.cpp` reads and writes. -/
structure task_identifier where
  address : Nat
  name : List Char
  _resolved_name : List Char
  has_name : Bool
  deriving DecidableEq

/-- Modelled from the spec: the constructor `task_identifier(a)` of the missing
header, an identifier identified by the address `a`, not yet resolved. -/
def task_identifier.of_address (a : Nat) : task_identifier :=
  { address := a, name := [], _resolved_name := [], has_name := false }

/-- Modelled from the spec: the constructor `task_identifier(n)` of the missing
header, an identifier identified by the name `n`. -/
def task_identifier.of_name (n : List Char) : task_identifier :=
  { address := APEX_NULL_FUNCTION_ADDRESS, name := n, _resolved_name := [], has_name := true }

/-- A `std::unordered_map`: an association list without duplicate keys. -/
abbrev unordered_map (K V : Type) := AList (fun _ : K => V)

/-- The number of entries of a table whose key is `k`. -/
def entries_for {K V : Type} [DecidableEq K] (m : unordered_map K V) (k : K) : Nat :=
  (m.keys.filter fun x => decide (x = k)).length

/-- The two interning tables of one thread: the objects behind the
`static APEX_NATIVE_TLS` pointers of `get_task_id_addr_map` and
`get_task_id_name_map`, from a key to a `task_identifier *`.  A pointer is the
index of the object in the heap of the interning state. -/
structure task_id_maps where
  task_id_addr_map : unordered_map Nat Nat
  task_id_name_map : unordered_map (List Char) Nat

/-- The state that `get_task_id` reads and writes: the identifier objects
created by `new` so far, in creation order, and the tables of every thread.
`APEX_NATIVE_TLS` is `thread_local`, so every thread has tables of its own. -/
structure interning_state where
  heap : List task_identifier
  maps : Nat → task_id_maps

/-- The state before the first call: no object, and tables that are created
empty by `new apex_addr_map()` and `new apex_name_map()` on first use. -/
def interning_state.initial : interning_state :=
  { heap := [], maps := fun _ => { task_id_addr_map := ∅, task_id_name_map := ∅ } }

/-- The function `get_task_id(apex_function_address a)`, called on thread
`tid`: the returned pointer and the state after the call. -/
def get_task_id_addr (st : interning_state) (tid : Nat) (a : Nat) : Nat × interning_state :=
  let task_id_addr_map := (st.maps tid).task_id_addr_map
  match task_id_addr_map.lookup a with
  | some got => (got, st)
  | none =>
    let tmp := st.heap.length
    (tmp,
      { heap := st.heap ++ [task_identifier.of_address a]
        maps := Function.update st.maps tid
          { st.maps tid with task_id_addr_map := task_id_addr_map.insert a tmp } })

/-- The function `get_task_id(const std::string& n)`, called on thread `tid`:
the returned pointer and the state after the call. -/
def get_task_id_name (st : interning_state) (tid : Nat) (n : List Char) :
    Nat × interning_state :=
  let task_id_name_map := (st.maps tid).task_id_name_map
  match task_id_name_map.lookup n with
  | some got => (got, st)
  | none =>
    let tmp := st.heap.length
    (tmp,
      { heap := st.heap ++ [task_identifier.of_name n]
        maps := Function.update st.maps tid
          { st.maps tid with task_id_name_map := task_id_name_map.insert n tmp } })

/-- The pointers stored in the tables are valid: each is the index of an
object of the heap that has the raw identity it is stored under. -/
def interning_state.valid (st : interning_state) : Prop :=
  (∀ tid a h, (st.maps tid).task_id_addr_map.lookup a = some h →
    ∃ obj, st.heap[h]? = some obj ∧ obj.has_name = false ∧ obj.address = a) ∧
  (∀ tid n h, (st.maps tid).task_id_name_map.lookup n = some h →
    ∃ obj, st.heap[h]? = some obj ∧ obj.has_name = true ∧ obj.name = n)


/-! ## Names of task identifiers (`task_identifier.cpp`) -/

/-- The collaborators of name resolution, none of which is among the sources at
hand: the address resolution of the thread instance
(`thread_instance::map_addr_to_name`), `demangle`, `lookup_address`, and the
library calls whose pattern or format is only known at run time (the second
token of `std::sregex_token_iterator` over the separator `" ADDR "`,
`sscanf` with `"%p"`, and `std::regex_replace(subject, std::regex(pattern),
format)`).  They are functions: their results depend on their arguments
only. -/
structure resolver where
  map_addr_to_name : Nat → List Char
  demangle : List Char → List Char
  lookup_address : Nat → List Char
  address_token : List Char → List Char
  scan_pointer : List Char → Nat
  regex_replace : List Char → List Char → List Char → List Char

/-- The outcome of a member function that returns a string: the string, the
identifier object after the call, and the number of address lookups
(`map_addr_to_name` or `lookup_address`) that the call made. -/
structure name_result where
  retval : List Char
  self : task_identifier
  lookups : Nat

/-- `regex_match(s, regex(".*UNRESOLVED ADDR (.*)"))`: the whole of `s` must
match, and `.` matches every character but a line terminator, so `s` contains
the text `"UNRESOLVED ADDR "` and no line terminator. -/
def unresolved_regex_match (s : List Char) : Bool :=
  contains "UNRESOLVED ADDR ".toList s && s.all fun ch => ch != '\n' && ch != '\r'

/-- The block of `get_name` that is compiled with `APEX_HAVE_BFD`: a name that
holds an unresolved address gets the address looked up and the placeholder
replaced.  The result is the new name and the number of address lookups. -/
def resolve_unresolved_addr (c : resolver) (retval : List Char) : List Char × Nat :=
  let addrstr := "UNRESOLVED ADDR".toList
  if contains addrstr retval then
    if unresolved_regex_match retval then
      let addr_str := c.address_token retval
      let addr_addr := c.scan_pointer addr_str
      let tmp := c.lookup_address addr_addr
      let s := "OpenMP ".toList
      if starts_with retval s then
        if contains addr_str tmp then
          (c.regex_replace retval ("UNRESOLVED ADDR ".toList ++ addr_str) tmp, 1)
        else
          (c.regex_replace retval "UNRESOLVED ADDR".toList tmp, 1)
      else
        (c.regex_replace retval ("UNRESOLVED ADDR ".toList ++ addr_str) tmp, 1)
    else (retval, 0)
  else (retval, 0)

/-- The tail of `get_name` for a name-identified task: a name that contains a
GPU marker is the marker followed by the demangled rest of the name, where the
rest is `retval.substr(marker.size(), retval.size() - marker.size())`. -/
def demangle_gpu_name (c : resolver) (retval : List Char) : List Char :=
  let cudastr := "GPU: ".toList
  let kernel := "cudaLaunchKernel: ".toList
  let kernel2 := "cuLaunchKernel: ".toList
  if contains cudastr retval then
    cudastr ++ c.demangle (retval.drop cudastr.length)
  else if contains kernel retval then
    kernel ++ c.demangle (retval.drop kernel.length)
  else if contains kernel2 retval then
    kernel2 ++ c.demangle (retval.drop kernel2.length)
  else retval

/-- The member function `get_name(resolve)`.  `have_bfd` tells whether
`APEX_HAVE_BFD` is defined.  The lock only serialises the resolution; the
second test of `_resolved_name` under the lock is kept. -/
def task_identifier.get_name (c : resolver) (have_bfd : Bool) (t : task_identifier)
    (resolve : Bool) : name_result :=
  if !t.has_name && resolve then
    if t._resolved_name = [] ∧ t.address ≠ APEX_NULL_FUNCTION_ADDRESS then
      if t._resolved_name = [] then
        let resolved := c.demangle (c.map_addr_to_name t.address)
        { retval := resolved, self := { t with _resolved_name := resolved }, lookups := 1 }
      else { retval := t._resolved_name, self := t, lookups := 0 }
    else { retval := t._resolved_name, self := t, lookups := 0 }
  else
    let retval := t.name
    if resolve then
      let r := if have_bfd then resolve_unresolved_addr c retval else (retval, 0)
      { retval := demangle_gpu_name c r.1, self := t, lookups := r.2 }
    else { retval := retval, self := t, lookups := 0 }

/-- The first step of `get_short_name`: cut the name at its first `(`. -/
def trim_arguments (shorter : List Char) : List Char :=
  match find "(".toList shorter with
  | some trim_at => shorter.take trim_at
  | none => shorter

/-- The second step of `get_short_name`: cut the name at its first `<`, unless
the name contains `addr`. -/
def trim_template (shorter : List Char) : List Char :=
  match find "<".toList shorter, find "addr".toList shorter with
  | some trim_at, none => shorter.take trim_at
  | _, _ => shorter

/-- The last step of `get_short_name`: a name of more than `maxlength = 50`
characters is resized to 47 characters and then to 50, filling with `'.'`. -/
def trim_length (shorter : List Char) : List Char :=
  let maxlength := 50
  if shorter.length > maxlength then
    shorter.take (maxlength - 3) ++ List.replicate (maxlength - (maxlength - 3)) '.'
  else shorter

/-- The member function `get_short_name()`. -/
def task_identifier.get_short_name (c : resolver) (have_bfd : Bool) (t : task_identifier) :
    name_result :=
  let r := t.get_name c have_bfd true
  { r with retval := trim_length (trim_template (trim_arguments r.retval)) }

/-- The member function `get_tree_name()`, up to its first `return` after the
replacements (the statements behind it are never executed).
`use_short_task_names` is the value of `apex_options::use_short_task_names()`. -/
def task_identifier.get_tree_name (c : resolver) (have_bfd use_short_task_names : Bool)
    (t : task_identifier) : name_result :=
  let r := t.get_name c have_bfd true
  let shorter := r.retval
  if !use_short_task_names then { r with retval := shorter }
  else
    let shorter := replace_all "Kokkos::Experimental::Impl::".toList "kok::".toList shorter
    let shorter := replace_all "Kokkos::Experimental::".toList "kok::".toList shorter
    let shorter := replace_all "Kokkos::Impl::".toList "kok::".toList shorter
    let shorter := replace_all "Kokkos::RangePolicy".toList "kok::range".toList shorter
    let shorter := replace_all "Kokkos::MDRangePolicy".toList "kok::md".toList shorter
    let shorter := replace_all "Kokkos::TeamPolicy".toList "kok::team".toList shorter
    let shorter := replace_all "ParallelFor".toList "p_for".toList shorter
    let shorter := replace_all "ParallelReduce".toList "p_red".toList shorter
    let shorter := replace_all "ParallelScan".toList "p_scan".toList shorter
    let shorter := replace_all "_parallel_launch_local_memory".toList "_local".toList shorter
    let shorter := replace_all "_parallel_launch_constant_memory".toList "_const".toList shorter
    { r with retval := shorter }

/-- The member function `get_group()`. -/
def task_identifier.get_group (c : resolver) (have_bfd : Bool) (t : task_identifier) :
    name_result :=
  let r := t.get_name c have_bfd true
  let name := r.retval
  let group :=
    if starts_with name "GPU: ".toList then "TAU_GPU".toList
    else if starts_with name "OpenMP ".toList then "TAU_OPENMP".toList
    else if starts_with name "OpenACC ".toList then "TAU_OPENACC".toList
    else if starts_with name "Kokkos".toList then "TAU_KOKKOS".toList
    else if starts_with name "MPI_".toList then "MPI".toList
    else if starts_with name "cuda".toList then "TAU_CUDA".toList
    else if starts_with name "hip".toList then "TAU_HIP".toList
    else if starts_with name "pthread".toList then "TAU_PTHREAD".toList
    else if starts_with name "hpx".toList then "TAU_HPX".toList
    else "TAU_USER".toList
  { r with retval := group }

/-- The ordered replacement rules of the tree name, as the specification lists
them: each pair is a pattern and its replacement. -/
def tree_name_rules : List (List Char × List Char) :=
  [("Kokkos::Experimental::Impl::".toList, "kok::".toList),
   ("Kokkos::Experimental::".toList, "kok::".toList),
   ("Kokkos::Impl::".toList, "kok::".toList),
   ("Kokkos::RangePolicy".toList, "kok::range".toList),
   ("Kokkos::MDRangePolicy".toList, "kok::md".toList),
   ("Kokkos::TeamPolicy".toList, "kok::team".toList),
   ("ParallelFor".toList, "p_for".toList),
   ("ParallelReduce".toList, "p_red".toList),
   ("ParallelScan".toList, "p_scan".toList),
   ("_parallel_launch_local_memory".toList, "_local".toList),
   ("_parallel_launch_constant_memory".toList, "_const".toList)]

/-- The results of `n` successive calls of `get_name(true)` on an identifier,
with the total number of address lookups made by the calls. -/
def get_name_repeatedly (c : resolver) (have_bfd : Bool) :
    Nat → task_identifier → List (List Char) × Nat
  | 0, _ => ([], 0)
  | n + 1, t =>
    let r := t.get_name c have_bfd true
    let rest := get_name_repeatedly c have_bfd n r.self
    (r.retval :: rest.1, r.lookups + rest.2)


/-- A resolver for concrete examples: every address resolves to `main`,
`demangle` changes nothing, the address token of a name is what follows its
first 16 characters (the length of `"UNRESOLVED ADDR "`), and a replacement
yields the format alone (the pattern matches the whole subject). -/
def sample_resolver : resolver :=
  { map_addr_to_name := fun _ => "main".toList
    demangle := fun s => s
    lookup_address := fun _ => "main".toList
    address_token := fun s => s.drop 16
    scan_pointer := fun _ => 1
    regex_replace := fun _ _ fmt => fmt }

/-- A resolver for concrete examples whose address resolution yields the empty
string. -/
def empty_resolver : resolver :=
  { sample_resolver with map_addr_to_name := fun _ => [] }


/-! ## Reduction of profiles across ranks (`profile_reducer.cpp`) -/

/-- The number of `double` slots of one row, `num_fields`. -/
def num_fields : Nat := 20

/-- A `std::map`: the list of its entries.  The operations below keep at most
one entry per key; the order of the keys is not represented. -/
abbrev std_map (K V : Type) := List (K × V)

/-- `m.find(k)`: the value of the entry of `k`, `none` for `m.end()`. -/
def std_map.find {K V : Type} [DecidableEq K] : std_map K V → K → Option V
  | [], _ => none
  | (k', v) :: m, k => if k' = k then some v else std_map.find m k

/-- The map in which the entry of `k` has the value `v`: the entry is
overwritten when it exists and added when it does not (`m[k] = v`, or a write
through the pointer that the entry holds). -/
def std_map.assign {K V : Type} [DecidableEq K] : std_map K V → K → V → std_map K V
  | [], k, v => [(k, v)]
  | (k', v') :: m, k, v =>
    if k' = k then (k, v) :: m else (k', v') :: std_map.assign m k v

/-- `m.insert(std::pair(k, v))`: a key that is present keeps its value. -/
def std_map.insert_new {K V : Type} [DecidableEq K] (m : std_map K V) (k : K) (v : V) :
    std_map K V :=
  if (std_map.find m k).isSome then m else std_map.assign m k v

/-- What `reduce_profiles` sees of the registry of one rank: for each task
identifier of `get_available_profiles()`, in order, the name that `get_name()`
returns for it and the profile that `get_profile` returns for it (`none` for a
null pointer). -/
abbrev registry := List (List Char × Option apex_profile)

/-- The map `tid_map` from names to identifiers, here from names to the profile
of the identifier.  `main_str` is the constant `APEX_MAIN_STR`, which is defined
in a header that is not at hand. -/
def build_tid_map (main_str : List Char) (tids : registry) :
    std_map (List Char) (Option apex_profile) :=
  tids.foldl
    (fun tid_map e => if e.1 = main_str then tid_map else std_map.insert_new tid_map e.1 e.2) []

/-- The profile that the row building finds for a name: `tid_map.find(name)`
and then `get_profile`, `none` when either fails. -/
def local_profile (main_str : List Char) (tids : registry) (name : List Char) :
    Option apex_profile :=
  (std_map.find (build_tid_map main_str tids) name).join

/-- The conversion `(double)p->type` of the enumeration. -/
def profile_type_to_double : apex_profile_type → ℚ
  | apex_profile_type.APEX_TIMER => 0
  | apex_profile_type.APEX_COUNTER => 1

/-- The conversion `(apex_profile_type)(x)` of a `double`: the fractional part
is discarded; the conversion is undefined (`none`) when the result is not a
value of the enumeration. -/
def double_to_profile_type (x : ℚ) : Option apex_profile_type :=
  if -1 < x ∧ x < 1 then some apex_profile_type.APEX_TIMER
  else if 1 ≤ x ∧ x < 2 then some apex_profile_type.APEX_COUNTER
  else none

/-- Conversion of a `double` to `int`: the fractional part is discarded.  As
for `times_reset`, values outside the range of `int` are not modelled. -/
def double_to_int (x : ℚ) : Int := if 0 ≤ x then Rat.floor x else -Rat.floor (-x)

/-- The row of 20 slots that a rank sends for one name: zeros (from `calloc`)
when the rank has no profile for the name, else the fields of the profile, the
eight hardware counters only for a timer.  The slots 8 to 11 hold the `size_t`
allocation fields converted to `double`; the conversion is the exact one here,
as it is in the code for values of at most 2^53 (greater values are rounded
to 53 significant bits there): the statements on the value of an allocation
field that has passed through a row carry the bound 2^53. -/
def build_row : Option apex_profile → List ℚ
  | none => List.replicate num_fields 0
  | some p =>
    [if p.calls = 0 then 1 else p.calls,
     if p.stops = 0 then 1 else p.stops,
     p.accumulated,
     p.sum_squares,
     p.minimum,
     p.maximum,
     (p.times_reset : ℚ),
     profile_type_to_double p.type,
     (p.allocations : ℚ),
     (p.frees : ℚ),
     (p.bytes_allocated : ℚ),
     (p.bytes_freed : ℚ)] ++
    (if p.type = apex_profile_type.APEX_TIMER then
      [p.papi_metrics.getD 0 0, p.papi_metrics.getD 1 0, p.papi_metrics.getD 2 0,
       p.papi_metrics.getD 3 0, p.papi_metrics.getD 4 0, p.papi_metrics.getD 5 0,
       p.papi_metrics.getD 6 0, p.papi_metrics.getD 7 0]
    else List.replicate 8 0)

/-- The send buffer `s_pdata` of one rank: the rows of the names of
`all_names`, in the order of the set. -/
def build_rows (main_str : List Char) (tids : registry) : List (List Char) → List ℚ
  | [] => []
  | name :: rest =>
    build_row (local_profile main_str tids name) ++ build_rows main_str tids rest

/-- The receive buffer `r_pdata` of rank 0 after `PMPI_Gather`: the send
buffers of all ranks in rank order (with one rank, the send buffer itself). -/
def gather_rows (main_str : List Char) (all_names : List (List Char)) :
    List registry → List ℚ
  | [] => []
  | tids :: rest => build_rows main_str tids all_names ++ gather_rows main_str all_names rest

/-- The profile that the combining loop creates for a name it meets for the
first time: zeroed by `calloc`, with the type of the row at hand and the
minimum `DBL_MAX`. -/
def new_entry (type : apex_profile_type) : apex_profile :=
  { apex_profile.zeroed with type := type, minimum := DBL_MAX }

/-- The assignments of the combining loop for the row at `dptr`, once the type
slot and the four allocation slots are converted: sums for the counts, the
accumulated value, the sum of squares and the reset count, the smaller minimum,
the greater maximum, the type and the allocation fields of the row, and for a
timer the sums of the eight hardware counters. -/
def combine_into (p : apex_profile) (dptr : List ℚ) (type : apex_profile_type)
    (allocations frees bytes_allocated bytes_freed : Nat) : apex_profile :=
  { p with
    calls := p.calls + dptr.getD 0 0
    stops := p.stops + dptr.getD 1 0
    accumulated := p.accumulated + dptr.getD 2 0
    sum_squares := p.sum_squares + dptr.getD 3 0
    minimum := if dptr.getD 4 0 < p.minimum then dptr.getD 4 0 else p.minimum
    maximum := if dptr.getD 5 0 > p.maximum then dptr.getD 5 0 else p.maximum
    times_reset := double_to_int ((p.times_reset : ℚ) + dptr.getD 6 0)
    type := type
    allocations := allocations
    frees := frees
    bytes_allocated := bytes_allocated
    bytes_freed := bytes_freed
    papi_metrics :=
      if type = apex_profile_type.APEX_TIMER then
        [p.papi_metrics.getD 0 0 + dptr.getD 12 0, p.papi_metrics.getD 1 0 + dptr.getD 13 0,
         p.papi_metrics.getD 2 0 + dptr.getD 14 0, p.papi_metrics.getD 3 0 + dptr.getD 15 0,
         p.papi_metrics.getD 4 0 + dptr.getD 16 0, p.papi_metrics.getD 5 0 + dptr.getD 17 0,
         p.papi_metrics.getD 6 0 + dptr.getD 18 0, p.papi_metrics.getD 7 0 + dptr.getD 19 0]
      else p.papi_metrics }

/-- The body of the combining loop for one name and one row at `dptr`: `found`
is the profile that `all_profiles.find(name)` yields, and a missing one is
created.  The result is the profile after the row has been combined into it. -/
def merge_entry (found : Option apex_profile) (dptr : List ℚ) : Option apex_profile := do
  let p ←
    match found with
    | none => do
      let type ← double_to_profile_type (dptr.getD 7 0)
      pure (new_entry type)
    | some p => pure p
  let type ← double_to_profile_type (dptr.getD 7 0)
  let allocations ← double_to_size_t (dptr.getD 8 0)
  let frees ← double_to_size_t (dptr.getD 9 0)
  let bytes_allocated ← double_to_size_t (dptr.getD 10 0)
  let bytes_freed ← double_to_size_t (dptr.getD 11 0)
  pure (combine_into p dptr type allocations frees bytes_allocated bytes_freed)

/-- The inner loop of the combining step, `for (auto name : all_names)`: each
name combines the row at `dptr` into its profile, and `dptr` advances by one
row. -/
def combine_names :
    List (List Char) → std_map (List Char) apex_profile → List ℚ →
      Option (std_map (List Char) apex_profile × List ℚ)
  | [], all_profiles, dptr => some (all_profiles, dptr)
  | name :: rest, all_profiles, dptr => do
    let p ← merge_entry (std_map.find all_profiles name) dptr
    combine_names rest (std_map.assign all_profiles name p) (dptr.drop num_fields)

/-- The outer loop of the combining step, `for (i = 0; i < commsize; i++)`. -/
def combine_ranks (all_names : List (List Char)) :
    Nat → std_map (List Char) apex_profile → List ℚ →
      Option (std_map (List Char) apex_profile × List ℚ)
  | 0, all_profiles, dptr => some (all_profiles, dptr)
  | commsize + 1, all_profiles, dptr => do
    let s ← combine_names all_names all_profiles dptr
    combine_ranks all_names commsize s.1 s.2

/-- The second phase of `reduce_profiles` as rank 0 runs it, for the unified
name set `all_names` and the registries of all ranks in rank order: the rows
are built, gathered, and combined into `all_profiles`. -/
def reduce_rows (main_str : List Char) (all_names : List (List Char))
    (ranks : List registry) : Option (std_map (List Char) apex_profile) :=
  (combine_ranks all_names ranks.length [] (gather_rows main_str all_names ranks)).map Prod.fst

/-- The rows of one name combined in rank order, starting from `found`. -/
def merge_rows : Option apex_profile → List (List ℚ) → Option (Option apex_profile)
  | found, [] => some found
  | found, row :: rows => (merge_entry found row).bind fun p => merge_rows (some p) rows

/-- The value that a rank sends for the calls of a name: 0 without a profile,
and 1 in place of a call count of 0. -/
def sent_calls (p : Option apex_profile) : ℚ :=
  match p with
  | none => 0
  | some p => if p.calls = 0 then 1 else p.calls

/-- The value that a rank sends for the stops of a name: 0 without a profile,
and 1 in place of a stop count of 0. -/
def sent_stops (p : Option apex_profile) : ℚ :=
  match p with
  | none => 0
  | some p => if p.stops = 0 then 1 else p.stops

/-- The allocation fields of a profile are in the range of `size_t`. -/
def apex_profile.representable (p : apex_profile) : Prop :=
  p.allocations < 2 ^ 64 ∧ p.frees < 2 ^ 64 ∧ p.bytes_allocated < 2 ^ 64 ∧
    p.bytes_freed < 2 ^ 64


/-- The inner combining loop on the rows themselves: `row name` is the row of
`name` in the buffer of the rank at hand. -/
def merge_names (row : List Char → List ℚ) :
    List (List Char) → std_map (List Char) apex_profile →
      Option (std_map (List Char) apex_profile)
  | [], all_profiles => some all_profiles
  | name :: rest, all_profiles =>
    (merge_entry (std_map.find all_profiles name) (row name)).bind fun p =>
      merge_names row rest (std_map.assign all_profiles name p)

/-- The outer combining loop on the rows themselves. -/
def merge_ranks (main_str : List Char) (all_names : List (List Char)) :
    List registry → std_map (List Char) apex_profile →
      Option (std_map (List Char) apex_profile)
  | [], all_profiles => some all_profiles
  | tids :: rest, all_profiles =>
    (merge_names (fun name => build_row (local_profile main_str tids name)) all_names
      all_profiles).bind fun m => merge_ranks main_str all_names rest m

/-- The value that a rank sends for hardware counter `j` of a name: the counter
of a timer, 0 for a counter or without a profile. -/
def sent_papi (j : Nat) (p : Option apex_profile) : ℚ :=
  match p with
  | none => 0
  | some p => if p.type = apex_profile_type.APEX_TIMER then p.papi_metrics.getD j 0 else 0


/-- Every profile of a registry has its allocation fields in the range of
`size_t`. -/
def registry_representable (tids : registry) : Prop :=
  ∀ e ∈ tids, ∀ q, e.2 = some q → q.representable

/-- A timer profile for concrete examples, with the given calls (and as many
stops) and accumulated value. -/
def sample_timer (calls accumulated : ℚ) : apex_profile :=
  { apex_profile.zeroed with
    calls := calls, stops := calls, accumulated := accumulated,
    sum_squares := accumulated * accumulated, minimum := 1, maximum := accumulated }


/-- A pattern `q` and a replacement text `r` do not overlap: neither occurs in
the other, no non-empty end of `q` starts `r`, and no non-empty start of `q`
ends `r`.  Then an occurrence of `q` cannot share a character with an inserted
copy of `r`. -/
def no_overlap (q r : List Char) : Prop :=
  ¬ r <:+: q ∧ ¬ q <:+: r ∧ (∀ x ∈ q.tails, x ≠ [] → ¬ x <+: r) ∧
    (∀ x ∈ q.inits, x ≠ [] → ¬ x <:+ r)

instance no_overlap_decidable (q r : List Char) : Decidable (no_overlap q r) := by
  unfold no_overlap
  infer_instance

/-- A timer profile for concrete examples with the given allocation fields. -/
def sample_allocations (allocations frees bytes_allocated bytes_freed : Nat) : apex_profile :=
  { sample_timer 1 1 with
    allocations := allocations, frees := frees, bytes_allocated := bytes_allocated,
    bytes_freed := bytes_freed }

/-- A counter profile for concrete examples, with the given calls (and as many
stops) and accumulated value. -/
def sample_counter (calls accumulated : ℚ) : apex_profile :=
  { sample_timer calls accumulated with type := apex_profile_type.APEX_COUNTER }

/-- The decision procedure of `registry_representable`. -/
def registry_in_range (tids : registry) : Bool :=
  tids.all fun e =>
    match e.2 with
    | none => true
    | some q =>
      decide (q.allocations < 2 ^ 64) && decide (q.frees < 2 ^ 64) &&
        decide (q.bytes_allocated < 2 ^ 64) && decide (q.bytes_freed < 2 ^ 64)

/-! ## The unified name set and the whole of `reduce_profiles` -/

/-- The character that ends a C string. -/
def NUL : Char := Char.ofNat 0

/-- A `std::set<std::string>`: the list of its members in the order of the
set, which is the lexicographic order of the character codes. -/
abbrev std_set := List (List Char)

/-- The call `s.insert(x)`: a member is not inserted again, and a new one takes its
place in the order. -/
def std_set.insert (s : std_set) (x : List Char) : std_set :=
  if x ∈ s then s else List.orderedInsert (· ≤ ·) x s

/-- The set `all_names` after the loop over `tids`: the names of the local
registry other than `main_str`. -/
def local_names (main_str : List Char) (tids : registry) : std_set :=
  tids.foldl
    (fun all_names e => if e.1 = main_str then all_names else std_set.insert all_names e.1) []

/-- The array `length` that a rank contributes to the all-reduce: the number
of local names, and the size of the longest one plus 1. -/
def name_lengths (all_names : std_set) : Nat × Nat :=
  (all_names.length,
   all_names.foldl (fun len1 name => if name.length > len1 then name.length else len1) 0 + 1)

/-- The call of `PMPI_Allreduce` with `MPI_MAX` on the two-element arrays of all ranks
(with one rank, the copy of its own array). -/
def allreduce_max (lengths : List (Nat × Nat)) : Nat × Nat :=
  (lengths.foldl (fun m l => max m l.1) 0, lengths.foldl (fun m l => max m l.2) 0)

/-- The string `s.c_str()` as the functions of C see it: the characters before the first
NUL. -/
def c_str (s : List Char) : List Char := s.takeWhile (· ≠ NUL)

/-- The `n` characters that `strncpy(ptr, src, n)` writes: the first `n`
characters of the C string, padded with NUL when it is shorter. -/
def strncpy (src : List Char) (n : Nat) : List Char :=
  (c_str src).take n ++ List.replicate (n - (c_str src).length) NUL

/-- The send buffer `sbuf` of one rank: `max_length[0]` slots of
`max_length[1]` characters, zeroed by `calloc`, the local names copied by
`strncpy` into the first slots in the order of the set.  (The local count is
never above `max_length[0]`, the maximum over the ranks.) -/
def name_buffer (max_length : Nat × Nat) (all_names : std_set) : List Char :=
  (all_names.map fun name => strncpy name max_length.2).flatten
    ++ List.replicate ((max_length.1 - all_names.length) * max_length.2) NUL

/-- The slots of the send buffer of one rank, one list per slot. -/
def name_slots (max_length : Nat × Nat) (all_names : std_set) : List (List Char) :=
  (all_names.map fun name => strncpy name max_length.2)
    ++ List.replicate (max_length.1 - all_names.length) (List.replicate max_length.2 NUL)

/-- The string `std::string tmp{ptr}`: the characters from `ptr` up to the first NUL. -/
def string_at (buf : List Char) (ptr : Nat) : List Char :=
  (buf.drop ptr).takeWhile (· ≠ NUL)

/-- The loop over the gathered names: `ptr` visits the `slots` slots of `rbuf`
(`rbuf_length` is `slots * max_length[1]` and `max_length[1]` is at least 1),
and the string of a slot is inserted when the set does not have it. -/
def insert_gathered (rbuf : List Char) (max_length1 slots : Nat) (all_names : std_set) :
    std_set :=
  (List.range slots).foldl
    (fun names i =>
      if string_at rbuf (i * max_length1) ∈ names then names
      else std_set.insert names (string_at rbuf (i * max_length1)))
    all_names

/-- The array `max_length` after the all-reduce, `ranks` being the registries
of all ranks in rank order. -/
def max_length (main_str : List Char) (ranks : List registry) : Nat × Nat :=
  allreduce_max (ranks.map fun r => name_lengths (local_names main_str r))

/-- The receive buffer `rbuf` after `PMPI_Allgather`: the send buffers of all
ranks in rank order (with one rank, `sbuf` itself). -/
def rbuf (main_str : List Char) (ranks : List registry) : List Char :=
  (ranks.map fun r => name_buffer (max_length main_str ranks) (local_names main_str r)).flatten

/-- The slots of `rbuf`, one list per slot. -/
def all_slots (main_str : List Char) (ranks : List registry) : List (List Char) :=
  (ranks.map fun r =>
    name_slots (max_length main_str ranks) (local_names main_str r)).flatten

/-- The set `all_names` of the rank whose registry is `tids`, after the first
phase: the local names and the gathered names. -/
def unified_names (main_str : List Char) (ranks : List registry) (tids : registry) : std_set :=
  insert_gathered (rbuf main_str ranks) (max_length main_str ranks).2
    ((max_length main_str ranks).1 * ranks.length) (local_names main_str tids)

/-- The collective operations of `reduce_profiles`. -/
inductive collective where
  | allreduce
  | allgather
  | gather
  | barrier
  deriving DecidableEq, Repr

/-- What a call of `reduce_profiles` leaves on one rank: the table it returns
and the collective operations it has called, in order. -/
structure reduce_outcome where
  all_profiles : std_map (List Char) apex_profile
  collectives : List collective

/-- The collective operations that a rank calls when it does not return at
once: all four when `mpi_initialized && commsize > 1`, none otherwise. -/
def collective_calls (commsize : Nat) : List collective :=
  if 1 < commsize then
    [collective.allreduce, collective.allgather, collective.gather, collective.barrier]
  else []

/-- The call of `reduce_profiles` on rank `commrank`, `ranks` being the
registries of all ranks in rank order (one registry without MPI).  A rank with
an empty registry returns at once.  Any other rank goes through the
collectives, which are called when there is more than one rank; they complete
only when every rank enters them, so the result is `none` when another rank has
returned at once.  It is also `none` when a conversion of the combining loop is
undefined.  Rank 0 receives the rows that each rank has built for the names of
its own `all_names`. -/
def reduce_profiles (main_str : List Char) (ranks : List registry) (commrank : Nat) :
    Option reduce_outcome :=
  let tids := ranks.getD commrank []
  if tids.length < 1 then some { all_profiles := [], collectives := [] }
  else if ranks.any (fun r => decide (r.length < 1)) then none
  else
    let all_names := unified_names main_str ranks tids
    let r_pdata :=
      (ranks.map fun r => build_rows main_str r (unified_names main_str ranks r)).flatten
    if commrank = 0 then
      (combine_ranks all_names ranks.length [] r_pdata).map fun s =>
        { all_profiles := s.1, collectives := collective_calls ranks.length }
    else some { all_profiles := [], collectives := collective_calls ranks.length }

/-- The mean of a list of values. -/
def population_mean (vs : List ℚ) : ℚ := vs.sum / (vs.length : ℚ)

/-- The population variance of a list of values: the mean of the squared
deviations from the mean of the list. -/
def population_variance (vs : List ℚ) : ℚ :=
  (vs.map fun v => (v - population_mean vs) ^ 2).sum / (vs.length : ℚ)

/-- The allocation fields of a profile are at most 2^53: up to that bound
every whole number is a `double`, so the fields pass through a row of
`double` slots unchanged. -/
def apex_profile.exactly_convertible (p : apex_profile) : Prop :=
  p.allocations ≤ 2 ^ 53 ∧ p.frees ≤ 2 ^ 53 ∧ p.bytes_allocated ≤ 2 ^ 53 ∧
    p.bytes_freed ≤ 2 ^ 53

/-- Every profile of a registry has allocation fields of at most 2^53. -/
def registry_exactly_convertible (tids : registry) : Prop :=
  ∀ e ∈ tids, ∀ q, e.2 = some q → q.exactly_convertible

/-- The decision procedure of `registry_exactly_convertible`. -/
def registry_exactly_convertible_check (tids : registry) : Bool :=
  tids.all fun e =>
    match e.2 with
    | none => true
    | some q =>
      decide (q.allocations ≤ 2 ^ 53) && decide (q.frees ≤ 2 ^ 53) &&
        decide (q.bytes_allocated ≤ 2 ^ 53) && decide (q.bytes_freed ≤ 2 ^ 53)

/-- The records that a thread which takes no lock can see while `increment`
runs on the record `p`: the record before the call and the record after each
statement of `increment`, in program order (each iteration of the loop over
the hardware counters is a statement, and the record after the loop is listed
once more).  The last one is the record after the call. -/
def profile.increment_stages (have_papi : Bool) (p : profile) (increase inclusive : ℚ)
    (num_metrics : Nat) (papi_metrics : List ℚ) (yielded : Bool)
    (thread_id : Nat) : List profile :=
  let s0 := p._profile
  let s1 := { s0 with accumulated := s0.accumulated + increase }
  let s2 := { s1 with inclusive_accumulated := s1.inclusive_accumulated + inclusive }
  let s3 := { s2 with stops := s2.stops + 1 }
  let loop :=
    if have_papi then
      (List.range num_metrics).map fun i =>
        { s3 with papi_metrics := papi_accumulate (i + 1) papi_metrics s3.papi_metrics }
    else []
  let s4 :=
    { s3 with
      papi_metrics :=
        if have_papi then papi_accumulate num_metrics papi_metrics s3.papi_metrics
        else s3.papi_metrics }
  let s5 := { s4 with sum_squares := s4.sum_squares + increase * increase }
  let s6 := { s5 with minimum := if s5.minimum > increase then increase else s5.minimum }
  let s7 := { s6 with maximum := if s6.maximum < increase then increase else s6.maximum }
  let s8 := { s7 with calls := if !yielded then s7.calls + 1 else s7.calls }
  let ids := insert thread_id p.thread_ids
  (([s0, s1, s2, s3] ++ loop ++ [s4, s5, s6, s7, s8]).map fun s =>
      ({ _profile := s, thread_ids := p.thread_ids } : profile))
    ++ [{ _profile := s8, thread_ids := ids },
        { _profile := { s8 with num_threads := ids.card }, thread_ids := ids }]

/-! ## Auxiliary facts -/

theorem increment_minimum_eq (have_papi : Bool) (r : profile) (value inclusive : ℚ)
    (num_metrics : Nat) (papi_metrics : List ℚ) (yielded : Bool) (thread_id : Nat) :
    (r.increment have_papi value inclusive num_metrics papi_metrics yielded
      thread_id)._profile.minimum = min r._profile.minimum value := by
  show (if r._profile.minimum > value then value else r._profile.minimum) = _
  split_ifs with h
  · exact (min_eq_right (le_of_lt h)).symm
  · exact (min_eq_left (not_lt.mp h)).symm

theorem increment_maximum_eq (have_papi : Bool) (r : profile) (value inclusive : ℚ)
    (num_metrics : Nat) (papi_metrics : List ℚ) (yielded : Bool) (thread_id : Nat) :
    (r.increment have_papi value inclusive num_metrics papi_metrics yielded
      thread_id)._profile.maximum = max r._profile.maximum value := by
  show (if r._profile.maximum < value then value else r._profile.maximum) = _
  split_ifs with h
  · exact (max_eq_right (le_of_lt h)).symm
  · exact (max_eq_left (not_lt.mp h)).symm

theorem increment_calls_eq (have_papi : Bool) (r : profile) (value inclusive : ℚ)
    (num_metrics : Nat) (papi_metrics : List ℚ) (yielded : Bool) (thread_id : Nat) :
    (r.increment have_papi value inclusive num_metrics papi_metrics yielded
      thread_id)._profile.calls = r._profile.calls + (if yielded then 0 else 1) := by
  show (if (!yielded) = true then r._profile.calls + 1 else r._profile.calls) = _
  cases yielded <;> simp

theorem add_samples_nil (have_papi : Bool) (p : profile) :
    p.add_samples have_papi [] = p := rfl

theorem add_samples_cons (have_papi : Bool) (p : profile) (s : Sample) (l : List Sample) :
    p.add_samples have_papi (s :: l) = (p.add_sample have_papi s).add_samples have_papi l := rfl

theorem completed_cons (s : Sample) (l : List Sample) :
    completed (s :: l) = (if s.yielded then 0 else 1) + completed l := by
  unfold completed
  cases h : s.yielded <;> simp [List.filter_cons, h, Nat.add_comm]

theorem add_samples_accumulated (have_papi : Bool) (l : List Sample) :
    ∀ p : profile, (p.add_samples have_papi l)._profile.accumulated =
      p._profile.accumulated + (l.map Sample.value).sum := by
  induction l with
  | nil => intro p; simp [add_samples_nil]
  | cons s l ih =>
    intro p
    rw [add_samples_cons, ih]
    show p._profile.accumulated + s.value + _ = _
    simp [add_assoc]

theorem add_samples_calls (have_papi : Bool) (l : List Sample) :
    ∀ p : profile, (p.add_samples have_papi l)._profile.calls =
      p._profile.calls + (completed l : ℚ) := by
  induction l with
  | nil => intro p; simp [add_samples_nil, completed]
  | cons s l ih =>
    intro p
    rw [add_samples_cons, ih, completed_cons]
    unfold profile.add_sample
    rw [increment_calls_eq]
    cases s.yielded <;> simp [add_assoc]

theorem add_samples_minimum (have_papi : Bool) (l : List Sample) :
    ∀ p : profile, (p.add_samples have_papi l)._profile.minimum =
      (l.map Sample.value).foldl min p._profile.minimum := by
  induction l with
  | nil => intro p; rfl
  | cons s l ih =>
    intro p
    rw [add_samples_cons, ih]
    unfold profile.add_sample
    rw [increment_minimum_eq]
    rfl

theorem add_samples_maximum (have_papi : Bool) (l : List Sample) :
    ∀ p : profile, (p.add_samples have_papi l)._profile.maximum =
      (l.map Sample.value).foldl max p._profile.maximum := by
  induction l with
  | nil => intro p; rfl
  | cons s l ih =>
    intro p
    rw [add_samples_cons, ih]
    unfold profile.add_sample
    rw [increment_maximum_eq]
    rfl

theorem foldl_min_le_init (l : List ℚ) : ∀ a : ℚ, l.foldl min a ≤ a := by
  induction l with
  | nil => intro a; exact le_refl a
  | cons x l ih => intro a; exact le_trans (ih (min a x)) (min_le_left a x)

theorem foldl_min_le_of_mem (l : List ℚ) : ∀ a : ℚ, ∀ v ∈ l, l.foldl min a ≤ v := by
  induction l with
  | nil => intro a v hv; cases hv
  | cons x l ih =>
    intro a v hv
    rcases List.mem_cons.mp hv with h | h
    · subst h
      exact le_trans (foldl_min_le_init l (min a v)) (min_le_right a v)
    · exact ih (min a x) v h

theorem foldl_min_mem (l : List ℚ) : ∀ a : ℚ, l.foldl min a ∈ a :: l := by
  induction l with
  | nil => intro a; simp
  | cons x l ih =>
    intro a
    have h := ih (min a x)
    rcases List.mem_cons.mp h with h1 | h1
    · rw [List.foldl_cons, h1]
      rcases min_choice a x with h2 | h2 <;> simp [h2]
    · exact List.mem_cons_of_mem a (List.mem_cons_of_mem x h1)

theorem foldl_max_ge_init (l : List ℚ) : ∀ a : ℚ, a ≤ l.foldl max a := by
  induction l with
  | nil => intro a; exact le_refl a
  | cons x l ih => intro a; exact le_trans (le_max_left a x) (ih (max a x))

theorem foldl_max_ge_of_mem (l : List ℚ) : ∀ a : ℚ, ∀ v ∈ l, v ≤ l.foldl max a := by
  induction l with
  | nil => intro a v hv; cases hv
  | cons x l ih =>
    intro a v hv
    rcases List.mem_cons.mp hv with h | h
    · subst h
      exact le_trans (le_max_right a v) (foldl_max_ge_init l (max a v))
    · exact ih (max a x) v h

theorem foldl_max_mem (l : List ℚ) : ∀ a : ℚ, l.foldl max a ∈ a :: l := by
  induction l with
  | nil => intro a; simp
  | cons x l ih =>
    intro a
    have h := ih (max a x)
    rcases List.mem_cons.mp h with h1 | h1
    · rw [List.foldl_cons, h1]
      rcases max_choice a x with h2 | h2 <;> simp [h2]
    · exact List.mem_cons_of_mem a (List.mem_cons_of_mem x h1)

/-- A member of a list that bounds the list from below is determined by the
members of the list. -/
theorem least_member_unique (l l' : List ℚ) (m m' : ℚ) (hsub : ∀ v, v ∈ l ↔ v ∈ l')
    (hm : m ∈ l) (hle : ∀ v ∈ l, m ≤ v) (hm' : m' ∈ l') (hle' : ∀ v ∈ l', m' ≤ v) :
    m = m' :=
  le_antisymm (hle m' ((hsub m').mpr hm')) (hle' m ((hsub m).mp hm))

/-- A member of a list that bounds the list from above is determined by the
members of the list. -/
theorem greatest_member_unique (l l' : List ℚ) (m m' : ℚ) (hsub : ∀ v, v ∈ l ↔ v ∈ l')
    (hm : m ∈ l) (hge : ∀ v ∈ l, v ≤ m) (hm' : m' ∈ l') (hge' : ∀ v ∈ l', v ≤ m') :
    m = m' :=
  le_antisymm (hge' m ((hsub m).mp hm)) (hge m' ((hsub m').mpr hm'))

theorem construct_allocations_fields (have_papi : Bool) (uninitialized : List ℚ)
    (initial inclusive : ℚ) (num_metrics : Nat) (papi_metrics : List ℚ) (yielded : Bool)
    (allocations frees bytes_allocated bytes_freed : ℚ) (r : profile)
    (h : profile.construct_allocations have_papi uninitialized initial inclusive num_metrics
      papi_metrics yielded allocations frees bytes_allocated bytes_freed = some r) :
    r._profile.calls = (if yielded then 0 else 1) ∧ r._profile.stops = 1 ∧
    r._profile.sum_squares = initial * initial ∧ r._profile.minimum = initial ∧
    r._profile.maximum = initial ∧ r._profile.times_reset = 0 := by
  simp only [profile.construct_allocations, bind, pure, Option.bind_eq_some] at h
  obtain ⟨a, -, f, -, ba, -, bf, -, h⟩ := h
  cases Option.some.inj h
  refine ⟨?_, rfl, rfl, rfl, rfl, rfl⟩
  cases yielded <;> simp

theorem increment_allocations_fields (have_papi : Bool) (r : profile)
    (increase inclusive : ℚ) (num_metrics : Nat) (papi_metrics : List ℚ)
    (allocations frees bytes_allocated bytes_freed : ℚ) (yielded : Bool)
    (thread_id : Nat) (r' : profile)
    (h : r.increment_allocations have_papi increase inclusive num_metrics papi_metrics
      allocations frees bytes_allocated bytes_freed yielded thread_id = some r') :
    r'._profile.calls = (r.increment have_papi increase inclusive num_metrics papi_metrics
      yielded thread_id)._profile.calls ∧
    r'._profile.stops = (r.increment have_papi increase inclusive num_metrics papi_metrics
      yielded thread_id)._profile.stops ∧
    r'._profile.sum_squares = (r.increment have_papi increase inclusive num_metrics
      papi_metrics yielded thread_id)._profile.sum_squares ∧
    r'._profile.minimum = (r.increment have_papi increase inclusive num_metrics papi_metrics
      yielded thread_id)._profile.minimum ∧
    r'._profile.maximum = (r.increment have_papi increase inclusive num_metrics papi_metrics
      yielded thread_id)._profile.maximum ∧
    r'._profile.times_reset = (r.increment have_papi increase inclusive num_metrics
      papi_metrics yielded thread_id)._profile.times_reset := by
  simp only [profile.increment_allocations, bind, pure, Option.bind_eq_some] at h
  obtain ⟨a, -, f, -, ba, -, bf, -, h⟩ := h
  cases Option.some.inj h
  exact ⟨rfl, rfl, rfl, rfl, rfl, rfl⟩

theorem increment_min_le_max (have_papi : Bool) (r : profile) (value inclusive : ℚ)
    (num_metrics : Nat) (papi_metrics : List ℚ) (yielded : Bool) (thread_id : Nat) :
    (r.increment have_papi value inclusive num_metrics papi_metrics yielded
      thread_id)._profile.minimum ≤
    (r.increment have_papi value inclusive num_metrics papi_metrics yielded
      thread_id)._profile.maximum := by
  rw [increment_minimum_eq, increment_maximum_eq]
  exact le_trans (min_le_right _ _) (le_max_right _ _)

theorem DBL_MAX_pos : 0 < DBL_MAX := by
  unfold DBL_MAX
  norm_num

/-! ## Increment and construction -/

/-- The four order-independent statistics of a record built from a sample and
a list of further samples. -/
theorem add_samples_summary (have_papi : Bool) (type : apex_profile_type) (s0 : Sample)
    (l : List Sample) :
    ((profile.of_sample have_papi type s0).add_samples have_papi l)._profile.accumulated
        = ((s0 :: l).map Sample.value).sum ∧
    ((profile.of_sample have_papi type s0).add_samples have_papi l)._profile.calls
        = (completed (s0 :: l) : ℚ) ∧
    (((profile.of_sample have_papi type s0).add_samples have_papi l)._profile.minimum
        ∈ (s0 :: l).map Sample.value ∧
      ∀ v ∈ (s0 :: l).map Sample.value,
        ((profile.of_sample have_papi type s0).add_samples have_papi l)._profile.minimum ≤ v) ∧
    (((profile.of_sample have_papi type s0).add_samples have_papi l)._profile.maximum
        ∈ (s0 :: l).map Sample.value ∧
      ∀ v ∈ (s0 :: l).map Sample.value,
        v ≤ ((profile.of_sample have_papi type s0).add_samples have_papi l)._profile.maximum) := by
  have hacc : (profile.of_sample have_papi type s0)._profile.accumulated = s0.value := rfl
  have hmin : (profile.of_sample have_papi type s0)._profile.minimum = s0.value := rfl
  have hmax : (profile.of_sample have_papi type s0)._profile.maximum = s0.value := rfl
  have hcalls : (profile.of_sample have_papi type s0)._profile.calls
      = (if s0.yielded then 0 else 1) := by
    show (if (!s0.yielded) = true then (1 : ℚ) else 0) = _
    cases s0.yielded <;> simp
  rw [add_samples_accumulated, add_samples_calls, add_samples_minimum, add_samples_maximum,
    hacc, hmin, hmax, hcalls, completed_cons]
  refine ⟨by simp, ?_, ⟨?_, ?_⟩, ⟨?_, ?_⟩⟩
  · cases s0.yielded <;> simp
  · simpa using foldl_min_mem (l.map Sample.value) s0.value
  · intro v hv
    rcases List.mem_cons.mp hv with h | h
    · rw [h]; exact foldl_min_le_init _ _
    · exact foldl_min_le_of_mem _ _ v h
  · simpa using foldl_max_mem (l.map Sample.value) s0.value
  · intro v hv
    rcases List.mem_cons.mp hv with h | h
    · rw [h]; exact foldl_max_ge_init _ _
    · exact foldl_max_ge_of_mem _ _ v h

/-- Claim C1: after `increment` the accumulated value grew by the sample, the
inclusive value by the inclusive sample, `stops` by one, the sum of squares by
the square of the sample, and minimum and maximum are the running minimum and
maximum. -/
theorem increment_fields (have_papi : Bool) (r : profile) (value inclusive : ℚ)
    (num_metrics : Nat) (papi_metrics : List ℚ) (yielded : Bool) (thread_id : Nat) :
    let r' := r.increment have_papi value inclusive num_metrics papi_metrics yielded thread_id
    r'._profile.accumulated = r._profile.accumulated + value ∧
    r'._profile.inclusive_accumulated = r._profile.inclusive_accumulated + inclusive ∧
    r'._profile.stops = r._profile.stops + 1 ∧
    r'._profile.sum_squares = r._profile.sum_squares + value * value ∧
    r'._profile.minimum = min r._profile.minimum value ∧
    r'._profile.maximum = max r._profile.maximum value :=
  ⟨rfl, rfl, rfl, rfl, increment_minimum_eq _ _ _ _ _ _ _ _,
    increment_maximum_eq _ _ _ _ _ _ _ _⟩

/-- Claim C2: a record constructed from a sample has one stop, and one call
exactly when the sample is not yielded; `increment` adds one stop, and one call
exactly when the sample is not yielded. -/
theorem yielded_counts_stop_not_call (have_papi : Bool) (r : profile)
    (value inclusive : ℚ) (num_metrics : Nat) (papi_metrics : List ℚ)
    (type : apex_profile_type) (thread_id : Nat) :
    (profile.construct have_papi value inclusive num_metrics papi_metrics false
        type)._profile.stops = 1 ∧
    (profile.construct have_papi value inclusive num_metrics papi_metrics false
        type)._profile.calls = 1 ∧
    (profile.construct have_papi value inclusive num_metrics papi_metrics true
        type)._profile.stops = 1 ∧
    (profile.construct have_papi value inclusive num_metrics papi_metrics true
        type)._profile.calls = 0 ∧
    (r.increment have_papi value inclusive num_metrics papi_metrics false
        thread_id)._profile.stops = r._profile.stops + 1 ∧
    (r.increment have_papi value inclusive num_metrics papi_metrics false
        thread_id)._profile.calls = r._profile.calls + 1 ∧
    (r.increment have_papi value inclusive num_metrics papi_metrics true
        thread_id)._profile.stops = r._profile.stops + 1 ∧
    (r.increment have_papi value inclusive num_metrics papi_metrics true
        thread_id)._profile.calls = r._profile.calls :=
  ⟨rfl, rfl, rfl, rfl, rfl, rfl, rfl, rfl⟩

/-- Claim C3: a record constructed from a sample and incremented with further
samples has the sum of all values as accumulated value, the number of
non-yielded samples as calls, and the least and greatest value as minimum and
maximum; every permutation of the increments gives the same four fields. -/
theorem increments_order_independent (have_papi : Bool) (type : apex_profile_type)
    (s0 : Sample) (l : List Sample) :
    ((profile.of_sample have_papi type s0).add_samples have_papi l)._profile.accumulated
        = ((s0 :: l).map Sample.value).sum ∧
    ((profile.of_sample have_papi type s0).add_samples have_papi l)._profile.calls
        = (completed (s0 :: l) : ℚ) ∧
    (((profile.of_sample have_papi type s0).add_samples have_papi l)._profile.minimum
        ∈ (s0 :: l).map Sample.value ∧
      ∀ v ∈ (s0 :: l).map Sample.value,
        ((profile.of_sample have_papi type s0).add_samples have_papi l)._profile.minimum ≤ v) ∧
    (((profile.of_sample have_papi type s0).add_samples have_papi l)._profile.maximum
        ∈ (s0 :: l).map Sample.value ∧
      ∀ v ∈ (s0 :: l).map Sample.value,
        v ≤ ((profile.of_sample have_papi type s0).add_samples have_papi l)._profile.maximum) ∧
    ∀ l' : List Sample, l.Perm l' →
      ((profile.of_sample have_papi type s0).add_samples have_papi l')._profile.accumulated
        = ((profile.of_sample have_papi type s0).add_samples have_papi l)._profile.accumulated ∧
      ((profile.of_sample have_papi type s0).add_samples have_papi l')._profile.calls
        = ((profile.of_sample have_papi type s0).add_samples have_papi l)._profile.calls ∧
      ((profile.of_sample have_papi type s0).add_samples have_papi l')._profile.minimum
        = ((profile.of_sample have_papi type s0).add_samples have_papi l)._profile.minimum ∧
      ((profile.of_sample have_papi type s0).add_samples have_papi l')._profile.maximum
        = ((profile.of_sample have_papi type s0).add_samples have_papi l)._profile.maximum := by
  obtain ⟨hacc, hcalls, ⟨hminmem, hminle⟩, ⟨hmaxmem, hmaxge⟩⟩ :=
    add_samples_summary have_papi type s0 l
  refine ⟨hacc, hcalls, ⟨hminmem, hminle⟩, ⟨hmaxmem, hmaxge⟩, ?_⟩
  intro l' hperm
  obtain ⟨hacc', hcalls', ⟨hminmem', hminle'⟩, ⟨hmaxmem', hmaxge'⟩⟩ :=
    add_samples_summary have_papi type s0 l'
  have hp : ((s0 :: l).map Sample.value).Perm ((s0 :: l').map Sample.value) :=
    (List.Perm.cons s0 hperm).map Sample.value
  have hmem : ∀ v, v ∈ (s0 :: l').map Sample.value ↔ v ∈ (s0 :: l).map Sample.value :=
    fun v => hp.symm.mem_iff
  refine ⟨?_, ?_, ?_, ?_⟩
  · rw [hacc, hacc']; exact hp.symm.sum_eq
  · rw [hcalls, hcalls']
    unfold completed
    rw [((List.Perm.cons s0 hperm).filter _).length_eq]
  · exact least_member_unique _ _ _ _ hmem hminmem' hminle' hminmem hminle
  · exact greatest_member_unique _ _ _ _ hmem hmaxmem' hmaxge' hmaxmem hmaxge

/-- Witness of claim C3 on a record built from the samples 4, -2 (yielded), 7. -/
theorem increments_order_independent_witness :
    ((profile.of_sample false apex_profile_type.APEX_TIMER ⟨4, 4, 0, [], false, 1⟩).add_samples
        false [⟨7, 7, 0, [], false, 3⟩, ⟨-2, 0, 0, [], true, 2⟩])._profile.accumulated
      = ((profile.of_sample false apex_profile_type.APEX_TIMER ⟨4, 4, 0, [], false, 1⟩).add_samples
        false [⟨-2, 0, 0, [], true, 2⟩, ⟨7, 7, 0, [], false, 3⟩])._profile.accumulated :=
  ((increments_order_independent false apex_profile_type.APEX_TIMER ⟨4, 4, 0, [], false, 1⟩
    [⟨-2, 0, 0, [], true, 2⟩, ⟨7, 7, 0, [], false, 3⟩]).2.2.2.2
    [⟨7, 7, 0, [], false, 3⟩, ⟨-2, 0, 0, [], true, 2⟩]
    (List.Perm.swap _ _ [])).1

/-! ## Reset -/

/-- Claim C4: `reset` zeroes calls, stops, accumulated and the sum of squares,
stores the greatest finite double in minimum and 0 in maximum, empties the
thread-id set, sets the thread count to 1 and adds one to `times_reset`. -/
theorem reset_fields (r : profile) :
    r.reset._profile.calls = 0 ∧ r.reset._profile.stops = 0 ∧
    r.reset._profile.accumulated = 0 ∧ r.reset._profile.sum_squares = 0 ∧
    r.reset._profile.minimum = DBL_MAX ∧ r.reset._profile.maximum = 0 ∧
    r.reset.thread_ids = ∅ ∧ r.reset._profile.num_threads = 1 ∧
    r.reset._profile.times_reset = r._profile.times_reset + 1 :=
  ⟨rfl, rfl, rfl, rfl, rfl, rfl, rfl, rfl, rfl⟩

/-- Claim C5, refuted as stated: a reset followed by one increment differs
from a freshly constructed record in the inclusive accumulated value (which
`reset` keeps), in the maximum for a negative sample (the maximum restarts
from 0), in the allocation count (which `reset` keeps) and in the reported
minimum for a sample equal to the sentinel. -/
theorem reset_then_increment_differs :
    (((profile.construct false 5 7 0 [] false apex_profile_type.APEX_TIMER).reset.increment
        false 1 1 0 [] false 0).get_inclusive_accumulated = 8 ∧
      (profile.construct false 1 1 0 [] false
        apex_profile_type.APEX_TIMER).get_inclusive_accumulated = 1) ∧
    (((profile.construct false 5 7 0 [] false apex_profile_type.APEX_TIMER).reset.increment
        false (-1) (-1) 0 [] false 0).get_maximum = 0 ∧
      (profile.construct false (-1) (-1) 0 [] false
        apex_profile_type.APEX_TIMER).get_maximum = -1) ∧
    ((profile.construct_allocations false [] 5 7 0 [] false 3 0 64 0).map
        (fun r => (r.reset.increment false 1 1 0 [] false 0).get_allocations) = some 3 ∧
      (profile.construct false 1 1 0 [] false apex_profile_type.APEX_TIMER).get_allocations
        = 0) ∧
    (((profile.construct false 5 7 0 [] false apex_profile_type.APEX_TIMER).reset.increment
        false DBL_MAX DBL_MAX 0 [] false 0).get_minimum = 0 ∧
      (profile.construct false DBL_MAX DBL_MAX 0 [] false
        apex_profile_type.APEX_TIMER).get_minimum = DBL_MAX) := by
  refine ⟨⟨?_, ?_⟩, ⟨?_, ?_⟩, ⟨?_, ?_⟩, ⟨?_, ?_⟩⟩
  · norm_num [profile.get_inclusive_accumulated, profile.increment, profile.reset,
      profile.construct, std_max]
  · norm_num [profile.get_inclusive_accumulated, profile.construct, std_max]
  · norm_num [profile.get_maximum, profile.increment, profile.reset, profile.construct]
  · norm_num [profile.get_maximum, profile.construct]
  · decide
  · norm_num [profile.get_allocations, profile.construct]
  · simp [profile.get_minimum, profile.increment, profile.reset, profile.construct]
  · simp only [profile.get_minimum, profile.construct, std_max]
    rw [if_neg (lt_irrefl _), if_neg (not_lt.mpr (le_of_lt DBL_MAX_pos))]

/-- Claim C5, amended: a reset followed by one increment agrees with a freshly
constructed record of the same kind on calls, stops, accumulated, sum of
squares, number of threads, mean and variance; on the reported minimum when the
sample is below the sentinel; on the maximum when the sample is not negative;
on the inclusive accumulated value when the record is a counter or had no
inclusive value before the reset; and on each allocation field that was zero
before the reset. -/
theorem reset_then_increment_agrees (have_papi : Bool) (r : profile) (v inclusive : ℚ)
    (num_metrics : Nat) (papi_metrics : List ℚ) (yielded : Bool) (thread_id : Nat) :
    ((r.reset.increment have_papi v inclusive num_metrics papi_metrics yielded
        thread_id).get_calls
      = (profile.construct have_papi v inclusive num_metrics papi_metrics yielded
        r._profile.type).get_calls) ∧
    ((r.reset.increment have_papi v inclusive num_metrics papi_metrics yielded
        thread_id).get_stops
      = (profile.construct have_papi v inclusive num_metrics papi_metrics yielded
        r._profile.type).get_stops) ∧
    ((r.reset.increment have_papi v inclusive num_metrics papi_metrics yielded
        thread_id).get_accumulated
      = (profile.construct have_papi v inclusive num_metrics papi_metrics yielded
        r._profile.type).get_accumulated) ∧
    ((r.reset.increment have_papi v inclusive num_metrics papi_metrics yielded
        thread_id).get_sum_squares
      = (profile.construct have_papi v inclusive num_metrics papi_metrics yielded
        r._profile.type).get_sum_squares) ∧
    ((r.reset.increment have_papi v inclusive num_metrics papi_metrics yielded
        thread_id).get_num_threads
      = (profile.construct have_papi v inclusive num_metrics papi_metrics yielded
        r._profile.type).get_num_threads) ∧
    ((r.reset.increment have_papi v inclusive num_metrics papi_metrics yielded
        thread_id).get_mean
      = (profile.construct have_papi v inclusive num_metrics papi_metrics yielded
        r._profile.type).get_mean) ∧
    ((r.reset.increment have_papi v inclusive num_metrics papi_metrics yielded
        thread_id).get_variance
      = (profile.construct have_papi v inclusive num_metrics papi_metrics yielded
        r._profile.type).get_variance) ∧
    (v < DBL_MAX →
      (r.reset.increment have_papi v inclusive num_metrics papi_metrics yielded
        thread_id).get_minimum
      = (profile.construct have_papi v inclusive num_metrics papi_metrics yielded
        r._profile.type).get_minimum) ∧
    (0 ≤ v →
      (r.reset.increment have_papi v inclusive num_metrics papi_metrics yielded
        thread_id).get_maximum
      = (profile.construct have_papi v inclusive num_metrics papi_metrics yielded
        r._profile.type).get_maximum) ∧
    (r._profile.type = apex_profile_type.APEX_COUNTER ∨ r._profile.inclusive_accumulated = 0 →
      (r.reset.increment have_papi v inclusive num_metrics papi_metrics yielded
        thread_id).get_inclusive_accumulated
      = (profile.construct have_papi v inclusive num_metrics papi_metrics yielded
        r._profile.type).get_inclusive_accumulated) ∧
    (r._profile.allocations = 0 →
      (r.reset.increment have_papi v inclusive num_metrics papi_metrics yielded
        thread_id).get_allocations
      = (profile.construct have_papi v inclusive num_metrics papi_metrics yielded
        r._profile.type).get_allocations) ∧
    (r._profile.frees = 0 →
      (r.reset.increment have_papi v inclusive num_metrics papi_metrics yielded
        thread_id).get_frees
      = (profile.construct have_papi v inclusive num_metrics papi_metrics yielded
        r._profile.type).get_frees) ∧
    (r._profile.bytes_allocated = 0 →
      (r.reset.increment have_papi v inclusive num_metrics papi_metrics yielded
        thread_id).get_bytes_allocated
      = (profile.construct have_papi v inclusive num_metrics papi_metrics yielded
        r._profile.type).get_bytes_allocated) ∧
    (r._profile.bytes_freed = 0 →
      (r.reset.increment have_papi v inclusive num_metrics papi_metrics yielded
        thread_id).get_bytes_freed
      = (profile.construct have_papi v inclusive num_metrics papi_metrics yielded
        r._profile.type).get_bytes_freed) := by
  have hcalls : (r.reset.increment have_papi v inclusive num_metrics papi_metrics yielded
        thread_id)._profile.calls
      = (profile.construct have_papi v inclusive num_metrics papi_metrics yielded
        r._profile.type)._profile.calls := by
    rw [increment_calls_eq]
    show (0 : ℚ) + _ = (if (!yielded) = true then (1 : ℚ) else 0)
    cases yielded <;> simp
  have hacc : (r.reset.increment have_papi v inclusive num_metrics papi_metrics yielded
        thread_id)._profile.accumulated
      = (profile.construct have_papi v inclusive num_metrics papi_metrics yielded
        r._profile.type)._profile.accumulated := by
    show (0 : ℚ) + v = v
    exact zero_add v
  have hss : (r.reset.increment have_papi v inclusive num_metrics papi_metrics yielded
        thread_id)._profile.sum_squares
      = (profile.construct have_papi v inclusive num_metrics papi_metrics yielded
        r._profile.type)._profile.sum_squares := by
    show (0 : ℚ) + v * v = v * v
    exact zero_add _
  have hmin : v < DBL_MAX →
      (r.reset.increment have_papi v inclusive num_metrics papi_metrics yielded
        thread_id)._profile.minimum = v := by
    intro h
    rw [increment_minimum_eq]
    exact min_eq_right (le_of_lt h)
  refine ⟨hcalls, ?_, hacc, hss, ?_, ?_, ?_, ?_, ?_, ?_, ?_, ?_, ?_, ?_⟩
  · show (0 : ℚ) + 1 = 1
    exact zero_add 1
  · show (((insert thread_id (∅ : Finset Nat)).card : Nat) : ℚ) = ((1 : Nat) : ℚ)
    simp
  · unfold profile.get_mean profile.get_accumulated
    rw [hcalls, hacc]
  · unfold profile.get_variance profile.get_mean profile.get_accumulated
    simp only [hcalls, hacc, hss]
  · intro h
    have hne : v ≠ DBL_MAX := ne_of_lt h
    unfold profile.get_minimum
    rw [hmin h]
    have hfresh : (profile.construct have_papi v inclusive num_metrics papi_metrics yielded
        r._profile.type)._profile.minimum = v := rfl
    have hzero : ¬ ((profile.construct have_papi v inclusive num_metrics papi_metrics yielded
        r._profile.type)._profile.times_reset > 0) := by
      show ¬ ((0 : Int) > 0)
      decide
    rw [hfresh, if_neg hzero, if_neg hne]
    simp
  · intro h
    unfold profile.get_maximum
    rw [increment_maximum_eq]
    show max (0 : ℚ) v = v
    exact max_eq_right h
  · intro h
    unfold profile.get_inclusive_accumulated
    have htype : (r.reset.increment have_papi v inclusive num_metrics papi_metrics yielded
        thread_id)._profile.type = r._profile.type := rfl
    have htype' : (profile.construct have_papi v inclusive num_metrics papi_metrics yielded
        r._profile.type)._profile.type = r._profile.type := rfl
    rw [htype, htype']
    rcases h with h | h
    · rw [h]; simp
    · have hincl : (r.reset.increment have_papi v inclusive num_metrics papi_metrics yielded
          thread_id)._profile.inclusive_accumulated = inclusive := by
        show r._profile.inclusive_accumulated + inclusive = inclusive
        rw [h, zero_add]
      have hincl' : (profile.construct have_papi v inclusive num_metrics papi_metrics yielded
          r._profile.type)._profile.inclusive_accumulated = inclusive := rfl
      rw [hincl, hincl', hacc]
  · intro h
    show ((r._profile.allocations : Nat) : ℚ) = ((0 : Nat) : ℚ)
    rw [h]
  · intro h
    show ((r._profile.frees : Nat) : ℚ) = ((0 : Nat) : ℚ)
    rw [h]
  · intro h
    show ((r._profile.bytes_allocated : Nat) : ℚ) = ((0 : Nat) : ℚ)
    rw [h]
  · intro h
    show ((r._profile.bytes_freed : Nat) : ℚ) = ((0 : Nat) : ℚ)
    rw [h]

/-- Witness of the amended claim C5: a timer constructed from the sample 5 with
no inclusive value, reset and incremented with the sample 2. -/
theorem reset_then_increment_agrees_witness :
    (2 : ℚ) < DBL_MAX ∧ (0 : ℚ) ≤ 2 ∧
    ((profile.construct false 5 0 0 [] false apex_profile_type.APEX_TIMER).reset.increment
        false 2 2 0 [] false 0).get_minimum
      = (profile.construct false 2 2 0 [] false apex_profile_type.APEX_TIMER).get_minimum ∧
    ((profile.construct false 5 0 0 [] false apex_profile_type.APEX_TIMER).reset.increment
        false 2 2 0 [] false 0).get_maximum
      = (profile.construct false 2 2 0 [] false apex_profile_type.APEX_TIMER).get_maximum ∧
    ((profile.construct false 5 0 0 [] false apex_profile_type.APEX_TIMER).reset.increment
        false 2 2 0 [] false 0).get_inclusive_accumulated
      = (profile.construct false 2 2 0 [] false
        apex_profile_type.APEX_TIMER).get_inclusive_accumulated ∧
    ((profile.construct false 5 0 0 [] false apex_profile_type.APEX_TIMER).reset.increment
        false 2 2 0 [] false 0).get_allocations
      = (profile.construct false 2 2 0 [] false apex_profile_type.APEX_TIMER).get_allocations := by
  have hlt : (2 : ℚ) < DBL_MAX := by unfold DBL_MAX; norm_num
  have hnn : (0 : ℚ) ≤ 2 := by norm_num
  obtain ⟨-, -, -, -, -, -, -, hmin, hmax, hincl, halloc, -, -, -⟩ :=
    reset_then_increment_agrees false
      (profile.construct false 5 0 0 [] false apex_profile_type.APEX_TIMER) 2 2 0 [] false 0
  exact ⟨hlt, hnn, hmin hlt, hmax hnn, hincl (Or.inr rfl), halloc rfl⟩

/-- Claim C6: on a record whose reset count is not negative (every record built
by a constructor, `increment` and `reset`), the minimum read right after
`reset` is 0 and not the sentinel that `reset` stored in the field. -/
theorem get_minimum_after_reset (r : profile) (h : 0 ≤ r._profile.times_reset) :
    r.reset.get_minimum = 0 ∧ r.reset._profile.minimum = DBL_MAX ∧
    r.reset.get_minimum ≠ DBL_MAX := by
  have hpos : r.reset._profile.times_reset > 0 := by
    show r._profile.times_reset + 1 > 0
    omega
  have hmin : r.reset._profile.minimum = DBL_MAX := rfl
  have hget : r.reset.get_minimum = 0 := by
    unfold profile.get_minimum
    rw [if_pos hpos, if_pos hmin]
  refine ⟨hget, hmin, ?_⟩
  rw [hget]
  exact ne_of_lt DBL_MAX_pos

/-- Witness of claim C6 on a record constructed from the sample 5. -/
theorem get_minimum_after_reset_witness :
    (profile.construct false 5 5 0 [] false apex_profile_type.APEX_TIMER).reset.get_minimum
      = 0 :=
  (get_minimum_after_reset
    (profile.construct false 5 5 0 [] false apex_profile_type.APEX_TIMER)
    (le_refl (0 : Int))).1

/-! ## Accessors -/

/-- Claim C7: with a positive call count the mean is the accumulated value
divided by the calls, the variance is the greater of 0 and the mean of squares
minus the squared mean, and so the variance is not negative. -/
theorem mean_and_variance (r : profile) (h : 0 < r.get_calls) :
    r.get_mean = r.get_accumulated / r.get_calls ∧
    r.get_variance = max 0 (r.get_sum_squares / r.get_calls - r.get_mean ^ 2) ∧
    0 ≤ r.get_variance := by
  have hne : r.get_calls ≠ 0 := ne_of_gt h
  have hvar : r.get_variance
      = max 0 (r.get_sum_squares / r.get_calls - r.get_mean ^ 2) := by
    show (if r._profile.sum_squares / r._profile.calls - r.get_mean * r.get_mean ≥ 0
        then r._profile.sum_squares / r._profile.calls - r.get_mean * r.get_mean else 0) = _
    unfold profile.get_sum_squares profile.get_calls
    rw [pow_two]
    split_ifs with hv
    · exact (max_eq_right hv).symm
    · exact (max_eq_left (le_of_lt (not_le.mp hv))).symm
  refine ⟨rfl, hvar, ?_⟩
  rw [hvar]
  exact le_max_left _ _

/-- Witness of claim C7 on a record built from the samples 3 and 5. -/
theorem mean_and_variance_witness :
    ((profile.construct false 3 3 0 [] false apex_profile_type.APEX_TIMER).increment
        false 5 5 0 [] false 0).get_mean = 4 ∧
    ((profile.construct false 3 3 0 [] false apex_profile_type.APEX_TIMER).increment
        false 5 5 0 [] false 0).get_variance = 1 := by
  have hcalls : (0 : ℚ) < ((profile.construct false 3 3 0 [] false
      apex_profile_type.APEX_TIMER).increment false 5 5 0 [] false 0).get_calls := by
    norm_num [profile.get_calls, profile.increment, profile.construct]
  obtain ⟨hmean, hvar, -⟩ := mean_and_variance _ hcalls
  have hm : ((profile.construct false 3 3 0 [] false apex_profile_type.APEX_TIMER).increment
      false 5 5 0 [] false 0).get_mean = 4 := by
    rw [hmean]
    norm_num [profile.get_accumulated, profile.get_calls, profile.increment, profile.construct]
  refine ⟨hm, ?_⟩
  rw [hvar, hm]
  norm_num [profile.get_sum_squares, profile.get_calls, profile.increment, profile.construct]

/-- Claim C8: a counter reports 0 as inclusive accumulated value, in the native
unit, in microseconds and in seconds, whatever the field holds. -/
theorem counter_inclusive_is_zero (r : profile)
    (h : r.get_type = apex_profile_type.APEX_COUNTER) :
    r.get_inclusive_accumulated = 0 ∧ r.get_inclusive_accumulated_useconds = 0 ∧
    r.get_inclusive_accumulated_seconds = 0 := by
  have h0 : r.get_inclusive_accumulated = 0 := by
    unfold profile.get_inclusive_accumulated
    unfold profile.get_type at h
    rw [h]
    simp
  refine ⟨h0, ?_, ?_⟩
  · unfold profile.get_inclusive_accumulated_useconds
    rw [h0, zero_mul]
  · unfold profile.get_inclusive_accumulated_seconds
    rw [h0, zero_mul]

/-- Witness of claim C8 on a counter that accumulated the inclusive values 9 and 4. -/
theorem counter_inclusive_is_zero_witness :
    ((profile.construct false 9 9 0 [] false apex_profile_type.APEX_COUNTER).increment
        false 4 4 0 [] false 0)._profile.inclusive_accumulated = 13 ∧
    ((profile.construct false 9 9 0 [] false apex_profile_type.APEX_COUNTER).increment
        false 4 4 0 [] false 0).get_inclusive_accumulated = 0 :=
  ⟨by norm_num [profile.increment, profile.construct],
    (counter_inclusive_is_zero
      ((profile.construct false 9 9 0 [] false apex_profile_type.APEX_COUNTER).increment
        false 4 4 0 [] false 0) rfl).1⟩

/-! ## Invariants of reachable records -/

/-- Claim C9: on every record reachable from a sample constructor by
increments and resets, a positive call count implies that the minimum field is
at most the maximum field. -/
theorem reachable_minimum_le_maximum (have_papi : Bool) (r : profile)
    (h : Reachable have_papi r) :
    0 < r._profile.calls → r._profile.minimum ≤ r._profile.maximum := by
  induction h with
  | construct initial inclusive num_metrics papi_metrics yielded type =>
    intro _
    exact le_refl initial
  | construct_allocations u initial inclusive num_metrics papi_metrics yielded a f ba bf r hr =>
    intro _
    obtain ⟨-, -, -, hmin, hmax, -⟩ := construct_allocations_fields _ _ _ _ _ _ _ _ _ _ _ _ hr
    rw [hmin, hmax]
  | increment r increase inclusive num_metrics papi_metrics yielded thread_id _ _ =>
    intro _
    exact increment_min_le_max _ _ _ _ _ _ _ _
  | increment_allocations r increase inclusive num_metrics papi_metrics a f ba bf yielded
      thread_id r' _ hr _ =>
    intro _
    obtain ⟨-, -, -, hmin, hmax, -⟩ :=
      increment_allocations_fields _ _ _ _ _ _ _ _ _ _ _ _ _ hr
    rw [hmin, hmax]
    exact increment_min_le_max _ _ _ _ _ _ _ _
  | reset r _ _ =>
    intro hc
    exact absurd hc (lt_irrefl (0 : ℚ))

/-- Witness of claim C9: a record constructed from 3, reset, then incremented
with the negative sample -5. -/
theorem reachable_minimum_le_maximum_witness :
    ((profile.construct false 3 3 0 [] false apex_profile_type.APEX_TIMER).reset.increment
        false (-5) (-5) 0 [] false 0)._profile.minimum ≤
    ((profile.construct false 3 3 0 [] false apex_profile_type.APEX_TIMER).reset.increment
        false (-5) (-5) 0 [] false 0)._profile.maximum :=
  reachable_minimum_le_maximum false _
    (Reachable.increment _ (-5) (-5) 0 [] false 0
      (Reachable.reset _
        (Reachable.construct 3 3 0 [] false apex_profile_type.APEX_TIMER)))
    (by norm_num [profile.increment, profile.reset])

/-- Claim C10: on every record reachable from a sample constructor by
increments and resets, calls is between 0 and stops, and the sum of squares and
the reset count are not negative. -/
theorem reachable_counts (have_papi : Bool) (r : profile) (h : Reachable have_papi r) :
    0 ≤ r._profile.calls ∧ r._profile.calls ≤ r._profile.stops ∧
    0 ≤ r._profile.sum_squares ∧ 0 ≤ r._profile.times_reset := by
  induction h with
  | construct initial inclusive num_metrics papi_metrics yielded type =>
    refine ⟨?_, ?_, mul_self_nonneg initial, le_refl (0 : Int)⟩
    · show (0 : ℚ) ≤ (if (!yielded) = true then (1 : ℚ) else 0)
      cases yielded <;> simp
    · show (if (!yielded) = true then (1 : ℚ) else 0) ≤ 1
      cases yielded <;> simp
  | construct_allocations u initial inclusive num_metrics papi_metrics yielded a f ba bf r hr =>
    obtain ⟨hc, hs, hss, -, -, ht⟩ := construct_allocations_fields _ _ _ _ _ _ _ _ _ _ _ _ hr
    rw [hc, hs, hss, ht]
    refine ⟨?_, ?_, mul_self_nonneg initial, le_refl (0 : Int)⟩
    · cases yielded <;> simp
    · cases yielded <;> simp
  | increment r increase inclusive num_metrics papi_metrics yielded thread_id _ ih =>
    obtain ⟨h0, hcs, hss, ht⟩ := ih
    rw [increment_calls_eq]
    refine ⟨?_, ?_, ?_, ht⟩
    · cases yielded <;> simp <;> linarith
    · show _ ≤ r._profile.stops + 1
      cases yielded <;> simp <;> linarith
    · show 0 ≤ r._profile.sum_squares + increase * increase
      exact add_nonneg hss (mul_self_nonneg increase)
  | increment_allocations r increase inclusive num_metrics papi_metrics a f ba bf yielded
      thread_id r' _ hr ih =>
    obtain ⟨h0, hcs, hss, ht⟩ := ih
    obtain ⟨hc', hs', hss', -, -, ht'⟩ :=
      increment_allocations_fields _ _ _ _ _ _ _ _ _ _ _ _ _ hr
    rw [hc', hs', hss', ht', increment_calls_eq]
    refine ⟨?_, ?_, ?_, ht⟩
    · cases yielded <;> simp <;> linarith
    · show _ ≤ r._profile.stops + 1
      cases yielded <;> simp <;> linarith
    · show 0 ≤ r._profile.sum_squares + increase * increase
      exact add_nonneg hss (mul_self_nonneg increase)
  | reset r _ ih =>
    refine ⟨le_refl (0 : ℚ), le_refl (0 : ℚ), le_refl (0 : ℚ), ?_⟩
    show 0 ≤ r._profile.times_reset + 1
    omega

/-- Witness of claim C10: a record constructed from a yielded sample, reset,
then incremented once. -/
theorem reachable_counts_witness :
    ((profile.construct false 3 3 0 [] true apex_profile_type.APEX_TIMER).reset.increment
        false 2 2 0 [] false 0)._profile.calls ≤
    ((profile.construct false 3 3 0 [] true apex_profile_type.APEX_TIMER).reset.increment
        false 2 2 0 [] false 0)._profile.stops :=
  (reachable_counts false _
    (Reachable.increment _ 2 2 0 [] false 0
      (Reachable.reset _
        (Reachable.construct 3 3 0 [] true apex_profile_type.APEX_TIMER)))).2.1

/-! ## Thread counting -/

theorem add_sample_thread_ids (have_papi : Bool) (p : profile) (s : Sample) :
    (p.add_sample have_papi s).thread_ids = insert s.thread_id p.thread_ids := rfl

theorem add_sample_num_threads (have_papi : Bool) (p : profile) (s : Sample) :
    (p.add_sample have_papi s)._profile.num_threads
      = (p.add_sample have_papi s).thread_ids.card := rfl

theorem add_samples_thread_ids (have_papi : Bool) (l : List Sample) :
    ∀ p : profile, (p.add_samples have_papi l).thread_ids
      = p.thread_ids ∪ (l.map Sample.thread_id).toFinset := by
  induction l with
  | nil => intro p; simp [add_samples_nil]
  | cons s l ih =>
    intro p
    rw [add_samples_cons, ih, add_sample_thread_ids]
    ext x
    simp only [Finset.mem_union, Finset.mem_insert, List.map_cons, List.toFinset_cons]
    tauto

theorem add_samples_num_threads (have_papi : Bool) (l : List Sample) :
    ∀ (p : profile) (s : Sample),
      (p.add_samples have_papi (s :: l))._profile.num_threads
        = (p.add_samples have_papi (s :: l)).thread_ids.card := by
  induction l with
  | nil => intro p s; rfl
  | cons t l ih =>
    intro p s
    rw [add_samples_cons]
    exact ih (p.add_sample have_papi s) t

/-- Claim C11: an increment inserts its thread id into the thread-id set and
stores the cardinality of the set in `num_threads`; so after at least one
increment since the construction, or since the most recent reset, `num_threads`
is the number of distinct thread ids passed to `increment` since then. -/
theorem num_threads_counts_distinct_ids (have_papi : Bool) (r : profile)
    (type : apex_profile_type) (s0 s : Sample) (l : List Sample)
    (value inclusive : ℚ) (num_metrics : Nat) (papi_metrics : List ℚ) (yielded : Bool)
    (thread_id : Nat) :
    (r.increment have_papi value inclusive num_metrics papi_metrics yielded
        thread_id).thread_ids = insert thread_id r.thread_ids ∧
    (r.increment have_papi value inclusive num_metrics papi_metrics yielded
        thread_id)._profile.num_threads = (insert thread_id r.thread_ids).card ∧
    ((profile.of_sample have_papi type s0).add_samples have_papi
        (s :: l))._profile.num_threads
      = ((s :: l).map Sample.thread_id).toFinset.card ∧
    (r.reset.add_samples have_papi (s :: l))._profile.num_threads
      = ((s :: l).map Sample.thread_id).toFinset.card := by
  refine ⟨rfl, rfl, ?_, ?_⟩
  · rw [add_samples_num_threads, add_samples_thread_ids]
    have h : (profile.of_sample have_papi type s0).thread_ids = ∅ := rfl
    rw [h, Finset.empty_union]
  · rw [add_samples_num_threads, add_samples_thread_ids]
    have h : r.reset.thread_ids = ∅ := rfl
    rw [h, Finset.empty_union]

/-! ## The allocation-tracking increment -/

theorem double_to_size_t_natCast (n : Nat) (h : n < 2 ^ 64) :
    double_to_size_t (n : ℚ) = some n := by
  unfold double_to_size_t
  have h1 : (-1 : ℚ) < (n : ℚ) := lt_of_lt_of_le (by norm_num) (Nat.cast_nonneg n)
  have h2 : (n : ℚ) < 2 ^ 64 := by exact_mod_cast h
  rw [if_pos ⟨h1, h2⟩]
  have h3 : Rat.floor (n : ℚ) = (n : Int) := by
    rw [Rat.floor_def']
    simp
  rw [h3]
  rfl

theorem double_to_size_t_add (n a : Nat) (h : n + a < 2 ^ 64) :
    double_to_size_t ((n : ℚ) + (a : ℚ)) = some (n + a) := by
  have := double_to_size_t_natCast (n + a) h
  rwa [Nat.cast_add] at this

theorem double_to_size_t_of_floor (x : ℚ) (n : Nat) (h0 : (n : ℚ) ≤ x) (h1 : x < (n : ℚ) + 1)
    (h2 : x < 2 ^ 64) : double_to_size_t x = some n := by
  unfold double_to_size_t
  have h3 : (-1 : ℚ) < x := lt_of_lt_of_le (by norm_num) (le_trans (Nat.cast_nonneg n) h0)
  rw [if_pos ⟨h3, h2⟩]
  have h4 : Rat.floor x = (n : Int) := by
    show ⌊x⌋ = (n : Int)
    rw [Int.floor_eq_iff]
    exact ⟨by exact_mod_cast h0, by exact_mod_cast h1⟩
  rw [h4]
  rfl

/-- The allocation-tracking increment, once the four conversions to `size_t`
are known: the plain increment with the four converted sums stored. -/
theorem increment_allocations_of_conversions (have_papi : Bool) (r : profile)
    (increase inclusive : ℚ) (num_metrics : Nat) (papi_metrics : List ℚ)
    (allocations frees bytes_allocated bytes_freed : ℚ) (yielded : Bool) (thread_id : Nat)
    (a f ba bf : Nat)
    (ha : double_to_size_t ((r._profile.allocations : ℚ) + allocations) = some a)
    (hf : double_to_size_t ((r._profile.frees : ℚ) + frees) = some f)
    (hba : double_to_size_t ((r._profile.bytes_allocated : ℚ) + bytes_allocated) = some ba)
    (hbf : double_to_size_t ((r._profile.bytes_freed : ℚ) + bytes_freed) = some bf) :
    r.increment_allocations have_papi increase inclusive num_metrics papi_metrics
        allocations frees bytes_allocated bytes_freed yielded thread_id
      = some
        { _profile :=
            { (r.increment have_papi increase inclusive num_metrics papi_metrics yielded
                thread_id)._profile with
              allocations := a
              frees := f
              bytes_allocated := ba
              bytes_freed := bf }
          thread_ids := (r.increment have_papi increase inclusive num_metrics papi_metrics
            yielded thread_id).thread_ids } := by
  have ha' : double_to_size_t (((r.increment have_papi increase inclusive num_metrics
      papi_metrics yielded thread_id)._profile.allocations : ℚ) + allocations) = some a := ha
  have hf' : double_to_size_t (((r.increment have_papi increase inclusive num_metrics
      papi_metrics yielded thread_id)._profile.frees : ℚ) + frees) = some f := hf
  have hba' : double_to_size_t (((r.increment have_papi increase inclusive num_metrics
      papi_metrics yielded thread_id)._profile.bytes_allocated : ℚ) + bytes_allocated)
      = some ba := hba
  have hbf' : double_to_size_t (((r.increment have_papi increase inclusive num_metrics
      papi_metrics yielded thread_id)._profile.bytes_freed : ℚ) + bytes_freed)
      = some bf := hbf
  have hids : (r.increment have_papi increase inclusive num_metrics papi_metrics yielded
      thread_id).thread_ids = insert thread_id r.thread_ids := rfl
  have hnum : (r.increment have_papi increase inclusive num_metrics papi_metrics yielded
      thread_id)._profile.num_threads = (insert thread_id r.thread_ids).card := rfl
  simp only [profile.increment_allocations, bind, pure, ha', hf', hba', hbf', Option.some_bind,
    hids, Finset.insert_idem]
  rfl

/-- Claim C12, refuted as stated: the allocation fields are unsigned integers,
so adding the argument 1/2 to an allocation count of 0 leaves 0, not 1/2. -/
theorem increment_allocations_truncates :
    ((profile.construct false 1 1 0 [] false
        apex_profile_type.APEX_TIMER).increment_allocations false 1 1 0 [] (1 / 2) 0 0 0
        false 0).map (fun r => r.get_allocations) = some 0 ∧
    (profile.construct false 1 1 0 [] false apex_profile_type.APEX_TIMER).get_allocations
      + 1 / 2 = 1 / 2 := by
  constructor
  · rw [increment_allocations_of_conversions false _ 1 1 0 [] (1 / 2) 0 0 0 false 0 0 0 0 0
      (double_to_size_t_of_floor _ 0 (by norm_num [profile.construct])
        (by norm_num [profile.construct]) (by norm_num [profile.construct]))
      (double_to_size_t_of_floor _ 0 (by norm_num [profile.construct])
        (by norm_num [profile.construct]) (by norm_num [profile.construct]))
      (double_to_size_t_of_floor _ 0 (by norm_num [profile.construct])
        (by norm_num [profile.construct]) (by norm_num [profile.construct]))
      (double_to_size_t_of_floor _ 0 (by norm_num [profile.construct])
        (by norm_num [profile.construct]) (by norm_num [profile.construct]))]
    simp [profile.get_allocations]
  · norm_num [profile.get_allocations, profile.construct]

/-- Claim C12, amended: when the four allocation arguments are whole numbers
and no sum exceeds 2^53, the allocation-tracking increment returns the record
of the plain increment with each argument added to its field, every other
field and the thread-id set being those of the plain increment.  Up to 2^53
every whole number is a `double`, so the sum that the code forms in a `double`
is the exact sum. -/
theorem increment_allocations_adds (have_papi : Bool) (r : profile)
    (increase inclusive : ℚ) (num_metrics : Nat) (papi_metrics : List ℚ)
    (allocations frees bytes_allocated bytes_freed : Nat) (yielded : Bool) (thread_id : Nat)
    (ha : r._profile.allocations + allocations ≤ 2 ^ 53)
    (hf : r._profile.frees + frees ≤ 2 ^ 53)
    (hba : r._profile.bytes_allocated + bytes_allocated ≤ 2 ^ 53)
    (hbf : r._profile.bytes_freed + bytes_freed ≤ 2 ^ 53) :
    r.increment_allocations have_papi increase inclusive num_metrics papi_metrics
        (allocations : ℚ) (frees : ℚ) (bytes_allocated : ℚ) (bytes_freed : ℚ) yielded thread_id
      = some
        { _profile :=
            { (r.increment have_papi increase inclusive num_metrics papi_metrics yielded
                thread_id)._profile with
              allocations := r._profile.allocations + allocations
              frees := r._profile.frees + frees
              bytes_allocated := r._profile.bytes_allocated + bytes_allocated
              bytes_freed := r._profile.bytes_freed + bytes_freed }
          thread_ids := (r.increment have_papi increase inclusive num_metrics papi_metrics
            yielded thread_id).thread_ids } :=
  increment_allocations_of_conversions have_papi r increase inclusive num_metrics papi_metrics
    _ _ _ _ yielded thread_id _ _ _ _
    (double_to_size_t_add _ _ (lt_of_le_of_lt ha (by norm_num)))
    (double_to_size_t_add _ _ (lt_of_le_of_lt hf (by norm_num)))
    (double_to_size_t_add _ _ (lt_of_le_of_lt hba (by norm_num)))
    (double_to_size_t_add _ _ (lt_of_le_of_lt hbf (by norm_num)))

/-- Witness of the amended claim C12: three allocations of 64 bytes in total
added to a fresh record. -/
theorem increment_allocations_adds_witness :
    ((profile.construct false 1 1 0 [] false
        apex_profile_type.APEX_TIMER).increment_allocations false 1 1 0 []
        ((3 : Nat) : ℚ) ((0 : Nat) : ℚ) ((64 : Nat) : ℚ) ((0 : Nat) : ℚ) false 0).map
      (fun r => (r._profile.allocations, r._profile.bytes_allocated)) = some (3, 64) := by
  rw [increment_allocations_adds false
    (profile.construct false 1 1 0 [] false apex_profile_type.APEX_TIMER) 1 1 0 [] 3 0 64 0
    false 0 (by decide) (by decide) (by decide) (by decide)]
  rfl

/-! ## Interning of task identifiers -/

theorem get_task_id_addr_found (st : interning_state) (tid a h : Nat)
    (hl : (st.maps tid).task_id_addr_map.lookup a = some h) :
    get_task_id_addr st tid a = (h, st) := by
  simp only [get_task_id_addr, hl]

theorem get_task_id_addr_fresh (st : interning_state) (tid a : Nat)
    (hl : (st.maps tid).task_id_addr_map.lookup a = none) :
    get_task_id_addr st tid a =
      (st.heap.length,
        { heap := st.heap ++ [task_identifier.of_address a]
          maps := Function.update st.maps tid
            { st.maps tid with
              task_id_addr_map := (st.maps tid).task_id_addr_map.insert a st.heap.length } }) := by
  simp only [get_task_id_addr, hl]

theorem get_task_id_name_found (st : interning_state) (tid : Nat) (n : List Char) (h : Nat)
    (hl : (st.maps tid).task_id_name_map.lookup n = some h) :
    get_task_id_name st tid n = (h, st) := by
  simp only [get_task_id_name, hl]

theorem get_task_id_name_fresh (st : interning_state) (tid : Nat) (n : List Char)
    (hl : (st.maps tid).task_id_name_map.lookup n = none) :
    get_task_id_name st tid n =
      (st.heap.length,
        { heap := st.heap ++ [task_identifier.of_name n]
          maps := Function.update st.maps tid
            { st.maps tid with
              task_id_name_map := (st.maps tid).task_id_name_map.insert n st.heap.length } }) := by
  simp only [get_task_id_name, hl]

theorem filter_eq_length_of_nodup {K : Type} [DecidableEq K] (k : K) :
    ∀ l : List K, l.Nodup → k ∈ l → (l.filter fun x => decide (x = k)).length = 1 := by
  intro l
  induction l with
  | nil => intro _ h; cases h
  | cons x l ih =>
    intro hn hmem
    obtain ⟨hx, hl⟩ := List.nodup_cons.mp hn
    by_cases hxk : x = k
    · subst hxk
      have hnone : l.filter (fun y => decide (y = x)) = [] := by
        rw [List.filter_eq_nil_iff]
        intro y hy hyx
        exact hx (of_decide_eq_true hyx ▸ hy)
      simp [List.filter_cons, hnone]
    · have hk : k ∈ l := by
        rcases List.mem_cons.mp hmem with h | h
        · exact absurd h.symm hxk
        · exact h
      simp [List.filter_cons, hxk, ih hl hk]

/-- The number of entries that a table holds for a key. -/
theorem entries_for_of_lookup {K V : Type} [DecidableEq K] (m : unordered_map K V)
    (k : K) (v : V) (h : m.lookup k = some v) : entries_for m k = 1 := by
  have hmem : k ∈ m.keys := by
    rw [← AList.mem_keys, ← AList.lookup_isSome, h]
    rfl
  exact filter_eq_length_of_nodup k m.keys m.keys_nodup hmem

theorem get_task_id_addr_lookup (st : interning_state) (tid a : Nat) :
    ((get_task_id_addr st tid a).2.maps tid).task_id_addr_map.lookup a
      = some (get_task_id_addr st tid a).1 := by
  cases hl : (st.maps tid).task_id_addr_map.lookup a with
  | some h => rw [get_task_id_addr_found st tid a h hl]; exact hl
  | none =>
    rw [get_task_id_addr_fresh st tid a hl]
    simp only [Function.update_same]
    exact AList.lookup_insert _

theorem get_task_id_name_lookup (st : interning_state) (tid : Nat) (n : List Char) :
    ((get_task_id_name st tid n).2.maps tid).task_id_name_map.lookup n
      = some (get_task_id_name st tid n).1 := by
  cases hl : (st.maps tid).task_id_name_map.lookup n with
  | some h => rw [get_task_id_name_found st tid n h hl]; exact hl
  | none =>
    rw [get_task_id_name_fresh st tid n hl]
    simp only [Function.update_same]
    exact AList.lookup_insert _

/-- Claim C13: `get_task_id` leaves a table that maps the key to the returned
pointer; a second call returns the same pointer and the same state; the table
holds exactly one entry for the key; and the call leaves the table of the other
kind of key as it was.  This holds for the by-address and for the by-name
function. -/
theorem interning_idempotent (st : interning_state) (tid : Nat) (a : Nat) (n : List Char) :
    (((get_task_id_addr st tid a).2.maps tid).task_id_addr_map.lookup a
        = some (get_task_id_addr st tid a).1 ∧
      get_task_id_addr (get_task_id_addr st tid a).2 tid a = get_task_id_addr st tid a ∧
      entries_for ((get_task_id_addr st tid a).2.maps tid).task_id_addr_map a = 1 ∧
      ((get_task_id_addr st tid a).2.maps tid).task_id_name_map
        = (st.maps tid).task_id_name_map) ∧
    (((get_task_id_name st tid n).2.maps tid).task_id_name_map.lookup n
        = some (get_task_id_name st tid n).1 ∧
      get_task_id_name (get_task_id_name st tid n).2 tid n = get_task_id_name st tid n ∧
      entries_for ((get_task_id_name st tid n).2.maps tid).task_id_name_map n = 1 ∧
      ((get_task_id_name st tid n).2.maps tid).task_id_addr_map
        = (st.maps tid).task_id_addr_map) := by
  refine ⟨⟨get_task_id_addr_lookup st tid a, ?_, ?_, ?_⟩,
    ⟨get_task_id_name_lookup st tid n, ?_, ?_, ?_⟩⟩
  · exact get_task_id_addr_found _ tid a _ (get_task_id_addr_lookup st tid a)
  · exact entries_for_of_lookup _ a _ (get_task_id_addr_lookup st tid a)
  · cases hl : (st.maps tid).task_id_addr_map.lookup a with
    | some h => rw [get_task_id_addr_found st tid a h hl]
    | none =>
      rw [get_task_id_addr_fresh st tid a hl]
      simp only [Function.update_same]
  · exact get_task_id_name_found _ tid n _ (get_task_id_name_lookup st tid n)
  · exact entries_for_of_lookup _ n _ (get_task_id_name_lookup st tid n)
  · cases hl : (st.maps tid).task_id_name_map.lookup n with
    | some h => rw [get_task_id_name_found st tid n h hl]
    | none =>
      rw [get_task_id_name_fresh st tid n hl]
      simp only [Function.update_same]

theorem get_task_id_addr_maps_other (st : interning_state) (tid tid' a : Nat)
    (h : tid' ≠ tid) : (get_task_id_addr st tid a).2.maps tid' = st.maps tid' := by
  cases hl : (st.maps tid).task_id_addr_map.lookup a with
  | some got => rw [get_task_id_addr_found st tid a got hl]
  | none =>
    rw [get_task_id_addr_fresh st tid a hl]
    simp only [Function.update_noteq h]

theorem get_task_id_name_maps_other (st : interning_state) (tid tid' : Nat) (n : List Char)
    (h : tid' ≠ tid) : (get_task_id_name st tid n).2.maps tid' = st.maps tid' := by
  cases hl : (st.maps tid).task_id_name_map.lookup n with
  | some got => rw [get_task_id_name_found st tid n got hl]
  | none =>
    rw [get_task_id_name_fresh st tid n hl]
    simp only [Function.update_noteq h]

theorem getElem?_append_of_some {α : Type} (l : List α) (x : α) (i : Nat) (o : α)
    (h : l[i]? = some o) : (l ++ [x])[i]? = some o := by
  have hi : i < l.length := by
    by_contra hc
    rw [List.getElem?_eq_none (not_lt.mp hc)] at h
    cases h
  rw [List.getElem?_append_left hi]
  exact h

theorem getElem?_append_length {α : Type} (l : List α) (x : α) :
    (l ++ [x])[l.length]? = some x := by
  simp

theorem valid_get_task_id_addr (st : interning_state) (hv : st.valid) (tid a : Nat) :
    (get_task_id_addr st tid a).2.valid := by
  cases hl : (st.maps tid).task_id_addr_map.lookup a with
  | some got => rw [get_task_id_addr_found st tid a got hl]; exact hv
  | none =>
    rw [get_task_id_addr_fresh st tid a hl]
    obtain ⟨hva, hvn⟩ := hv
    refine ⟨?_, ?_⟩
    · intro tid' a' h hlook
      by_cases ht : tid' = tid
      · subst ht
        simp only [Function.update_same] at hlook
        by_cases ha : a' = a
        · subst ha
          rw [AList.lookup_insert] at hlook
          cases Option.some.inj hlook
          exact ⟨task_identifier.of_address a', getElem?_append_length _ _, rfl, rfl⟩
        · rw [AList.lookup_insert_ne ha] at hlook
          obtain ⟨obj, ho, h1, h2⟩ := hva tid' a' h hlook
          exact ⟨obj, getElem?_append_of_some _ _ _ _ ho, h1, h2⟩
      · simp only [Function.update_noteq ht] at hlook
        obtain ⟨obj, ho, h1, h2⟩ := hva tid' a' h hlook
        exact ⟨obj, getElem?_append_of_some _ _ _ _ ho, h1, h2⟩
    · intro tid' n h hlook
      by_cases ht : tid' = tid
      · subst ht
        simp only [Function.update_same] at hlook
        obtain ⟨obj, ho, h1, h2⟩ := hvn tid' n h hlook
        exact ⟨obj, getElem?_append_of_some _ _ _ _ ho, h1, h2⟩
      · simp only [Function.update_noteq ht] at hlook
        obtain ⟨obj, ho, h1, h2⟩ := hvn tid' n h hlook
        exact ⟨obj, getElem?_append_of_some _ _ _ _ ho, h1, h2⟩

theorem valid_get_task_id_name (st : interning_state) (hv : st.valid) (tid : Nat)
    (n : List Char) : (get_task_id_name st tid n).2.valid := by
  cases hl : (st.maps tid).task_id_name_map.lookup n with
  | some got => rw [get_task_id_name_found st tid n got hl]; exact hv
  | none =>
    rw [get_task_id_name_fresh st tid n hl]
    obtain ⟨hva, hvn⟩ := hv
    refine ⟨?_, ?_⟩
    · intro tid' a h hlook
      by_cases ht : tid' = tid
      · subst ht
        simp only [Function.update_same] at hlook
        obtain ⟨obj, ho, h1, h2⟩ := hva tid' a h hlook
        exact ⟨obj, getElem?_append_of_some _ _ _ _ ho, h1, h2⟩
      · simp only [Function.update_noteq ht] at hlook
        obtain ⟨obj, ho, h1, h2⟩ := hva tid' a h hlook
        exact ⟨obj, getElem?_append_of_some _ _ _ _ ho, h1, h2⟩
    · intro tid' n' h hlook
      by_cases ht : tid' = tid
      · subst ht
        simp only [Function.update_same] at hlook
        by_cases hn : n' = n
        · subst hn
          rw [AList.lookup_insert] at hlook
          cases Option.some.inj hlook
          exact ⟨task_identifier.of_name n', getElem?_append_length _ _, rfl, rfl⟩
        · rw [AList.lookup_insert_ne hn] at hlook
          obtain ⟨obj, ho, h1, h2⟩ := hvn tid' n' h hlook
          exact ⟨obj, getElem?_append_of_some _ _ _ _ ho, h1, h2⟩
      · simp only [Function.update_noteq ht] at hlook
        obtain ⟨obj, ho, h1, h2⟩ := hvn tid' n' h hlook
        exact ⟨obj, getElem?_append_of_some _ _ _ _ ho, h1, h2⟩

theorem valid_initial : interning_state.initial.valid := by
  refine ⟨?_, ?_⟩
  · intro tid a h hlook
    simp [interning_state.initial] at hlook
  · intro tid n h hlook
    simp [interning_state.initial] at hlook

/-- A pointer that a table of a valid state holds is below the heap size. -/
theorem valid_addr_lt (st : interning_state) (hv : st.valid) (tid a h : Nat)
    (hl : (st.maps tid).task_id_addr_map.lookup a = some h) : h < st.heap.length := by
  obtain ⟨obj, ho, -, -⟩ := hv.1 tid a h hl
  by_contra hc
  rw [List.getElem?_eq_none (not_lt.mp hc)] at ho
  cases ho

theorem valid_name_lt (st : interning_state) (hv : st.valid) (tid : Nat) (n : List Char)
    (h : Nat) (hl : (st.maps tid).task_id_name_map.lookup n = some h) :
    h < st.heap.length := by
  obtain ⟨obj, ho, -, -⟩ := hv.2 tid n h hl
  by_contra hc
  rw [List.getElem?_eq_none (not_lt.mp hc)] at ho
  cases ho

theorem get_task_id_addr_twice_lookup (st : interning_state) (t1 t2 a : Nat) :
    ((get_task_id_addr (get_task_id_addr st t1 a).2 t2 a).2.maps t1).task_id_addr_map.lookup a
      = some (get_task_id_addr st t1 a).1 := by
  by_cases ht : t1 = t2
  · subst ht
    rw [get_task_id_addr_found _ t1 a _ (get_task_id_addr_lookup st t1 a)]
    exact get_task_id_addr_lookup st t1 a
  · rw [get_task_id_addr_maps_other _ t2 t1 a ht]
    exact get_task_id_addr_lookup st t1 a

theorem get_task_id_name_twice_lookup (st : interning_state) (t1 t2 : Nat) (n : List Char) :
    ((get_task_id_name (get_task_id_name st t1 n).2 t2 n).2.maps t1).task_id_name_map.lookup n
      = some (get_task_id_name st t1 n).1 := by
  by_cases ht : t1 = t2
  · subst ht
    rw [get_task_id_name_found _ t1 n _ (get_task_id_name_lookup st t1 n)]
    exact get_task_id_name_lookup st t1 n
  · rw [get_task_id_name_maps_other _ t2 t1 n ht]
    exact get_task_id_name_lookup st t1 n

theorem get_task_id_addr_two_threads (st : interning_state) (hv : st.valid) (t1 t2 a : Nat)
    (ht : t1 ≠ t2) (hnew : (st.maps t2).task_id_addr_map.lookup a = none) :
    (get_task_id_addr (get_task_id_addr st t1 a).2 t2 a).1 ≠ (get_task_id_addr st t1 a).1 := by
  have hv1 := valid_get_task_id_addr st hv t1 a
  have hlt := valid_addr_lt _ hv1 t1 a _ (get_task_id_addr_lookup st t1 a)
  have hnone : ((get_task_id_addr st t1 a).2.maps t2).task_id_addr_map.lookup a = none := by
    rw [get_task_id_addr_maps_other st t1 t2 a (Ne.symm ht)]
    exact hnew
  rw [get_task_id_addr_fresh _ t2 a hnone]
  exact Nat.ne_of_gt hlt

theorem get_task_id_name_two_threads (st : interning_state) (hv : st.valid) (t1 t2 : Nat)
    (n : List Char) (ht : t1 ≠ t2) (hnew : (st.maps t2).task_id_name_map.lookup n = none) :
    (get_task_id_name (get_task_id_name st t1 n).2 t2 n).1 ≠ (get_task_id_name st t1 n).1 := by
  have hv1 := valid_get_task_id_name st hv t1 n
  have hlt := valid_name_lt _ hv1 t1 n _ (get_task_id_name_lookup st t1 n)
  have hnone : ((get_task_id_name st t1 n).2.maps t2).task_id_name_map.lookup n = none := by
    rw [get_task_id_name_maps_other st t1 t2 n (Ne.symm ht)]
    exact hnew
  rw [get_task_id_name_fresh _ t2 n hnone]
  exact Nat.ne_of_gt hlt

/-- Claim C14, refuted as stated: the tables are thread-local, so the first
calls for the same key on thread 0 and on thread 1 create two objects and
return two different pointers, and the key has one entry in the table of each
thread, two in all.  This holds for an address and for a name. -/
theorem interning_is_per_thread :
    ((get_task_id_addr interning_state.initial 0 4096).1 = 0 ∧
      (get_task_id_addr (get_task_id_addr interning_state.initial 0 4096).2 1 4096).1 = 1 ∧
      entries_for ((get_task_id_addr (get_task_id_addr interning_state.initial 0 4096).2 1
          4096).2.maps 0).task_id_addr_map 4096
        + entries_for ((get_task_id_addr (get_task_id_addr interning_state.initial 0 4096).2 1
          4096).2.maps 1).task_id_addr_map 4096 = 2) ∧
    ((get_task_id_name interning_state.initial 0 "work".toList).1 = 0 ∧
      (get_task_id_name (get_task_id_name interning_state.initial 0 "work".toList).2 1
        "work".toList).1 = 1 ∧
      entries_for ((get_task_id_name (get_task_id_name interning_state.initial 0
          "work".toList).2 1 "work".toList).2.maps 0).task_id_name_map "work".toList
        + entries_for ((get_task_id_name (get_task_id_name interning_state.initial 0
          "work".toList).2 1 "work".toList).2.maps 1).task_id_name_map "work".toList = 2) := by
  decide

/-- Claim C14, amended: there is one canonical identity per distinct address
or name on each thread.  In a state whose tables hold valid pointers, two
successive calls for the same key return the same pointer when they run on the
same thread, and different pointers when they run on two threads of which the
second has not seen the key; after them the table of each of the two threads
holds exactly one entry for the key, and both pointers designate objects with
the key as raw identity. -/
theorem one_identity_per_thread (st : interning_state) (hv : st.valid) (t1 t2 a : Nat)
    (n : List Char) :
    ((t1 = t2 →
        (get_task_id_addr (get_task_id_addr st t1 a).2 t2 a).1
          = (get_task_id_addr st t1 a).1) ∧
      (t1 ≠ t2 → (st.maps t2).task_id_addr_map.lookup a = none →
        (get_task_id_addr (get_task_id_addr st t1 a).2 t2 a).1
          ≠ (get_task_id_addr st t1 a).1) ∧
      entries_for
        ((get_task_id_addr (get_task_id_addr st t1 a).2 t2 a).2.maps t1).task_id_addr_map a = 1 ∧
      entries_for
        ((get_task_id_addr (get_task_id_addr st t1 a).2 t2 a).2.maps t2).task_id_addr_map a = 1 ∧
      ∃ o1 o2,
        (get_task_id_addr (get_task_id_addr st t1 a).2 t2 a).2.heap[
          (get_task_id_addr st t1 a).1]? = some o1 ∧
        (get_task_id_addr (get_task_id_addr st t1 a).2 t2 a).2.heap[
          (get_task_id_addr (get_task_id_addr st t1 a).2 t2 a).1]? = some o2 ∧
        o1.has_name = false ∧ o1.address = a ∧ o2.has_name = false ∧ o2.address = a) ∧
    ((t1 = t2 →
        (get_task_id_name (get_task_id_name st t1 n).2 t2 n).1
          = (get_task_id_name st t1 n).1) ∧
      (t1 ≠ t2 → (st.maps t2).task_id_name_map.lookup n = none →
        (get_task_id_name (get_task_id_name st t1 n).2 t2 n).1
          ≠ (get_task_id_name st t1 n).1) ∧
      entries_for
        ((get_task_id_name (get_task_id_name st t1 n).2 t2 n).2.maps t1).task_id_name_map n = 1 ∧
      entries_for
        ((get_task_id_name (get_task_id_name st t1 n).2 t2 n).2.maps t2).task_id_name_map n = 1 ∧
      ∃ o1 o2,
        (get_task_id_name (get_task_id_name st t1 n).2 t2 n).2.heap[
          (get_task_id_name st t1 n).1]? = some o1 ∧
        (get_task_id_name (get_task_id_name st t1 n).2 t2 n).2.heap[
          (get_task_id_name (get_task_id_name st t1 n).2 t2 n).1]? = some o2 ∧
        o1.has_name = true ∧ o1.name = n ∧ o2.has_name = true ∧ o2.name = n) := by
  have hva := valid_get_task_id_addr _ (valid_get_task_id_addr st hv t1 a) t2 a
  have hvn := valid_get_task_id_name _ (valid_get_task_id_name st hv t1 n) t2 n
  refine ⟨⟨?_, get_task_id_addr_two_threads st hv t1 t2 a, ?_, ?_, ?_⟩,
    ⟨?_, get_task_id_name_two_threads st hv t1 t2 n, ?_, ?_, ?_⟩⟩
  · intro ht
    subst ht
    rw [get_task_id_addr_found _ t1 a _ (get_task_id_addr_lookup st t1 a)]
  · exact entries_for_of_lookup _ a _ (get_task_id_addr_twice_lookup st t1 t2 a)
  · exact entries_for_of_lookup _ a _ (get_task_id_addr_lookup _ t2 a)
  · obtain ⟨o1, h1, h1n, h1a⟩ := hva.1 t1 a _ (get_task_id_addr_twice_lookup st t1 t2 a)
    obtain ⟨o2, h2, h2n, h2a⟩ := hva.1 t2 a _ (get_task_id_addr_lookup _ t2 a)
    exact ⟨o1, o2, h1, h2, h1n, h1a, h2n, h2a⟩
  · intro ht
    subst ht
    rw [get_task_id_name_found _ t1 n _ (get_task_id_name_lookup st t1 n)]
  · exact entries_for_of_lookup _ n _ (get_task_id_name_twice_lookup st t1 t2 n)
  · exact entries_for_of_lookup _ n _ (get_task_id_name_lookup _ t2 n)
  · obtain ⟨o1, h1, h1n, h1a⟩ := hvn.2 t1 n _ (get_task_id_name_twice_lookup st t1 t2 n)
    obtain ⟨o2, h2, h2n, h2a⟩ := hvn.2 t2 n _ (get_task_id_name_lookup _ t2 n)
    exact ⟨o1, o2, h1, h2, h1n, h1a, h2n, h2a⟩

/-- Witness of the amended claim C14: the address 4096 interned on thread 0
and then on thread 1, from the initial state. -/
theorem one_identity_per_thread_witness :
    (get_task_id_addr (get_task_id_addr interning_state.initial 0 4096).2 1 4096).1
      ≠ (get_task_id_addr interning_state.initial 0 4096).1 :=
  (one_identity_per_thread interning_state.initial valid_initial 0 1 4096 []).1.2.1
    (by decide) (by decide)

/-! ## Names of task identifiers -/

theorem starts_with_exclusive (s p q : List Char)
    (h : (p.isPrefixOf q || q.isPrefixOf p) = false) :
    ¬ (starts_with s p = true ∧ starts_with s q = true) := by
  rintro ⟨hp, hq⟩
  unfold starts_with at hp hq
  rw [Bool.or_eq_false_iff] at h
  rcases List.prefix_or_prefix_of_prefix (List.isPrefixOf_iff_prefix.mp hp)
    (List.isPrefixOf_iff_prefix.mp hq) with hpq | hqp
  · rw [List.isPrefixOf_iff_prefix.mpr hpq] at h
    exact Bool.noConfusion h.1
  · rw [List.isPrefixOf_iff_prefix.mpr hqp] at h
    exact Bool.noConfusion h.2

/-- The chain of tests of `get_group` on nine conditions of which no two hold
together: each group is the result exactly when its condition holds. -/
theorem group_chain (b1 b2 b3 b4 b5 b6 b7 b8 b9 : Bool)
    (h12 : ¬ (b1 = true ∧ b2 = true)) (h13 : ¬ (b1 = true ∧ b3 = true))
    (h14 : ¬ (b1 = true ∧ b4 = true)) (h15 : ¬ (b1 = true ∧ b5 = true))
    (h16 : ¬ (b1 = true ∧ b6 = true)) (h17 : ¬ (b1 = true ∧ b7 = true))
    (h18 : ¬ (b1 = true ∧ b8 = true)) (h19 : ¬ (b1 = true ∧ b9 = true))
    (h23 : ¬ (b2 = true ∧ b3 = true)) (h24 : ¬ (b2 = true ∧ b4 = true))
    (h25 : ¬ (b2 = true ∧ b5 = true)) (h26 : ¬ (b2 = true ∧ b6 = true))
    (h27 : ¬ (b2 = true ∧ b7 = true)) (h28 : ¬ (b2 = true ∧ b8 = true))
    (h29 : ¬ (b2 = true ∧ b9 = true)) (h34 : ¬ (b3 = true ∧ b4 = true))
    (h35 : ¬ (b3 = true ∧ b5 = true)) (h36 : ¬ (b3 = true ∧ b6 = true))
    (h37 : ¬ (b3 = true ∧ b7 = true)) (h38 : ¬ (b3 = true ∧ b8 = true))
    (h39 : ¬ (b3 = true ∧ b9 = true)) (h45 : ¬ (b4 = true ∧ b5 = true))
    (h46 : ¬ (b4 = true ∧ b6 = true)) (h47 : ¬ (b4 = true ∧ b7 = true))
    (h48 : ¬ (b4 = true ∧ b8 = true)) (h49 : ¬ (b4 = true ∧ b9 = true))
    (h56 : ¬ (b5 = true ∧ b6 = true)) (h57 : ¬ (b5 = true ∧ b7 = true))
    (h58 : ¬ (b5 = true ∧ b8 = true)) (h59 : ¬ (b5 = true ∧ b9 = true))
    (h67 : ¬ (b6 = true ∧ b7 = true)) (h68 : ¬ (b6 = true ∧ b8 = true))
    (h69 : ¬ (b6 = true ∧ b9 = true)) (h78 : ¬ (b7 = true ∧ b8 = true))
    (h79 : ¬ (b7 = true ∧ b9 = true)) (h89 : ¬ (b8 = true ∧ b9 = true)) :
    ((if b1 = true then "TAU_GPU".toList else if b2 = true then "TAU_OPENMP".toList else if b3 = true
  then "TAU_OPENACC".toList else if b4 = true then "TAU_KOKKOS".toList else if b5 = true then
  "MPI".toList else if b6 = true then "TAU_CUDA".toList else if b7 = true then "TAU_HIP".toList
  else if b8 = true then "TAU_PTHREAD".toList else if b9 = true then "TAU_HPX".toList else
  "TAU_USER".toList) = "TAU_GPU".toList ↔
      b1 = true) ∧
    ((if b1 = true then "TAU_GPU".toList else if b2 = true then "TAU_OPENMP".toList else if b3 =
      true then "TAU_OPENACC".toList else if b4 = true then "TAU_KOKKOS".toList else if b5 = true
      then "MPI".toList else if b6 = true then "TAU_CUDA".toList else if b7 = true then
      "TAU_HIP".toList else if b8 = true then "TAU_PTHREAD".toList else if b9 = true then
      "TAU_HPX".toList else "TAU_USER".toList) = "TAU_OPENMP".toList ↔
      b2 = true) ∧
    ((if b1 = true then "TAU_GPU".toList else if b2 = true then "TAU_OPENMP".toList else if b3 =
      true then "TAU_OPENACC".toList else if b4 = true then "TAU_KOKKOS".toList else if b5 = true
      then "MPI".toList else if b6 = true then "TAU_CUDA".toList else if b7 = true then
      "TAU_HIP".toList else if b8 = true then "TAU_PTHREAD".toList else if b9 = true then
      "TAU_HPX".toList else "TAU_USER".toList) = "TAU_OPENACC".toList ↔
      b3 = true) ∧
    ((if b1 = true then "TAU_GPU".toList else if b2 = true then "TAU_OPENMP".toList else if b3 =
      true then "TAU_OPENACC".toList else if b4 = true then "TAU_KOKKOS".toList else if b5 = true
      then "MPI".toList else if b6 = true then "TAU_CUDA".toList else if b7 = true then
      "TAU_HIP".toList else if b8 = true then "TAU_PTHREAD".toList else if b9 = true then
      "TAU_HPX".toList else "TAU_USER".toList) = "TAU_KOKKOS".toList ↔
      b4 = true) ∧
    ((if b1 = true then "TAU_GPU".toList else if b2 = true then "TAU_OPENMP".toList else if b3 =
      true then "TAU_OPENACC".toList else if b4 = true then "TAU_KOKKOS".toList else if b5 = true
      then "MPI".toList else if b6 = true then "TAU_CUDA".toList else if b7 = true then
      "TAU_HIP".toList else if b8 = true then "TAU_PTHREAD".toList else if b9 = true then
      "TAU_HPX".toList else "TAU_USER".toList) = "MPI".toList ↔
      b5 = true) ∧
    ((if b1 = true then "TAU_GPU".toList else if b2 = true then "TAU_OPENMP".toList else if b3 =
      true then "TAU_OPENACC".toList else if b4 = true then "TAU_KOKKOS".toList else if b5 = true
      then "MPI".toList else if b6 = true then "TAU_CUDA".toList else if b7 = true then
      "TAU_HIP".toList else if b8 = true then "TAU_PTHREAD".toList else if b9 = true then
      "TAU_HPX".toList else "TAU_USER".toList) = "TAU_CUDA".toList ↔
      b6 = true) ∧
    ((if b1 = true then "TAU_GPU".toList else if b2 = true then "TAU_OPENMP".toList else if b3 =
      true then "TAU_OPENACC".toList else if b4 = true then "TAU_KOKKOS".toList else if b5 = true
      then "MPI".toList else if b6 = true then "TAU_CUDA".toList else if b7 = true then
      "TAU_HIP".toList else if b8 = true then "TAU_PTHREAD".toList else if b9 = true then
      "TAU_HPX".toList else "TAU_USER".toList) = "TAU_HIP".toList ↔
      b7 = true) ∧
    ((if b1 = true then "TAU_GPU".toList else if b2 = true then "TAU_OPENMP".toList else if b3 =
      true then "TAU_OPENACC".toList else if b4 = true then "TAU_KOKKOS".toList else if b5 = true
      then "MPI".toList else if b6 = true then "TAU_CUDA".toList else if b7 = true then
      "TAU_HIP".toList else if b8 = true then "TAU_PTHREAD".toList else if b9 = true then
      "TAU_HPX".toList else "TAU_USER".toList) = "TAU_PTHREAD".toList ↔
      b8 = true) ∧
    ((if b1 = true then "TAU_GPU".toList else if b2 = true then "TAU_OPENMP".toList else if b3 =
      true then "TAU_OPENACC".toList else if b4 = true then "TAU_KOKKOS".toList else if b5 = true
      then "MPI".toList else if b6 = true then "TAU_CUDA".toList else if b7 = true then
      "TAU_HIP".toList else if b8 = true then "TAU_PTHREAD".toList else if b9 = true then
      "TAU_HPX".toList else "TAU_USER".toList) = "TAU_HPX".toList ↔
      b9 = true) ∧
    ((if b1 = true then "TAU_GPU".toList else if b2 = true then "TAU_OPENMP".toList else if b3 =
      true then "TAU_OPENACC".toList else if b4 = true then "TAU_KOKKOS".toList else if b5 = true
      then "MPI".toList else if b6 = true then "TAU_CUDA".toList else if b7 = true then
      "TAU_HIP".toList else if b8 = true then "TAU_PTHREAD".toList else if b9 = true then
      "TAU_HPX".toList else "TAU_USER".toList) = "TAU_USER".toList ↔
      (b1 = false ∧ b2 = false ∧ b3 = false ∧ b4 = false ∧ b5 = false ∧ b6 = false ∧ b7 = false ∧
        b8 = false ∧ b9 = false)) := by
  cases b1 <;> cases b2 <;> cases b3 <;> cases b4 <;> cases b5 <;> cases b6 <;> cases b7 <;>
    cases b8 <;> cases b9 <;> first | (exfalso; simp_all; done) | decide

/-- The result of `get_group` in terms of the nine tests of the chain: no two
of the prefixes can start the same string, so each group is returned exactly
when its own test succeeds. -/
theorem group_by_tests (c : resolver) (have_bfd : Bool) (t : task_identifier) :
    ((t.get_group c have_bfd).retval = "TAU_GPU".toList ↔
      starts_with (t.get_name c have_bfd true).retval "GPU: ".toList = true) ∧
    ((t.get_group c have_bfd).retval = "TAU_OPENMP".toList ↔
      starts_with (t.get_name c have_bfd true).retval "OpenMP ".toList = true) ∧
    ((t.get_group c have_bfd).retval = "TAU_OPENACC".toList ↔
      starts_with (t.get_name c have_bfd true).retval "OpenACC ".toList = true) ∧
    ((t.get_group c have_bfd).retval = "TAU_KOKKOS".toList ↔
      starts_with (t.get_name c have_bfd true).retval "Kokkos".toList = true) ∧
    ((t.get_group c have_bfd).retval = "MPI".toList ↔
      starts_with (t.get_name c have_bfd true).retval "MPI_".toList = true) ∧
    ((t.get_group c have_bfd).retval = "TAU_CUDA".toList ↔
      starts_with (t.get_name c have_bfd true).retval "cuda".toList = true) ∧
    ((t.get_group c have_bfd).retval = "TAU_HIP".toList ↔
      starts_with (t.get_name c have_bfd true).retval "hip".toList = true) ∧
    ((t.get_group c have_bfd).retval = "TAU_PTHREAD".toList ↔
      starts_with (t.get_name c have_bfd true).retval "pthread".toList = true) ∧
    ((t.get_group c have_bfd).retval = "TAU_HPX".toList ↔
      starts_with (t.get_name c have_bfd true).retval "hpx".toList = true) ∧
    ((t.get_group c have_bfd).retval = "TAU_USER".toList ↔
      (starts_with (t.get_name c have_bfd true).retval "GPU: ".toList = false ∧
        starts_with (t.get_name c have_bfd true).retval "OpenMP ".toList = false ∧
        starts_with (t.get_name c have_bfd true).retval "OpenACC ".toList = false ∧
        starts_with (t.get_name c have_bfd true).retval "Kokkos".toList = false ∧
        starts_with (t.get_name c have_bfd true).retval "MPI_".toList = false ∧
        starts_with (t.get_name c have_bfd true).retval "cuda".toList = false ∧
        starts_with (t.get_name c have_bfd true).retval "hip".toList = false ∧
        starts_with (t.get_name c have_bfd true).retval "pthread".toList = false ∧
        starts_with (t.get_name c have_bfd true).retval "hpx".toList = false)) :=
  group_chain _ _ _ _ _ _ _ _ _
    (starts_with_exclusive _ "GPU: ".toList "OpenMP ".toList (by decide))
    (starts_with_exclusive _ "GPU: ".toList "OpenACC ".toList (by decide))
    (starts_with_exclusive _ "GPU: ".toList "Kokkos".toList (by decide))
    (starts_with_exclusive _ "GPU: ".toList "MPI_".toList (by decide))
    (starts_with_exclusive _ "GPU: ".toList "cuda".toList (by decide))
    (starts_with_exclusive _ "GPU: ".toList "hip".toList (by decide))
    (starts_with_exclusive _ "GPU: ".toList "pthread".toList (by decide))
    (starts_with_exclusive _ "GPU: ".toList "hpx".toList (by decide))
    (starts_with_exclusive _ "OpenMP ".toList "OpenACC ".toList (by decide))
    (starts_with_exclusive _ "OpenMP ".toList "Kokkos".toList (by decide))
    (starts_with_exclusive _ "OpenMP ".toList "MPI_".toList (by decide))
    (starts_with_exclusive _ "OpenMP ".toList "cuda".toList (by decide))
    (starts_with_exclusive _ "OpenMP ".toList "hip".toList (by decide))
    (starts_with_exclusive _ "OpenMP ".toList "pthread".toList (by decide))
    (starts_with_exclusive _ "OpenMP ".toList "hpx".toList (by decide))
    (starts_with_exclusive _ "OpenACC ".toList "Kokkos".toList (by decide))
    (starts_with_exclusive _ "OpenACC ".toList "MPI_".toList (by decide))
    (starts_with_exclusive _ "OpenACC ".toList "cuda".toList (by decide))
    (starts_with_exclusive _ "OpenACC ".toList "hip".toList (by decide))
    (starts_with_exclusive _ "OpenACC ".toList "pthread".toList (by decide))
    (starts_with_exclusive _ "OpenACC ".toList "hpx".toList (by decide))
    (starts_with_exclusive _ "Kokkos".toList "MPI_".toList (by decide))
    (starts_with_exclusive _ "Kokkos".toList "cuda".toList (by decide))
    (starts_with_exclusive _ "Kokkos".toList "hip".toList (by decide))
    (starts_with_exclusive _ "Kokkos".toList "pthread".toList (by decide))
    (starts_with_exclusive _ "Kokkos".toList "hpx".toList (by decide))
    (starts_with_exclusive _ "MPI_".toList "cuda".toList (by decide))
    (starts_with_exclusive _ "MPI_".toList "hip".toList (by decide))
    (starts_with_exclusive _ "MPI_".toList "pthread".toList (by decide))
    (starts_with_exclusive _ "MPI_".toList "hpx".toList (by decide))
    (starts_with_exclusive _ "cuda".toList "hip".toList (by decide))
    (starts_with_exclusive _ "cuda".toList "pthread".toList (by decide))
    (starts_with_exclusive _ "cuda".toList "hpx".toList (by decide))
    (starts_with_exclusive _ "hip".toList "pthread".toList (by decide))
    (starts_with_exclusive _ "hip".toList "hpx".toList (by decide))
    (starts_with_exclusive _ "pthread".toList "hpx".toList (by decide))

theorem get_name_cached (c : resolver) (have_bfd : Bool) (t : task_identifier)
    (hn : t.has_name = false)
    (h : ¬ (t._resolved_name = [] ∧ t.address ≠ APEX_NULL_FUNCTION_ADDRESS)) :
    t.get_name c have_bfd true = { retval := t._resolved_name, self := t, lookups := 0 } := by
  unfold task_identifier.get_name
  simp only [hn, Bool.not_false, Bool.and_self, if_true, if_neg h]

theorem get_name_resolves (c : resolver) (have_bfd : Bool) (t : task_identifier)
    (hn : t.has_name = false)
    (h : t._resolved_name = [] ∧ t.address ≠ APEX_NULL_FUNCTION_ADDRESS) :
    t.get_name c have_bfd true =
      { retval := c.demangle (c.map_addr_to_name t.address)
        self := { t with _resolved_name := c.demangle (c.map_addr_to_name t.address) }
        lookups := 1 } := by
  unfold task_identifier.get_name
  simp only [hn, Bool.not_false, Bool.and_self, if_true, if_pos h, if_pos h.1]

theorem get_name_named_self (c : resolver) (have_bfd : Bool) (t : task_identifier)
    (hn : t.has_name = true) : (t.get_name c have_bfd true).self = t := by
  unfold task_identifier.get_name
  simp [hn]

/-- A second call of `get_name(true)` returns the string of the first call. -/
theorem get_name_again (c : resolver) (have_bfd : Bool) (t : task_identifier) :
    ((t.get_name c have_bfd true).self.get_name c have_bfd true).retval
      = (t.get_name c have_bfd true).retval := by
  cases hn : t.has_name with
  | true => rw [get_name_named_self c have_bfd t hn]
  | false =>
    by_cases h : t._resolved_name = [] ∧ t.address ≠ APEX_NULL_FUNCTION_ADDRESS
    · rw [get_name_resolves c have_bfd t hn h]
      show (task_identifier.get_name c have_bfd
          { t with _resolved_name := c.demangle (c.map_addr_to_name t.address) } true).retval
        = c.demangle (c.map_addr_to_name t.address)
      by_cases hr : c.demangle (c.map_addr_to_name t.address) = []
      · rw [get_name_resolves c have_bfd
          { t with _resolved_name := c.demangle (c.map_addr_to_name t.address) } hn ⟨hr, h.2⟩]
      · rw [get_name_cached c have_bfd
          { t with _resolved_name := c.demangle (c.map_addr_to_name t.address) } hn
          (fun h' => hr h'.1)]
    · rw [get_name_cached c have_bfd t hn h, get_name_cached c have_bfd t hn h]

theorem get_name_repeatedly_length (c : resolver) (have_bfd : Bool) (n : Nat) :
    ∀ t : task_identifier, (get_name_repeatedly c have_bfd n t).1.length = n := by
  induction n with
  | zero => intro t; rfl
  | succ n ih => intro t; simp [get_name_repeatedly, ih]

theorem get_name_repeatedly_retval (c : resolver) (have_bfd : Bool) (n : Nat) :
    ∀ t : task_identifier, ∀ s ∈ (get_name_repeatedly c have_bfd n t).1,
      s = (t.get_name c have_bfd true).retval := by
  induction n with
  | zero => intro t s hs; cases hs
  | succ n ih =>
    intro t s hs
    simp only [get_name_repeatedly, List.mem_cons] at hs
    rcases hs with h | h
    · exact h
    · rw [ih _ s h]
      exact get_name_again c have_bfd t

theorem get_name_repeatedly_cached (c : resolver) (have_bfd : Bool) (n : Nat) :
    ∀ t : task_identifier, t.has_name = false →
      ¬ (t._resolved_name = [] ∧ t.address ≠ APEX_NULL_FUNCTION_ADDRESS) →
      (get_name_repeatedly c have_bfd n t).2 = 0 := by
  induction n with
  | zero => intro t _ _; rfl
  | succ n ih =>
    intro t hn h
    simp only [get_name_repeatedly]
    rw [get_name_cached c have_bfd t hn h]
    simp only [Nat.zero_add]
    exact ih t hn h

theorem get_name_repeatedly_named (c : resolver) (have_bfd : Bool) (n : Nat) :
    ∀ t : task_identifier, t.has_name = true →
      (get_name_repeatedly c have_bfd n t).2 = n * (t.get_name c have_bfd true).lookups := by
  induction n with
  | zero => intro t _; simp [get_name_repeatedly]
  | succ n ih =>
    intro t hn
    simp only [get_name_repeatedly]
    rw [get_name_named_self c have_bfd t hn, ih t hn, Nat.succ_mul, Nat.add_comm]

/-- Claim C15, refuted as stated: a name-identified task whose name holds an
unresolved address has the address looked up by every call of
`get_name(true)` in a build with BFD (two calls, two lookups), and an
address-identified task whose resolution yields the empty string is resolved
again by every call. -/
theorem get_name_repeats_lookup :
    (get_name_repeatedly sample_resolver true 2
      (task_identifier.of_name "UNRESOLVED ADDR 0x1".toList)).2 = 2 ∧
    (get_name_repeatedly empty_resolver false 2 (task_identifier.of_address 4096)).2 = 2 := by
  decide

theorem resolve_unresolved_addr_lookups (c : resolver) (s : List Char) :
    (resolve_unresolved_addr c s).2
      = if contains "UNRESOLVED ADDR".toList s && unresolved_regex_match s then 1 else 0 := by
  unfold resolve_unresolved_addr
  cases h1 : contains "UNRESOLVED ADDR".toList s with
  | false => simp only [h1, Bool.false_eq_true, if_false, Bool.false_and]
  | true =>
    cases h2 : unresolved_regex_match s with
    | false => simp only [h1, h2, Bool.false_eq_true, if_true, if_false, Bool.and_false]
    | true =>
      simp only [h1, h2, if_true, Bool.and_self]
      split_ifs <;> rfl

theorem get_name_named_lookups (c : resolver) (have_bfd : Bool) (t : task_identifier)
    (hn : t.has_name = true) :
    (t.get_name c have_bfd true).lookups
      = if have_bfd && contains "UNRESOLVED ADDR".toList t.name
          && unresolved_regex_match t.name then 1 else 0 := by
  unfold task_identifier.get_name
  simp only [hn, Bool.not_true, Bool.false_and, if_true, Bool.false_eq_true, if_false]
  cases have_bfd with
  | false => simp
  | true =>
    simp only [if_true, Bool.true_and]
    exact resolve_unresolved_addr_lookups c t.name

/-- Claim C15, amended: successive calls of `get_name(true)` all return the
string of the first call.  For an address-identified task whose resolved name
is not empty, the calls make at most one address lookup in all.  For a
name-identified task nothing is cached: every call makes as many lookups as the
first one, which is one lookup when the build has BFD and the name holds an
unresolved address, and none otherwise. -/
theorem get_name_repeatable (c : resolver) (have_bfd : Bool) (t : task_identifier) (n : Nat) :
    (get_name_repeatedly c have_bfd n t).1.length = n ∧
    (∀ s ∈ (get_name_repeatedly c have_bfd n t).1, s = (t.get_name c have_bfd true).retval) ∧
    (t.has_name = false → c.demangle (c.map_addr_to_name t.address) ≠ [] →
      (get_name_repeatedly c have_bfd n t).2 ≤ 1) ∧
    (t.has_name = true →
      (get_name_repeatedly c have_bfd n t).2 = n * (t.get_name c have_bfd true).lookups ∧
      (t.get_name c have_bfd true).lookups
        = if have_bfd && contains "UNRESOLVED ADDR".toList t.name
            && unresolved_regex_match t.name then 1 else 0) := by
  refine ⟨get_name_repeatedly_length c have_bfd n t, get_name_repeatedly_retval c have_bfd n t,
    ?_, fun hn => ⟨get_name_repeatedly_named c have_bfd n t hn,
      get_name_named_lookups c have_bfd t hn⟩⟩
  intro hn hr
  by_cases h : t._resolved_name = [] ∧ t.address ≠ APEX_NULL_FUNCTION_ADDRESS
  · cases n with
    | zero => exact Nat.zero_le 1
    | succ n =>
      simp only [get_name_repeatedly]
      rw [get_name_resolves c have_bfd t hn h]
      show 1 + (get_name_repeatedly c have_bfd n
        { t with _resolved_name := c.demangle (c.map_addr_to_name t.address) }).2 ≤ 1
      rw [get_name_repeatedly_cached c have_bfd n
        { t with _resolved_name := c.demangle (c.map_addr_to_name t.address) } hn
        (fun h' => hr h'.1)]
  · rw [get_name_repeatedly_cached c have_bfd n t hn h]
    exact Nat.zero_le 1

/-- Witness of the amended claim C15: three calls on the address 4096, which
resolves to `main`, make one lookup. -/
theorem get_name_repeatable_witness :
    (get_name_repeatedly sample_resolver true 3 (task_identifier.of_address 4096)).2 ≤ 1 :=
  (get_name_repeatable sample_resolver true (task_identifier.of_address 4096) 3).2.2.1 rfl
    (by decide)

theorem trim_length_le (s : List Char) : (trim_length s).length ≤ 50 := by
  show (if s.length > 50 then s.take (50 - 3) ++ List.replicate (50 - (50 - 3)) '.'
    else s).length ≤ 50
  split_ifs with h
  · simp only [List.length_append, List.length_take, List.length_replicate]
    omega
  · omega

/-- Claim C16: the short name has at most 50 characters; when the name that
remains after the two trimming steps is longer than 50 characters the short
name is its first 47 characters followed by three dots, and otherwise it is
that trimmed name. -/
theorem short_name_length (c : resolver) (have_bfd : Bool) (t : task_identifier) :
    (t.get_short_name c have_bfd).retval.length ≤ 50 ∧
    (50 < (trim_template (trim_arguments (t.get_name c have_bfd true).retval)).length →
      (t.get_short_name c have_bfd).retval
        = (trim_template (trim_arguments (t.get_name c have_bfd true).retval)).take 47
          ++ "...".toList) ∧
    ((trim_template (trim_arguments (t.get_name c have_bfd true).retval)).length ≤ 50 →
      (t.get_short_name c have_bfd).retval
        = trim_template (trim_arguments (t.get_name c have_bfd true).retval)) := by
  refine ⟨trim_length_le _, ?_, ?_⟩
  · intro h
    show (if (trim_template (trim_arguments (t.get_name c have_bfd true).retval)).length > 50
      then _ else _) = _
    rw [if_pos h]
    rfl
  · intro h
    show (if (trim_template (trim_arguments (t.get_name c have_bfd true).retval)).length > 50
      then _ else _) = _
    rw [if_neg (not_lt.mpr h)]

/-- Witness of claim C16: a name of 60 characters is cut to 47 characters and
three dots, and a short name with an argument list loses the list. -/
theorem short_name_length_witness :
    ((task_identifier.of_name (List.replicate 60 'a')).get_short_name sample_resolver
        false).retval = List.replicate 47 'a' ++ "...".toList ∧
    ((task_identifier.of_name "foo(int)".toList).get_short_name sample_resolver
        false).retval = "foo".toList := by
  constructor
  · rw [(short_name_length sample_resolver false
      (task_identifier.of_name (List.replicate 60 'a'))).2.1 (by decide)]
    decide
  · rw [(short_name_length sample_resolver false
      (task_identifier.of_name "foo(int)".toList)).2.2 (by decide)]
    decide

/-- Claim C17, refuted as stated: every replacement is one pass from left to
right, so the result can still hold a pattern; the replacement of
`_parallel_launch_local_memory` inside the name below leaves exactly that
pattern, and likewise for `_parallel_launch_constant_memory`. -/
theorem tree_name_keeps_pattern :
    ((task_identifier.of_name
        "_parallel_launch_parallel_launch_local_memory_memory".toList).get_tree_name
        sample_resolver false true).retval = "_parallel_launch_local_memory".toList ∧
    ((task_identifier.of_name
        "_parallel_launch_parallel_launch_constant_memoryant_memory".toList).get_tree_name
        sample_resolver false true).retval = "_parallel_launch_constant_memory".toList := by
  decide

/-! ## Reduction of profiles across ranks -/

theorem find_assign_same {K V : Type} [DecidableEq K] (k : K) (v : V) :
    ∀ m : std_map K V, std_map.find (std_map.assign m k v) k = some v := by
  intro m
  induction m with
  | nil => simp [std_map.assign, std_map.find]
  | cons e m ih =>
    obtain ⟨k', v'⟩ := e
    by_cases h : k' = k
    · simp [std_map.assign, std_map.find, h]
    · simp [std_map.assign, std_map.find, h, ih]

theorem find_assign_ne {K V : Type} [DecidableEq K] (k k0 : K) (v : V) (hne : k0 ≠ k) :
    ∀ m : std_map K V, std_map.find (std_map.assign m k v) k0 = std_map.find m k0 := by
  intro m
  induction m with
  | nil => simp [std_map.assign, std_map.find, Ne.symm hne]
  | cons e m ih =>
    obtain ⟨k', v'⟩ := e
    by_cases h : k' = k
    · subst h
      simp [std_map.assign, std_map.find, Ne.symm hne]
    · by_cases h0 : k' = k0
      · subst h0
        simp [std_map.assign, std_map.find, h]
      · simp [std_map.assign, std_map.find, h, h0, ih]

theorem build_row_length (p : Option apex_profile) : (build_row p).length = 20 := by
  cases p with
  | none => simp [build_row, num_fields]
  | some p =>
    simp only [build_row]
    split_ifs <;> simp

theorem getD_append_lt (row rest : List ℚ) (k : Nat) (h : k < row.length) :
    (row ++ rest).getD k 0 = row.getD k 0 := by
  simp [List.getD_eq_getElem?_getD, List.getElem?_append_left h]

theorem merge_entry_append (found : Option apex_profile) (row rest : List ℚ)
    (hlen : row.length = 20) : merge_entry found (row ++ rest) = merge_entry found row := by
  have h0 := getD_append_lt row rest 0 (by omega)
  have h1 := getD_append_lt row rest 1 (by omega)
  have h2 := getD_append_lt row rest 2 (by omega)
  have h3 := getD_append_lt row rest 3 (by omega)
  have h4 := getD_append_lt row rest 4 (by omega)
  have h5 := getD_append_lt row rest 5 (by omega)
  have h6 := getD_append_lt row rest 6 (by omega)
  have h7 := getD_append_lt row rest 7 (by omega)
  have h8 := getD_append_lt row rest 8 (by omega)
  have h9 := getD_append_lt row rest 9 (by omega)
  have h10 := getD_append_lt row rest 10 (by omega)
  have h11 := getD_append_lt row rest 11 (by omega)
  have h12 := getD_append_lt row rest 12 (by omega)
  have h13 := getD_append_lt row rest 13 (by omega)
  have h14 := getD_append_lt row rest 14 (by omega)
  have h15 := getD_append_lt row rest 15 (by omega)
  have h16 := getD_append_lt row rest 16 (by omega)
  have h17 := getD_append_lt row rest 17 (by omega)
  have h18 := getD_append_lt row rest 18 (by omega)
  have h19 := getD_append_lt row rest 19 (by omega)
  simp only [merge_entry, combine_into, h0, h1, h2, h3, h4, h5, h6, h7, h8, h9, h10, h11, h12,
    h13, h14, h15, h16, h17, h18, h19]

theorem drop_row_append (row rest : List ℚ) (hlen : row.length = 20) :
    (row ++ rest).drop num_fields = rest := by
  have : num_fields = row.length := by rw [hlen]; rfl
  rw [this, List.drop_left]

/-- The inner loop on the buffer of a rank is the inner loop on its rows. -/
theorem combine_names_eq (main_str : List Char) (tids : registry) :
    ∀ (ns : List (List Char)) (all_profiles : std_map (List Char) apex_profile)
      (rest : List ℚ),
      combine_names ns all_profiles (build_rows main_str tids ns ++ rest)
        = (merge_names (fun name => build_row (local_profile main_str tids name)) ns
            all_profiles).map fun m => (m, rest) := by
  intro ns
  induction ns with
  | nil => intro m rest; rfl
  | cons n ns ih =>
    intro m rest
    simp only [combine_names, build_rows, merge_names, List.append_assoc]
    rw [merge_entry_append _ _ _ (build_row_length _), drop_row_append _ _ (build_row_length _)]
    cases h : merge_entry (std_map.find m n) (build_row (local_profile main_str tids n)) with
    | none => rfl
    | some p => simp only [bind, Option.some_bind]; exact ih _ _

/-- The outer loop on the gathered buffer is the outer loop on the rows. -/
theorem combine_ranks_eq (main_str : List Char) (all_names : List (List Char)) :
    ∀ (ranks : List registry) (all_profiles : std_map (List Char) apex_profile),
      combine_ranks all_names ranks.length all_profiles
          (gather_rows main_str all_names ranks)
        = (merge_ranks main_str all_names ranks all_profiles).map fun m => (m, []) := by
  intro ranks
  induction ranks with
  | nil => intro m; rfl
  | cons tids ranks ih =>
    intro m
    simp only [List.length_cons, combine_ranks, gather_rows, merge_ranks]
    rw [combine_names_eq]
    cases h : merge_names (fun name => build_row (local_profile main_str tids name)) all_names
        m with
    | none => rfl
    | some m' => simp only [bind, Option.map_some', Option.some_bind]; exact ih _

theorem reduce_rows_eq (main_str : List Char) (all_names : List (List Char))
    (ranks : List registry) :
    reduce_rows main_str all_names ranks = merge_ranks main_str all_names ranks [] := by
  unfold reduce_rows
  rw [combine_ranks_eq]
  cases merge_ranks main_str all_names ranks [] <;> rfl

theorem merge_names_find (row : List Char → List ℚ) :
    ∀ (ns : List (List Char)) (m m' : std_map (List Char) apex_profile), ns.Nodup →
      merge_names row ns m = some m' →
      ∀ n : List Char,
        (n ∈ ns → ∃ p, merge_entry (std_map.find m n) (row n) = some p ∧
          std_map.find m' n = some p) ∧
        (n ∉ ns → std_map.find m' n = std_map.find m n) := by
  intro ns
  induction ns with
  | nil =>
    intro m m' _ h n
    simp only [merge_names] at h
    cases Option.some.inj h
    exact ⟨fun hn => absurd hn (List.not_mem_nil n), fun _ => rfl⟩
  | cons a ns ih =>
    intro m m' hnd h n
    obtain ⟨ha, hns⟩ := List.nodup_cons.mp hnd
    simp only [merge_names] at h
    cases hp : merge_entry (std_map.find m a) (row a) with
    | none => rw [hp] at h; cases h
    | some p0 =>
      rw [hp] at h
      simp only [Option.some_bind] at h
      have hrec := ih (std_map.assign m a p0) m' hns h
      constructor
      · intro hn
        rcases List.mem_cons.mp hn with hna | hnin
        · subst hna
          refine ⟨p0, hp, ?_⟩
          rw [(hrec n).2 ha]
          exact find_assign_same n p0 m
        · have hne : n ≠ a := fun hna => ha (hna ▸ hnin)
          obtain ⟨p, hp1, hp2⟩ := (hrec n).1 hnin
          rw [find_assign_ne a n p0 hne m] at hp1
          exact ⟨p, hp1, hp2⟩
      · intro hn
        have hne : n ≠ a := fun hna => hn (hna ▸ List.mem_cons_self a ns)
        have hnin : n ∉ ns := fun h' => hn (List.mem_cons_of_mem a h')
        rw [(hrec n).2 hnin]
        exact find_assign_ne a n p0 hne m

theorem merge_names_isSome (row : List Char → List ℚ) :
    ∀ (ns : List (List Char)) (m : std_map (List Char) apex_profile),
      (∀ n ∈ ns, ∀ found, ∃ p, merge_entry found (row n) = some p) →
      ∃ m', merge_names row ns m = some m' := by
  intro ns
  induction ns with
  | nil => intro m _; exact ⟨m, rfl⟩
  | cons a ns ih =>
    intro m hall
    obtain ⟨p, hp⟩ := hall a (List.mem_cons_self a ns) (std_map.find m a)
    obtain ⟨m', hm'⟩ := ih (std_map.assign m a p)
      (fun n hn found => hall n (List.mem_cons_of_mem a hn) found)
    refine ⟨m', ?_⟩
    simp only [merge_names, hp, Option.some_bind]
    exact hm'

/-- The profile of a name after the outer loop is its rows combined in rank
order. -/
theorem merge_ranks_find (main_str : List Char) (all_names : List (List Char))
    (hnd : all_names.Nodup) (name : List Char) (hmem : name ∈ all_names) :
    ∀ (ranks : List registry) (m m' : std_map (List Char) apex_profile),
      merge_ranks main_str all_names ranks m = some m' →
      merge_rows (std_map.find m name)
          (ranks.map fun tids => build_row (local_profile main_str tids name))
        = some (std_map.find m' name) := by
  intro ranks
  induction ranks with
  | nil =>
    intro m m' h
    simp only [merge_ranks] at h
    cases Option.some.inj h
    rfl
  | cons tids ranks ih =>
    intro m m' h
    simp only [merge_ranks] at h
    cases hm1 : merge_names (fun name => build_row (local_profile main_str tids name))
        all_names m with
    | none => rw [hm1] at h; cases h
    | some m1 =>
      rw [hm1] at h
      simp only [Option.some_bind] at h
      obtain ⟨p, hp1, hp2⟩ := (merge_names_find _ all_names m m1 hnd hm1 name).1 hmem
      simp only [List.map_cons, merge_rows, hp1, Option.some_bind]
      rw [← hp2]
      exact ih m1 m' h

theorem merge_ranks_isSome (main_str : List Char) (all_names : List (List Char)) :
    ∀ (ranks : List registry) (m : std_map (List Char) apex_profile),
      (∀ tids ∈ ranks, ∀ n ∈ all_names, ∀ found,
        ∃ p, merge_entry found (build_row (local_profile main_str tids n)) = some p) →
      ∃ m', merge_ranks main_str all_names ranks m = some m' := by
  intro ranks
  induction ranks with
  | nil => intro m _; exact ⟨m, rfl⟩
  | cons tids ranks ih =>
    intro m hall
    obtain ⟨m1, hm1⟩ := merge_names_isSome
      (fun name => build_row (local_profile main_str tids name)) all_names m
      (fun n hn found => hall tids (List.mem_cons_self tids ranks) n hn found)
    obtain ⟨m', hm'⟩ := ih m1 (fun t ht => hall t (List.mem_cons_of_mem tids ht))
    refine ⟨m', ?_⟩
    simp only [merge_ranks, hm1, Option.some_bind]
    exact hm'

theorem double_to_int_intCast (n : Int) : double_to_int (n : ℚ) = n := by
  unfold double_to_int
  split_ifs with h
  · rw [Rat.floor_def']
    simp
  · rw [Rat.floor_def']
    simp

theorem double_to_profile_type_of (ty : apex_profile_type) :
    double_to_profile_type (profile_type_to_double ty) = some ty := by
  cases ty <;> simp [double_to_profile_type, profile_type_to_double]

theorem double_to_profile_type_zero :
    double_to_profile_type 0 = some apex_profile_type.APEX_TIMER :=
  double_to_profile_type_of apex_profile_type.APEX_TIMER

theorem double_to_size_t_zero : double_to_size_t 0 = some 0 := by
  have := double_to_size_t_natCast 0 (by decide)
  simpa using this

theorem getD_replicate_zero (n k : Nat) : (List.replicate n (0 : ℚ)).getD k 0 = 0 := by
  rw [List.getD_eq_getElem?_getD, List.getElem?_replicate]
  split_ifs <;> rfl

/-- The slots of the row of a rank that has no profile for the name. -/
theorem build_row_none_slot (k : Nat) : (build_row none).getD k 0 = 0 :=
  getD_replicate_zero num_fields k

/-- The first twelve slots of the row of a profile. -/
theorem build_row_some_slots (q : apex_profile) :
    (build_row (some q)).getD 0 0 = (if q.calls = 0 then 1 else q.calls) ∧
    (build_row (some q)).getD 1 0 = (if q.stops = 0 then 1 else q.stops) ∧
    (build_row (some q)).getD 2 0 = q.accumulated ∧
    (build_row (some q)).getD 3 0 = q.sum_squares ∧
    (build_row (some q)).getD 4 0 = q.minimum ∧
    (build_row (some q)).getD 5 0 = q.maximum ∧
    (build_row (some q)).getD 6 0 = (q.times_reset : ℚ) ∧
    (build_row (some q)).getD 7 0 = profile_type_to_double q.type ∧
    (build_row (some q)).getD 8 0 = (q.allocations : ℚ) ∧
    (build_row (some q)).getD 9 0 = (q.frees : ℚ) ∧
    (build_row (some q)).getD 10 0 = (q.bytes_allocated : ℚ) ∧
    (build_row (some q)).getD 11 0 = (q.bytes_freed : ℚ) :=
  ⟨rfl, rfl, rfl, rfl, rfl, rfl, rfl, rfl, rfl, rfl, rfl, rfl⟩

/-- The last eight slots of the row of a profile. -/
theorem build_row_some_papi (q : apex_profile) (j : Nat) (hj : j < 8) :
    (build_row (some q)).getD (12 + j) 0 = sent_papi j (some q) := by
  simp only [build_row, sent_papi]
  have h : j = 0 ∨ j = 1 ∨ j = 2 ∨ j = 3 ∨ j = 4 ∨ j = 5 ∨ j = 6 ∨ j = 7 := by omega
  by_cases ht : q.type = apex_profile_type.APEX_TIMER
  · rw [if_pos ht, if_pos ht]
    rcases h with h | h | h | h | h | h | h | h <;> subst h <;> rfl
  · rw [if_neg ht, if_neg ht]
    rcases h with h | h | h | h | h | h | h | h <;> subst h <;> rfl

theorem merge_entry_of_conversions (found : Option apex_profile) (row : List ℚ)
    (ty : apex_profile_type) (a f ba bf : Nat)
    (hty : double_to_profile_type (row.getD 7 0) = some ty)
    (ha : double_to_size_t (row.getD 8 0) = some a)
    (hf : double_to_size_t (row.getD 9 0) = some f)
    (hba : double_to_size_t (row.getD 10 0) = some ba)
    (hbf : double_to_size_t (row.getD 11 0) = some bf) :
    merge_entry found row
      = some (combine_into (found.getD (new_entry ty)) row ty a f ba bf) := by
  cases found with
  | none => simp only [merge_entry, bind, pure, hty, ha, hf, hba, hbf, Option.some_bind,
      Option.getD_none]
  | some p => simp only [merge_entry, bind, pure, hty, ha, hf, hba, hbf, Option.some_bind,
      Option.getD_some]

/-- The row that a rank builds for a name is combined without a failing
conversion, when the allocation fields of the rank are in the range of
`size_t`. -/
theorem merge_entry_build_row (found : Option apex_profile) (o : Option apex_profile)
    (hrep : ∀ q, o = some q → q.representable) :
    ∃ ty a f ba bf,
      merge_entry found (build_row o)
        = some (combine_into (found.getD (new_entry ty)) (build_row o) ty a f ba bf) ∧
      ty = (o.map apex_profile.type).getD apex_profile_type.APEX_TIMER := by
  cases o with
  | none =>
    refine ⟨apex_profile_type.APEX_TIMER, 0, 0, 0, 0, ?_, rfl⟩
    apply merge_entry_of_conversions
    · rw [build_row_none_slot]; exact double_to_profile_type_zero
    · rw [build_row_none_slot]; exact double_to_size_t_zero
    · rw [build_row_none_slot]; exact double_to_size_t_zero
    · rw [build_row_none_slot]; exact double_to_size_t_zero
    · rw [build_row_none_slot]; exact double_to_size_t_zero
  | some q =>
    obtain ⟨h1, h2, h3, h4⟩ := hrep q rfl
    obtain ⟨-, -, -, -, -, -, -, s7, s8, s9, s10, s11⟩ := build_row_some_slots q
    refine ⟨q.type, q.allocations, q.frees, q.bytes_allocated, q.bytes_freed, ?_, rfl⟩
    apply merge_entry_of_conversions
    · rw [s7]; exact double_to_profile_type_of q.type
    · rw [s8]; exact double_to_size_t_natCast _ h1
    · rw [s9]; exact double_to_size_t_natCast _ h2
    · rw [s10]; exact double_to_size_t_natCast _ h3
    · rw [s11]; exact double_to_size_t_natCast _ h4

/-- A field to which every row adds its contribution holds, after the rows of
a name are combined, what it held before plus the sum of the contributions.
The rows are given by their sources `srcs`, `r s` being the row of `s`. -/
theorem merge_rows_sum {α : Type} (r : α → List ℚ) (f : apex_profile → ℚ) (g : α → ℚ) :
    ∀ (srcs : List α) (found o : Option apex_profile),
      (∀ s ∈ srcs, ∀ fnd p, merge_entry fnd (r s) = some p →
        f p = (fnd.map f).getD 0 + g s) →
      merge_rows found (srcs.map r) = some o →
      (o.map f).getD 0 = (found.map f).getD 0 + (srcs.map g).sum := by
  intro srcs
  induction srcs with
  | nil =>
    intro found o _ h
    simp only [List.map_nil, merge_rows] at h
    cases Option.some.inj h
    simp
  | cons s srcs ih =>
    intro found o hstep h
    simp only [List.map_cons, merge_rows] at h
    cases hp : merge_entry found (r s) with
    | none => rw [hp] at h; cases h
    | some p =>
      rw [hp] at h
      simp only [Option.some_bind] at h
      have h1 := ih (some p) o (fun x hx => hstep x (List.mem_cons_of_mem s hx)) h
      have h2 := hstep s (List.mem_cons_self s srcs) found p hp
      rw [h1]
      simp only [Option.map_some', Option.getD_some, List.map_cons, List.sum_cons]
      rw [h2, add_assoc]

theorem merge_rows_some (rows : List (List ℚ)) :
    ∀ (p : apex_profile) (o : Option apex_profile),
      merge_rows (some p) rows = some o → ∃ q, o = some q := by
  induction rows with
  | nil =>
    intro p o h
    simp only [merge_rows] at h
    exact ⟨p, (Option.some.inj h).symm⟩
  | cons row rows ih =>
    intro p o h
    simp only [merge_rows] at h
    cases hp : merge_entry (some p) row with
    | none => rw [hp] at h; cases h
    | some p1 =>
      rw [hp] at h
      exact ih p1 o h

theorem merge_rows_some_of_ne_nil (rows : List (List ℚ)) (hne : rows ≠ [])
    (found o : Option apex_profile) (h : merge_rows found rows = some o) : ∃ q, o = some q := by
  cases rows with
  | nil => exact absurd rfl hne
  | cons row rows =>
    simp only [merge_rows] at h
    cases hp : merge_entry found row with
    | none => rw [hp] at h; cases h
    | some p1 =>
      rw [hp] at h
      exact merge_rows_some rows p1 o h

theorem getD_eight (a0 a1 a2 a3 a4 a5 a6 a7 : ℚ) (b : List ℚ) (c : List ℚ) (j : Nat)
    (hj : j < 8)
    (ha : [a0, a1, a2, a3, a4, a5, a6, a7]
      = [b.getD 0 0 + c.getD 12 0, b.getD 1 0 + c.getD 13 0, b.getD 2 0 + c.getD 14 0,
         b.getD 3 0 + c.getD 15 0, b.getD 4 0 + c.getD 16 0, b.getD 5 0 + c.getD 17 0,
         b.getD 6 0 + c.getD 18 0, b.getD 7 0 + c.getD 19 0]) :
    [a0, a1, a2, a3, a4, a5, a6, a7].getD j 0 = b.getD j 0 + c.getD (12 + j) 0 := by
  rw [ha]
  have h : j = 0 ∨ j = 1 ∨ j = 2 ∨ j = 3 ∨ j = 4 ∨ j = 5 ∨ j = 6 ∨ j = 7 := by omega
  rcases h with h | h | h | h | h | h | h | h <;> subst h <;> rfl

/-- What one row built by a rank adds to the summed fields of a profile. -/
theorem merge_entry_build_row_fields (fnd loc : Option apex_profile)
    (hrep : ∀ q, loc = some q → q.representable) (p : apex_profile)
    (h : merge_entry fnd (build_row loc) = some p) :
    p.calls = (fnd.map apex_profile.calls).getD 0 + sent_calls loc ∧
    p.stops = (fnd.map apex_profile.stops).getD 0 + sent_stops loc ∧
    p.accumulated = (fnd.map apex_profile.accumulated).getD 0
      + (loc.map apex_profile.accumulated).getD 0 ∧
    p.sum_squares = (fnd.map apex_profile.sum_squares).getD 0
      + (loc.map apex_profile.sum_squares).getD 0 ∧
    (p.times_reset : ℚ) = (fnd.map fun x => (x.times_reset : ℚ)).getD 0
      + (loc.map fun x => (x.times_reset : ℚ)).getD 0 ∧
    ∀ j, j < 8 →
      p.papi_metrics.getD j 0 = (fnd.map fun x => x.papi_metrics.getD j 0).getD 0
        + sent_papi j loc := by
  obtain ⟨ty, a, f, ba, bf, hm, hty⟩ := merge_entry_build_row fnd loc hrep
  rw [hm] at h
  cases Option.some.inj h
  have hbase : ∀ (fld : apex_profile → ℚ), fld (new_entry ty) = 0 →
      fld (fnd.getD (new_entry ty)) = (fnd.map fld).getD 0 := by
    intro fld h0
    cases fnd with
    | none => simpa using h0
    | some x => rfl
  refine ⟨?_, ?_, ?_, ?_, ?_, ?_⟩
  · show (fnd.getD (new_entry ty)).calls + (build_row loc).getD 0 0 = _
    rw [hbase apex_profile.calls rfl]
    cases loc with
    | none => rw [build_row_none_slot]; rfl
    | some q => rfl
  · show (fnd.getD (new_entry ty)).stops + (build_row loc).getD 1 0 = _
    rw [hbase apex_profile.stops rfl]
    cases loc with
    | none => rw [build_row_none_slot]; rfl
    | some q => rfl
  · show (fnd.getD (new_entry ty)).accumulated + (build_row loc).getD 2 0 = _
    rw [hbase apex_profile.accumulated rfl]
    cases loc with
    | none => rw [build_row_none_slot]; rfl
    | some q => rfl
  · show (fnd.getD (new_entry ty)).sum_squares + (build_row loc).getD 3 0 = _
    rw [hbase apex_profile.sum_squares rfl]
    cases loc with
    | none => rw [build_row_none_slot]; rfl
    | some q => rfl
  · show ((double_to_int (((fnd.getD (new_entry ty)).times_reset : ℚ)
      + (build_row loc).getD 6 0) : Int) : ℚ) = _
    have hb := hbase (fun x => (x.times_reset : ℚ)) (by simp [new_entry, apex_profile.zeroed])
    simp only at hb
    have hrow : (build_row loc).getD 6 0 = (((loc.map apex_profile.times_reset).getD 0 : Int) : ℚ)
        := by
      cases loc with
      | none => rw [build_row_none_slot]; simp
      | some q => rfl
    rw [hrow, ← Int.cast_add, double_to_int_intCast, Int.cast_add, hb]
    cases loc with
    | none => simp
    | some q => rfl
  · intro j hj
    have hb := hbase (fun x => x.papi_metrics.getD j 0) (getD_replicate_zero 8 j)
    simp only at hb
    have hslot : (build_row loc).getD (12 + j) 0 = sent_papi j loc := by
      cases loc with
      | none => rw [build_row_none_slot]; rfl
      | some q => exact build_row_some_papi q j hj
    by_cases ht : ty = apex_profile_type.APEX_TIMER
    · have hp : (combine_into (fnd.getD (new_entry ty)) (build_row loc) ty a f ba
          bf).papi_metrics
          = [(fnd.getD (new_entry ty)).papi_metrics.getD 0 0 + (build_row loc).getD 12 0,
             (fnd.getD (new_entry ty)).papi_metrics.getD 1 0 + (build_row loc).getD 13 0,
             (fnd.getD (new_entry ty)).papi_metrics.getD 2 0 + (build_row loc).getD 14 0,
             (fnd.getD (new_entry ty)).papi_metrics.getD 3 0 + (build_row loc).getD 15 0,
             (fnd.getD (new_entry ty)).papi_metrics.getD 4 0 + (build_row loc).getD 16 0,
             (fnd.getD (new_entry ty)).papi_metrics.getD 5 0 + (build_row loc).getD 17 0,
             (fnd.getD (new_entry ty)).papi_metrics.getD 6 0 + (build_row loc).getD 18 0,
             (fnd.getD (new_entry ty)).papi_metrics.getD 7 0 + (build_row loc).getD 19 0] := by
        simp only [combine_into, if_pos ht]
      rw [hp, getD_eight _ _ _ _ _ _ _ _ _ _ j hj rfl, hb, hslot]
    · have hp : (combine_into (fnd.getD (new_entry ty)) (build_row loc) ty a f ba
          bf).papi_metrics = (fnd.getD (new_entry ty)).papi_metrics := by
        simp only [combine_into, if_neg ht]
      rw [hp, hb]
      have hz : sent_papi j loc = 0 := by
        cases loc with
        | none => rfl
        | some q =>
          have hq : q.type ≠ apex_profile_type.APEX_TIMER := by
            intro hq
            apply ht
            rw [hty]
            simpa using hq
          simp [sent_papi, hq]
      rw [hz, add_zero]

/-- The summed fields of the profile that rank 0 holds for a name of the
unified name set after the reduction: each is the sum, over the ranks, of what
the rank sent for the name. -/
theorem reduce_rows_fields (main_str : List Char) (all_names : List (List Char))
    (ranks : List registry) (name : List Char) (hnd : all_names.Nodup)
    (hmem : name ∈ all_names) (hne : ranks ≠ [])
    (hrep : ∀ tids ∈ ranks, ∀ n q, local_profile main_str tids n = some q → q.representable) :
    ∃ all_profiles p,
      reduce_rows main_str all_names ranks = some all_profiles ∧
      std_map.find all_profiles name = some p ∧
      p.calls = (ranks.map fun tids => sent_calls (local_profile main_str tids name)).sum ∧
      p.stops = (ranks.map fun tids => sent_stops (local_profile main_str tids name)).sum ∧
      p.accumulated = (ranks.map fun tids =>
        ((local_profile main_str tids name).map apex_profile.accumulated).getD 0).sum ∧
      p.sum_squares = (ranks.map fun tids =>
        ((local_profile main_str tids name).map apex_profile.sum_squares).getD 0).sum ∧
      (p.times_reset : ℚ) = (ranks.map fun tids =>
        ((local_profile main_str tids name).map fun x => (x.times_reset : ℚ)).getD 0).sum ∧
      ∀ j, j < 8 → p.papi_metrics.getD j 0
        = (ranks.map fun tids => sent_papi j (local_profile main_str tids name)).sum := by
  obtain ⟨m', hm'⟩ := merge_ranks_isSome main_str all_names ranks []
    (fun tids ht n _ found => by
      obtain ⟨ty, a, f, ba, bf, h, -⟩ := merge_entry_build_row found
        (local_profile main_str tids n) (fun q hq => hrep tids ht n q hq)
      exact ⟨_, h⟩)
  have hrows := merge_ranks_find main_str all_names hnd name hmem ranks [] m' hm'
  have hfound : std_map.find ([] : std_map (List Char) apex_profile) name = none := rfl
  rw [hfound] at hrows
  obtain ⟨p, hp⟩ := merge_rows_some_of_ne_nil _
    (by simpa using hne) none _ hrows
  rw [hp] at hrows
  have hstep := fun (tids : registry) (ht : tids ∈ ranks) (fnd : Option apex_profile)
      (q : apex_profile)
      (h : merge_entry fnd (build_row (local_profile main_str tids name)) = some q) =>
    merge_entry_build_row_fields fnd (local_profile main_str tids name)
      (fun x hx => hrep tids ht name x hx) q h
  refine ⟨m', p, by rw [reduce_rows_eq]; exact hm', hp, ?_, ?_, ?_, ?_, ?_, ?_⟩
  · have := merge_rows_sum (fun tids => build_row (local_profile main_str tids name))
      apex_profile.calls (fun tids => sent_calls (local_profile main_str tids name))
      ranks none (some p) (fun s hs fnd q h => (hstep s hs fnd q h).1) hrows
    simpa using this
  · have := merge_rows_sum (fun tids => build_row (local_profile main_str tids name))
      apex_profile.stops (fun tids => sent_stops (local_profile main_str tids name))
      ranks none (some p) (fun s hs fnd q h => (hstep s hs fnd q h).2.1) hrows
    simpa using this
  · have := merge_rows_sum (fun tids => build_row (local_profile main_str tids name))
      apex_profile.accumulated
      (fun tids => ((local_profile main_str tids name).map apex_profile.accumulated).getD 0)
      ranks none (some p) (fun s hs fnd q h => (hstep s hs fnd q h).2.2.1) hrows
    simpa using this
  · have := merge_rows_sum (fun tids => build_row (local_profile main_str tids name))
      apex_profile.sum_squares
      (fun tids => ((local_profile main_str tids name).map apex_profile.sum_squares).getD 0)
      ranks none (some p) (fun s hs fnd q h => (hstep s hs fnd q h).2.2.2.1) hrows
    simpa using this
  · have := merge_rows_sum (fun tids => build_row (local_profile main_str tids name))
      (fun x => (x.times_reset : ℚ))
      (fun tids =>
        ((local_profile main_str tids name).map fun x => (x.times_reset : ℚ)).getD 0)
      ranks none (some p) (fun s hs fnd q h => (hstep s hs fnd q h).2.2.2.2.1) hrows
    simpa using this
  · intro j hj
    have := merge_rows_sum (fun tids => build_row (local_profile main_str tids name))
      (fun x => x.papi_metrics.getD j 0)
      (fun tids => sent_papi j (local_profile main_str tids name))
      ranks none (some p) (fun s hs fnd q h => (hstep s hs fnd q h).2.2.2.2.2 j hj) hrows
    simpa using this

theorem find_insert_new {K V : Type} [DecidableEq K] (m : std_map K V) (k n : K) (v x : V)
    (h : std_map.find (std_map.insert_new m k v) n = some x) :
    std_map.find m n = some x ∨ (n = k ∧ x = v) := by
  unfold std_map.insert_new at h
  split_ifs at h with hk
  · exact Or.inl h
  · by_cases hn : n = k
    · subst hn
      rw [find_assign_same] at h
      exact Or.inr ⟨rfl, (Option.some.inj h).symm⟩
    · rw [find_assign_ne k n v hn] at h
      exact Or.inl h

theorem build_tid_map_find (main_str : List Char) (n : List Char) (x : Option apex_profile) :
    ∀ (tids : registry) (m : std_map (List Char) (Option apex_profile)),
      std_map.find (tids.foldl (fun tid_map e =>
        if e.1 = main_str then tid_map else std_map.insert_new tid_map e.1 e.2) m) n = some x →
      std_map.find m n = some x ∨ (n, x) ∈ tids := by
  intro tids
  induction tids with
  | nil => intro m h; exact Or.inl h
  | cons e tids ih =>
    intro m h
    simp only [List.foldl_cons] at h
    rcases ih _ h with h1 | h1
    · split_ifs at h1 with he
      · exact Or.inl h1
      · rcases find_insert_new m e.1 n e.2 x h1 with h2 | ⟨h2, h3⟩
        · exact Or.inl h2
        · right
          have : e = (n, x) := by
            rw [h2, h3]
          rw [this]
          exact List.mem_cons_self _ _
    · exact Or.inr (List.mem_cons_of_mem e h1)

/-- The profile that a rank finds for a name is a profile of its registry. -/
theorem local_profile_mem (main_str : List Char) (tids : registry) (n : List Char)
    (q : apex_profile) (h : local_profile main_str tids n = some q) : (n, some q) ∈ tids := by
  unfold local_profile at h
  cases hf : std_map.find (build_tid_map main_str tids) n with
  | none => rw [hf] at h; cases h
  | some x =>
    rw [hf] at h
    have hx : x = some q := h
    subst hx
    rcases build_tid_map_find main_str n (some q) tids [] hf with h1 | h1
    · cases h1
    · exact h1

theorem local_profile_representable (main_str : List Char) (ranks : List registry)
    (hrep : ∀ tids ∈ ranks, registry_representable tids) :
    ∀ tids ∈ ranks, ∀ n q, local_profile main_str tids n = some q → q.representable :=
  fun tids ht n q h => hrep tids ht (n, some q) (local_profile_mem main_str tids n q h) q rfl

theorem sum_map_intCast {α : Type} (f : α → Int) :
    ∀ l : List α, (((l.map f).sum : Int) : ℚ) = (l.map fun x => ((f x : Int) : ℚ)).sum := by
  intro l
  induction l with
  | nil => simp
  | cons a l ih => simp [ih]

theorem sample_timer_representable (calls accumulated : ℚ) :
    (sample_timer calls accumulated).representable := by
  refine ⟨?_, ?_, ?_, ?_⟩ <;> exact Nat.pos_pow_of_pos 64 (by decide)

/-- Claim C19, refuted as stated: a rank sends 1 in place of a call count of
0.  A single rank whose only record was built from one yielded sample has
0 calls, and the merged record has 1 call. -/
theorem merged_calls_of_yielded_sample :
    (profile.construct false 7 7 0 [] true apex_profile_type.APEX_TIMER)._profile.calls = 0 ∧
    (reduce_rows "APEX MAIN".toList ["work".toList]
      [[("work".toList,
        some (profile.construct false 7 7 0 [] true apex_profile_type.APEX_TIMER)._profile)]]).bind
      (fun m => (std_map.find m "work".toList).map apex_profile.calls) = some 1 := by
  constructor
  · rfl
  · obtain ⟨m, p, h1, h2, h3, -⟩ := reduce_rows_fields "APEX MAIN".toList ["work".toList]
      [[("work".toList,
        some (profile.construct false 7 7 0 [] true apex_profile_type.APEX_TIMER)._profile)]]
      "work".toList (by decide) (by decide) (by simp)
      (local_profile_representable _ _ (by
        intro tids ht e he q hq
        simp only [List.mem_singleton] at ht
        subst ht
        simp only [List.mem_singleton] at he
        subst he
        cases Option.some.inj hq
        refine ⟨?_, ?_, ?_, ?_⟩ <;> exact Nat.pos_pow_of_pos 64 (by decide)))
    rw [h1]
    simp only [Option.some_bind, h2, Option.map_some', h3, List.map_cons, List.map_nil,
      List.sum_cons, List.sum_nil, add_zero]
    have hl : local_profile "APEX MAIN".toList
        [("work".toList,
          some (profile.construct false 7 7 0 [] true apex_profile_type.APEX_TIMER)._profile)]
        "work".toList
        = some (profile.construct false 7 7 0 [] true apex_profile_type.APEX_TIMER)._profile := by
      rfl
    rw [hl]
    rfl

theorem sent_calls_of_ne_zero (o : Option apex_profile)
    (h : ∀ q, o = some q → q.calls ≠ 0) :
    sent_calls o = (o.map apex_profile.calls).getD 0 := by
  cases o with
  | none => rfl
  | some q => simp [sent_calls, h q rfl]

theorem sent_stops_of_ne_zero (o : Option apex_profile)
    (h : ∀ q, o = some q → q.stops ≠ 0) :
    sent_stops o = (o.map apex_profile.stops).getD 0 := by
  cases o with
  | none => rfl
  | some q => simp [sent_stops, h q rfl]

theorem sent_papi_of_timer (j : Nat) (o : Option apex_profile)
    (h : ∀ q, o = some q → q.type = apex_profile_type.APEX_TIMER) :
    sent_papi j o = (o.map fun x => x.papi_metrics.getD j 0).getD 0 := by
  cases o with
  | none => rfl
  | some q => simp [sent_papi, h q rfl]

theorem sum_map_congr {α : Type} (f g : α → ℚ) :
    ∀ l : List α, (∀ x ∈ l, f x = g x) → (l.map f).sum = (l.map g).sum := by
  intro l
  induction l with
  | nil => intro _; rfl
  | cons a l ih =>
    intro h
    simp only [List.map_cons, List.sum_cons]
    rw [h a (List.mem_cons_self a l), ih (fun x hx => h x (List.mem_cons_of_mem a hx))]

/-- Claim C19, amended: for a name of the unified name set and at least one
rank, the merged calls and stops are the sums over the ranks of what each rank
sends: its local count, 1 in place of a local count of 0, and 0 when the rank
has no record for the name.  So they are the sums of the local counts when no
rank holds a record for the name with a count of 0. -/
theorem merged_calls_and_stops (main_str : List Char) (all_names : List (List Char))
    (ranks : List registry) (name : List Char) (hnd : all_names.Nodup)
    (hmem : name ∈ all_names) (hne : ranks ≠ [])
    (hrep : ∀ tids ∈ ranks, registry_representable tids) :
    ∃ all_profiles p,
      reduce_rows main_str all_names ranks = some all_profiles ∧
      std_map.find all_profiles name = some p ∧
      p.calls = (ranks.map fun tids => sent_calls (local_profile main_str tids name)).sum ∧
      p.stops = (ranks.map fun tids => sent_stops (local_profile main_str tids name)).sum ∧
      ((∀ tids ∈ ranks, ∀ q, local_profile main_str tids name = some q → q.calls ≠ 0) →
        p.calls = (ranks.map fun tids =>
          ((local_profile main_str tids name).map apex_profile.calls).getD 0).sum) ∧
      ((∀ tids ∈ ranks, ∀ q, local_profile main_str tids name = some q → q.stops ≠ 0) →
        p.stops = (ranks.map fun tids =>
          ((local_profile main_str tids name).map apex_profile.stops).getD 0).sum) := by
  obtain ⟨m, p, h1, h2, h3, h4, -⟩ := reduce_rows_fields main_str all_names ranks name hnd hmem
    hne (local_profile_representable main_str ranks hrep)
  refine ⟨m, p, h1, h2, h3, h4, ?_, ?_⟩
  · intro hz
    rw [h3]
    exact sum_map_congr _ _ ranks (fun tids ht => sent_calls_of_ne_zero _ (hz tids ht))
  · intro hz
    rw [h4]
    exact sum_map_congr _ _ ranks (fun tids ht => sent_stops_of_ne_zero _ (hz tids ht))

theorem sample_ranks_representable (c0 a0 c1 a1 : ℚ) :
    ∀ tids ∈ [[("work".toList, some (sample_timer c0 a0))],
        [("work".toList, some (sample_timer c1 a1))], []],
      registry_representable tids := by
  intro tids ht e he q hq
  simp only [List.mem_cons, List.mem_singleton, List.not_mem_nil, or_false] at ht
  rcases ht with ht | ht | ht
  · subst ht
    simp only [List.mem_singleton] at he
    subst he
    cases Option.some.inj hq
    exact sample_timer_representable c0 a0
  · subst ht
    simp only [List.mem_singleton] at he
    subst he
    cases Option.some.inj hq
    exact sample_timer_representable c1 a1
  · subst ht
    cases he

/-- Witness of the amended claim C19: ranks reporting 10 and 5 calls for
`work` and a third rank without a record for it give 15 merged calls. -/
theorem merged_calls_and_stops_witness :
    (reduce_rows "APEX MAIN".toList ["work".toList]
      [[("work".toList, some (sample_timer 10 100))],
       [("work".toList, some (sample_timer 5 40))], []]).bind
      (fun m => (std_map.find m "work".toList).map apex_profile.calls) = some 15 := by
  obtain ⟨m, p, h1, h2, h3, -⟩ := merged_calls_and_stops "APEX MAIN".toList ["work".toList]
    [[("work".toList, some (sample_timer 10 100))],
     [("work".toList, some (sample_timer 5 40))], []]
    "work".toList (by decide) (by decide) (by simp) (sample_ranks_representable 10 100 5 40)
  rw [h1]
  simp only [Option.some_bind, h2, Option.map_some', h3, List.map_cons, List.map_nil,
    List.sum_cons, List.sum_nil, add_zero]
  have hl0 : local_profile "APEX MAIN".toList [("work".toList, some (sample_timer 10 100))]
      "work".toList = some (sample_timer 10 100) := rfl
  have hl1 : local_profile "APEX MAIN".toList [("work".toList, some (sample_timer 5 40))]
      "work".toList = some (sample_timer 5 40) := rfl
  have hl2 : local_profile "APEX MAIN".toList [] "work".toList = none := rfl
  rw [hl0, hl1, hl2]
  norm_num [sent_calls, sample_timer]

/-- Claim C20: for a name of the unified name set and at least one rank, the
merged accumulated value, sum of squares and reset count are the sums over the
ranks of the local values (0 for a rank without a record for the name), and
when every record of the name is a timer each of the eight merged hardware
counters is the sum of the local counters. -/
theorem merged_sums (main_str : List Char) (all_names : List (List Char))
    (ranks : List registry) (name : List Char) (hnd : all_names.Nodup)
    (hmem : name ∈ all_names) (hne : ranks ≠ [])
    (hrep : ∀ tids ∈ ranks, registry_representable tids) :
    ∃ all_profiles p,
      reduce_rows main_str all_names ranks = some all_profiles ∧
      std_map.find all_profiles name = some p ∧
      p.accumulated = (ranks.map fun tids =>
        ((local_profile main_str tids name).map apex_profile.accumulated).getD 0).sum ∧
      p.sum_squares = (ranks.map fun tids =>
        ((local_profile main_str tids name).map apex_profile.sum_squares).getD 0).sum ∧
      p.times_reset = (ranks.map fun tids =>
        ((local_profile main_str tids name).map apex_profile.times_reset).getD 0).sum ∧
      ((∀ tids ∈ ranks, ∀ q, local_profile main_str tids name = some q →
          q.type = apex_profile_type.APEX_TIMER) →
        ∀ j, j < 8 → p.papi_metrics.getD j 0 = (ranks.map fun tids =>
          ((local_profile main_str tids name).map fun x => x.papi_metrics.getD j 0).getD
            0).sum) := by
  obtain ⟨m, p, h1, h2, -, -, h5, h6, h7, h8⟩ := reduce_rows_fields main_str all_names ranks
    name hnd hmem hne (local_profile_representable main_str ranks hrep)
  refine ⟨m, p, h1, h2, h5, h6, ?_, ?_⟩
  · have hcast : ((p.times_reset : Int) : ℚ)
        = (((ranks.map fun tids =>
            ((local_profile main_str tids name).map apex_profile.times_reset).getD 0).sum
            : Int) : ℚ) := by
      rw [h7, sum_map_intCast]
      apply sum_map_congr
      intro tids _
      cases local_profile main_str tids name <;> simp
    exact_mod_cast hcast
  · intro ht j hj
    rw [h8 j hj]
    exact sum_map_congr _ _ ranks (fun tids hm => sent_papi_of_timer j _ (ht tids hm))

/-- Witness of claim C20: ranks reporting the accumulated values 100 and 40
for `work` and a third rank without a record for it give 140. -/
theorem merged_sums_witness :
    (reduce_rows "APEX MAIN".toList ["work".toList]
      [[("work".toList, some (sample_timer 10 100))],
       [("work".toList, some (sample_timer 5 40))], []]).bind
      (fun m => (std_map.find m "work".toList).map apex_profile.accumulated) = some 140 := by
  obtain ⟨m, p, h1, h2, h3, -⟩ := merged_sums "APEX MAIN".toList ["work".toList]
    [[("work".toList, some (sample_timer 10 100))],
     [("work".toList, some (sample_timer 5 40))], []]
    "work".toList (by decide) (by decide) (by simp) (sample_ranks_representable 10 100 5 40)
  rw [h1]
  simp only [Option.some_bind, h2, Option.map_some', h3, List.map_cons, List.map_nil,
    List.sum_cons, List.sum_nil, add_zero]
  have hl0 : local_profile "APEX MAIN".toList [("work".toList, some (sample_timer 10 100))]
      "work".toList = some (sample_timer 10 100) := rfl
  have hl1 : local_profile "APEX MAIN".toList [("work".toList, some (sample_timer 5 40))]
      "work".toList = some (sample_timer 5 40) := rfl
  have hl2 : local_profile "APEX MAIN".toList [] "work".toList = none := rfl
  rw [hl0, hl1, hl2]
  norm_num [sample_timer]

/-! ## Replacement passes of the tree name -/

theorem replace_all_aux_skip (p r : List Char) :
    ∀ (s : List Char) (k : Nat),
      replace_all_aux p r k s = replace_all_aux p r 0 (s.drop k) := by
  intro s
  induction s with
  | nil => intro k; cases k <;> rfl
  | cons c s ih =>
    intro k
    cases k with
    | zero => rfl
    | succ k => simpa [replace_all_aux] using ih k

theorem replace_all_nil (p r : List Char) : replace_all p r [] = [] := rfl

theorem replace_all_cons_match (p r : List Char) (hp : p ≠ []) (c : Char) (s : List Char)
    (h : p.isPrefixOf (c :: s) = true) :
    replace_all p r (c :: s) = r ++ replace_all p r ((c :: s).drop p.length) := by
  have hlen : p.length = (p.length - 1) + 1 := by
    have := List.length_pos.mpr hp
    omega
  unfold replace_all
  simp only [replace_all_aux, h, if_true]
  rw [replace_all_aux_skip p r s (p.length - 1)]
  conv_rhs => rw [hlen, List.drop_succ_cons]

theorem replace_all_cons_skip (p r : List Char) (c : Char) (s : List Char)
    (h : p.isPrefixOf (c :: s) = false) :
    replace_all p r (c :: s) = c :: replace_all p r s := by
  unfold replace_all
  simp [replace_all_aux, h]

/-- An occurrence of `q` in `a ++ b` lies in `a`, lies in `b`, or has a
non-empty start at the end of `a` and a non-empty rest at the start of `b`. -/
theorem infix_append_cases (q a b : List Char) (h : q <:+: a ++ b) :
    q <:+: a ∨ q <:+: b ∨
      ∃ q1 q2, q = q1 ++ q2 ∧ q1 ≠ [] ∧ q2 ≠ [] ∧ q1 <:+ a ∧ q2 <+: b := by
  obtain ⟨x, y, hxy⟩ := h
  rw [List.append_assoc] at hxy
  rcases List.append_eq_append_iff.mp hxy with ⟨a', ha, hb⟩ | ⟨c', hx, hb⟩
  · rcases List.append_eq_append_iff.mp hb with ⟨d, hq, hy⟩ | ⟨e, hq, hy⟩
    · left
      refine ⟨x, d, ?_⟩
      rw [ha, hq, List.append_assoc]
    · by_cases h1 : a' = []
      · subst h1
        right; left
        refine ⟨[], y, ?_⟩
        rw [hy, hq]
        simp
      · by_cases h2 : e = []
        · subst h2
          left
          refine ⟨x, [], ?_⟩
          rw [ha, hq]
          simp
        · right; right
          exact ⟨a', e, hq, h1, h2, ⟨x, ha.symm⟩, ⟨y, hy.symm⟩⟩
  · right; left
    refine ⟨c', y, ?_⟩
    rw [hb, List.append_assoc]

/-- An occurrence of `q` cannot appear around an inserted copy of `r` that `q`
does not overlap. -/
theorem no_overlap_append (q r u X : List Char) (hno : no_overlap q r) (hu : ¬ q <:+: u)
    (hX : ¬ q <:+: X) : ¬ q <:+: u ++ (r ++ X) := by
  obtain ⟨h1, h2, h3, h4⟩ := hno
  intro h
  rcases infix_append_cases q u (r ++ X) h with h | h | ⟨q1, q2, hq, hq1, hq2, -, hpre⟩
  · exact hu h
  · rcases infix_append_cases q r X h with h | h | ⟨q1, q2, hq, hq1, hq2, hsuf, -⟩
    · exact h2 h
    · exact hX h
    · exact h4 q1 ((List.mem_inits q1 q).mpr ⟨q2, hq.symm⟩) hq1 hsuf
  · rcases List.prefix_or_prefix_of_prefix hpre (List.prefix_append r X) with h | h
    · exact h3 q2 ((List.mem_tails q2 q).mpr ⟨q1, hq.symm⟩) hq2 h
    · apply h1
      obtain ⟨t, ht⟩ := h
      refine ⟨q1, t, ?_⟩
      rw [hq, ← ht, List.append_assoc]

/-- A replacement pass does not create an occurrence of a pattern that its
replacement text does not overlap. -/
theorem replace_all_avoids (q p r : List Char) (hp : p ≠ []) (hno : no_overlap q r) :
    ∀ (n : Nat) (s u : List Char), s.length ≤ n → ¬ q <:+: u ++ s →
      ¬ q <:+: u ++ replace_all p r s := by
  intro n
  induction n with
  | zero =>
    intro s u hn h
    have hs : s = [] := List.length_eq_zero.mp (Nat.le_zero.mp hn)
    subst hs
    exact h
  | succ n ih =>
    intro s u hn h
    cases s with
    | nil => exact h
    | cons c s =>
      have hn' : s.length ≤ n := by
        simp only [List.length_cons] at hn
        omega
      cases hm : p.isPrefixOf (c :: s) with
      | true =>
        rw [replace_all_cons_match p r hp c s hm]
        have hu : ¬ q <:+: u := fun hq => h (hq.trans (List.infix_append' [] u (c :: s)))
        have hdrop : ((c :: s).drop p.length).length ≤ n := by
          have := List.length_pos.mpr hp
          simp only [List.length_drop, List.length_cons]
          omega
        have hX : ¬ q <:+: replace_all p r ((c :: s).drop p.length) := by
          have := ih ((c :: s).drop p.length) [] hdrop (by
            intro hq
            apply h
            simp only [List.nil_append] at hq
            exact hq.trans ((List.drop_suffix _ _).isInfix.trans
              (List.suffix_append u (c :: s)).isInfix))
          simpa using this
        exact no_overlap_append q r u _ hno hu hX
      | false =>
        rw [replace_all_cons_skip p r c s hm]
        have := ih s (u ++ [c]) hn' (by simpa [List.append_assoc] using h)
        simpa [List.append_assoc] using this

/-- A replacement pass leaves no occurrence of its own pattern, when the
replacement text does not overlap the pattern.  The text `u` stands before the
part `s` that is still to be scanned; no occurrence starts inside `u`. -/
theorem replace_all_removes (p r : List Char) (hp : p ≠ []) (hno : no_overlap p r) :
    ∀ (n : Nat) (s u : List Char), s.length ≤ n →
      (∀ a b, u ++ s = a ++ p ++ b → u.length ≤ a.length) →
      ¬ p <:+: u ++ replace_all p r s := by
  have hpos := List.length_pos.mpr hp
  have hu_free : ∀ (s u : List Char),
      (∀ a b, u ++ s = a ++ p ++ b → u.length ≤ a.length) → ¬ p <:+: u := by
    intro s u h hq
    obtain ⟨a, b, hab⟩ := hq
    have := h a (b ++ s) (by rw [← hab]; simp [List.append_assoc])
    have hl : u.length = a.length + p.length + b.length := by
      rw [← hab, List.length_append, List.length_append]
    omega
  intro n
  induction n with
  | zero =>
    intro s u hn h
    have hs : s = [] := List.length_eq_zero.mp (Nat.le_zero.mp hn)
    subst hs
    rw [replace_all_nil, List.append_nil]
    exact hu_free [] u h
  | succ n ih =>
    intro s u hn h
    cases s with
    | nil =>
      rw [replace_all_nil, List.append_nil]
      exact hu_free [] u h
    | cons c s =>
      have hn' : s.length ≤ n := by
        simp only [List.length_cons] at hn
        omega
      cases hm : p.isPrefixOf (c :: s) with
      | true =>
        rw [replace_all_cons_match p r hp c s hm]
        have hdrop : ((c :: s).drop p.length).length ≤ n := by
          simp only [List.length_drop, List.length_cons]
          omega
        have hX : ¬ p <:+: replace_all p r ((c :: s).drop p.length) := by
          have := ih ((c :: s).drop p.length) [] hdrop (fun a b _ => Nat.zero_le _)
          simpa using this
        exact no_overlap_append p r u _ hno (hu_free (c :: s) u h) hX
      | false =>
        rw [replace_all_cons_skip p r c s hm]
        have := ih s (u ++ [c]) hn' (by
          intro a b hab
          have hab' : u ++ (c :: s) = a ++ p ++ b := by
            rw [← hab]; simp [List.append_assoc]
          have hle := h a b hab'
          have hne : u.length ≠ a.length := by
            intro heq
            rw [List.append_assoc] at hab'
            obtain ⟨-, h2⟩ := List.append_inj hab' heq
            have hpre : p <+: c :: s := ⟨b, h2.symm⟩
            rw [List.isPrefixOf_iff_prefix.mpr hpre] at hm
            cases hm
          simp only [List.length_append, List.length_singleton]
          omega)
        simpa [List.append_assoc] using this

theorem foldl_replace_avoids (q : List Char) :
    ∀ (rules : List (List Char × List Char)) (s : List Char),
      (∀ rule ∈ rules, rule.1 ≠ [] ∧ no_overlap q rule.2) → ¬ q <:+: s →
      ¬ q <:+: rules.foldl (fun s rule => replace_all rule.1 rule.2 s) s := by
  intro rules
  induction rules with
  | nil => intro s _ h; exact h
  | cons rule rules ih =>
    intro s hall h
    obtain ⟨hp, hno⟩ := hall rule (List.mem_cons_self rule rules)
    simp only [List.foldl_cons]
    apply ih _ (fun x hx => hall x (List.mem_cons_of_mem rule hx))
    have := replace_all_avoids q rule.1 rule.2 hp hno s.length s [] (le_refl _)
      (by simpa using h)
    simpa using this

/-- A pattern whose own replacement and all later replacements do not overlap
it does not occur in the result of the passes. -/
theorem foldl_replace_removes (q r : List Char) (hq : q ≠ [])
    (pre post : List (List Char × List Char)) (s : List Char) (hno : no_overlap q r)
    (hpost : ∀ rule ∈ post, rule.1 ≠ [] ∧ no_overlap q rule.2) :
    ¬ q <:+: (pre ++ (q, r) :: post).foldl (fun s rule => replace_all rule.1 rule.2 s) s := by
  rw [List.foldl_append, List.foldl_cons]
  apply foldl_replace_avoids q post _ hpost
  have := replace_all_removes q r hq hno _ (pre.foldl (fun s rule => replace_all rule.1 rule.2 s)
    s) [] (le_refl _) (fun a b _ => Nat.zero_le _)
  simpa using this

/-- Claim C17, amended: with short task names enabled the tree name is the
resolved name after the eleven replacements, applied in the listed order, one
pass each, and it contains none of the first nine patterns; with short task
names disabled it is the resolved name. -/
theorem tree_name_applies_rules (c : resolver) (have_bfd : Bool) (t : task_identifier) :
    (t.get_tree_name c have_bfd true).retval
      = tree_name_rules.foldl (fun s rule => replace_all rule.1 rule.2 s)
          (t.get_name c have_bfd true).retval ∧
    (∀ rule ∈ tree_name_rules.take 9,
      ¬ rule.1 <:+: (t.get_tree_name c have_bfd true).retval) ∧
    (t.get_tree_name c have_bfd false).retval = (t.get_name c have_bfd true).retval := by
  refine ⟨rfl, ?_, rfl⟩
  intro rule hrule
  have hrules : (t.get_tree_name c have_bfd true).retval
      = tree_name_rules.foldl (fun s rule => replace_all rule.1 rule.2 s)
          (t.get_name c have_bfd true).retval := rfl
  rw [hrules]
  simp only [tree_name_rules, List.take_succ_cons, List.take_zero, List.mem_cons,
    List.mem_singleton, List.not_mem_nil, or_false] at hrule
  rcases hrule with h | h | h | h | h | h | h | h | h
  · rw [h]
    exact foldl_replace_removes _ _ (by decide) (tree_name_rules.take 0)
      (tree_name_rules.drop 1) _ (by decide) (by decide)
  · rw [h]
    exact foldl_replace_removes _ _ (by decide) (tree_name_rules.take 1)
      (tree_name_rules.drop 2) _ (by decide) (by decide)
  · rw [h]
    exact foldl_replace_removes _ _ (by decide) (tree_name_rules.take 2)
      (tree_name_rules.drop 3) _ (by decide) (by decide)
  · rw [h]
    exact foldl_replace_removes _ _ (by decide) (tree_name_rules.take 3)
      (tree_name_rules.drop 4) _ (by decide) (by decide)
  · rw [h]
    exact foldl_replace_removes _ _ (by decide) (tree_name_rules.take 4)
      (tree_name_rules.drop 5) _ (by decide) (by decide)
  · rw [h]
    exact foldl_replace_removes _ _ (by decide) (tree_name_rules.take 5)
      (tree_name_rules.drop 6) _ (by decide) (by decide)
  · rw [h]
    exact foldl_replace_removes _ _ (by decide) (tree_name_rules.take 6)
      (tree_name_rules.drop 7) _ (by decide) (by decide)
  · rw [h]
    exact foldl_replace_removes _ _ (by decide) (tree_name_rules.take 7)
      (tree_name_rules.drop 8) _ (by decide) (by decide)
  · rw [h]
    exact foldl_replace_removes _ _ (by decide) (tree_name_rules.take 8)
      (tree_name_rules.drop 9) _ (by decide) (by decide)

/-- Witness of the amended claim C17: the tree name of a Kokkos kernel name
holds no `ParallelFor`. -/
theorem tree_name_applies_rules_witness :
    ¬ "ParallelFor".toList <:+:
      ((task_identifier.of_name "Kokkos::Impl::ParallelFor<Functor>".toList).get_tree_name
        sample_resolver false true).retval :=
  (tree_name_applies_rules sample_resolver false
    (task_identifier.of_name "Kokkos::Impl::ParallelFor<Functor>".toList)).2.1
    ("ParallelFor".toList, "p_for".toList) (by decide)

/-! ## Minimum, maximum and the assigned fields of the merged profile -/

/-- The profile into which a built row is combined, with the converted values
of the row named: the type and the allocation fields are those of the local
profile, and those of a zero row are `APEX_TIMER` and 0. -/
theorem merge_entry_build_row_values (found : Option apex_profile) (o : Option apex_profile)
    (hrep : ∀ q, o = some q → q.representable) :
    merge_entry found (build_row o)
      = some (combine_into
          (found.getD (new_entry ((o.map apex_profile.type).getD apex_profile_type.APEX_TIMER)))
          (build_row o) ((o.map apex_profile.type).getD apex_profile_type.APEX_TIMER)
          ((o.map apex_profile.allocations).getD 0) ((o.map apex_profile.frees).getD 0)
          ((o.map apex_profile.bytes_allocated).getD 0)
          ((o.map apex_profile.bytes_freed).getD 0)) := by
  cases o with
  | none =>
    apply merge_entry_of_conversions
    · rw [build_row_none_slot]; exact double_to_profile_type_zero
    · rw [build_row_none_slot]; exact double_to_size_t_zero
    · rw [build_row_none_slot]; exact double_to_size_t_zero
    · rw [build_row_none_slot]; exact double_to_size_t_zero
    · rw [build_row_none_slot]; exact double_to_size_t_zero
  | some q =>
    obtain ⟨h1, h2, h3, h4⟩ := hrep q rfl
    obtain ⟨-, -, -, -, -, -, -, s7, s8, s9, s10, s11⟩ := build_row_some_slots q
    apply merge_entry_of_conversions
    · rw [s7]; exact double_to_profile_type_of q.type
    · rw [s8]; exact double_to_size_t_natCast _ h1
    · rw [s9]; exact double_to_size_t_natCast _ h2
    · rw [s10]; exact double_to_size_t_natCast _ h3
    · rw [s11]; exact double_to_size_t_natCast _ h4

/-- What one row built by a rank does to the minimum, the maximum, the type
and the allocation fields of a profile. -/
theorem merge_entry_build_row_assigned (fnd loc : Option apex_profile)
    (hrep : ∀ q, loc = some q → q.representable) (p : apex_profile)
    (h : merge_entry fnd (build_row loc) = some p) :
    p.minimum = min ((fnd.map apex_profile.minimum).getD DBL_MAX) ((build_row loc).getD 4 0) ∧
    p.maximum = max ((fnd.map apex_profile.maximum).getD 0) ((build_row loc).getD 5 0) ∧
    p.type = (loc.map apex_profile.type).getD apex_profile_type.APEX_TIMER ∧
    p.allocations = (loc.map apex_profile.allocations).getD 0 ∧
    p.frees = (loc.map apex_profile.frees).getD 0 ∧
    p.bytes_allocated = (loc.map apex_profile.bytes_allocated).getD 0 ∧
    p.bytes_freed = (loc.map apex_profile.bytes_freed).getD 0 := by
  rw [merge_entry_build_row_values fnd loc hrep] at h
  cases Option.some.inj h
  refine ⟨?_, ?_, rfl, rfl, rfl, rfl, rfl⟩
  · show (if (build_row loc).getD 4 0 < (fnd.getD (new_entry _)).minimum
      then (build_row loc).getD 4 0 else (fnd.getD (new_entry _)).minimum) = _
    have hb : (fnd.getD (new_entry
        ((loc.map apex_profile.type).getD apex_profile_type.APEX_TIMER))).minimum
        = (fnd.map apex_profile.minimum).getD DBL_MAX := by
      cases fnd <;> rfl
    rw [hb]
    split_ifs with hlt
    · exact (min_eq_right (le_of_lt hlt)).symm
    · exact (min_eq_left (not_lt.mp hlt)).symm
  · show (if (build_row loc).getD 5 0 > (fnd.getD (new_entry _)).maximum
      then (build_row loc).getD 5 0 else (fnd.getD (new_entry _)).maximum) = _
    have hb : (fnd.getD (new_entry
        ((loc.map apex_profile.type).getD apex_profile_type.APEX_TIMER))).maximum
        = (fnd.map apex_profile.maximum).getD 0 := by
      cases fnd <;> rfl
    rw [hb]
    split_ifs with hlt
    · exact (max_eq_right (le_of_lt hlt)).symm
    · exact (max_eq_left (not_lt.mp hlt)).symm

/-- A quantity that every row updates by a step holds, after the rows of a
name are combined, the left fold of the steps. -/
theorem merge_rows_foldl {α β : Type} (r : α → List ℚ) (F : Option apex_profile → β)
    (step : β → α → β) :
    ∀ (srcs : List α) (found o : Option apex_profile),
      (∀ s ∈ srcs, ∀ fnd p, merge_entry fnd (r s) = some p → F (some p) = step (F fnd) s) →
      merge_rows found (srcs.map r) = some o →
      F o = srcs.foldl step (F found) := by
  intro srcs
  induction srcs with
  | nil =>
    intro found o _ h
    simp only [List.map_nil, merge_rows] at h
    cases Option.some.inj h
    rfl
  | cons s srcs ih =>
    intro found o hstep h
    simp only [List.map_cons, merge_rows] at h
    cases hp : merge_entry found (r s) with
    | none => rw [hp] at h; cases h
    | some p =>
      rw [hp] at h
      simp only [Option.some_bind] at h
      have h1 := ih (some p) o (fun x hx => hstep x (List.mem_cons_of_mem s hx)) h
      have h2 := hstep s (List.mem_cons_self s srcs) found p hp
      rw [h1, h2]
      rfl

/-- Rank 0 ends the reduction with a table that holds a profile for each name
of the unified name set: the rows of the name combined in rank order. -/
theorem reduce_rows_find (main_str : List Char) (all_names : List (List Char))
    (ranks : List registry) (name : List Char) (hnd : all_names.Nodup)
    (hmem : name ∈ all_names) (hne : ranks ≠ [])
    (hrep : ∀ tids ∈ ranks, ∀ n q, local_profile main_str tids n = some q → q.representable) :
    ∃ all_profiles p,
      reduce_rows main_str all_names ranks = some all_profiles ∧
      std_map.find all_profiles name = some p ∧
      merge_rows none (ranks.map fun tids => build_row (local_profile main_str tids name))
        = some (some p) := by
  obtain ⟨m', hm'⟩ := merge_ranks_isSome main_str all_names ranks []
    (fun tids ht n _ found => by
      obtain ⟨ty, a, f, ba, bf, h, -⟩ := merge_entry_build_row found
        (local_profile main_str tids n) (fun q hq => hrep tids ht n q hq)
      exact ⟨_, h⟩)
  have hrows := merge_ranks_find main_str all_names hnd name hmem ranks [] m' hm'
  have hfound : std_map.find ([] : std_map (List Char) apex_profile) name = none := rfl
  rw [hfound] at hrows
  obtain ⟨p, hp⟩ := merge_rows_some_of_ne_nil _
    (by simpa using hne) none _ hrows
  rw [hp] at hrows
  exact ⟨m', p, by rw [reduce_rows_eq]; exact hm', hp, hrows⟩

/-- The minimum and the maximum of the merged profile of a name: the running
minimum of the minimum slots of the rows, from `DBL_MAX`, and the running
maximum of the maximum slots, from 0. -/
theorem reduce_rows_min_max (main_str : List Char) (all_names : List (List Char))
    (ranks : List registry) (name : List Char) (hnd : all_names.Nodup)
    (hmem : name ∈ all_names) (hne : ranks ≠ [])
    (hrep : ∀ tids ∈ ranks, ∀ n q, local_profile main_str tids n = some q → q.representable) :
    ∃ all_profiles p,
      reduce_rows main_str all_names ranks = some all_profiles ∧
      std_map.find all_profiles name = some p ∧
      p.minimum = (ranks.map fun tids =>
        (build_row (local_profile main_str tids name)).getD 4 0).foldl min DBL_MAX ∧
      p.maximum = (ranks.map fun tids =>
        (build_row (local_profile main_str tids name)).getD 5 0).foldl max 0 := by
  obtain ⟨m, p, h1, h2, hrows⟩ := reduce_rows_find main_str all_names ranks name hnd hmem hne
    hrep
  have hstep := fun (tids : registry) (ht : tids ∈ ranks) (fnd : Option apex_profile)
      (q : apex_profile)
      (h : merge_entry fnd (build_row (local_profile main_str tids name)) = some q) =>
    merge_entry_build_row_assigned fnd (local_profile main_str tids name)
      (fun x hx => hrep tids ht name x hx) q h
  refine ⟨m, p, h1, h2, ?_, ?_⟩
  · have := merge_rows_foldl (fun tids => build_row (local_profile main_str tids name))
      (fun o => (o.map apex_profile.minimum).getD DBL_MAX)
      (fun b tids => min b ((build_row (local_profile main_str tids name)).getD 4 0))
      ranks none (some p) (fun s hs fnd q h => (hstep s hs fnd q h).1) hrows
    rw [List.foldl_map]
    simpa using this
  · have := merge_rows_foldl (fun tids => build_row (local_profile main_str tids name))
      (fun o => (o.map apex_profile.maximum).getD 0)
      (fun b tids => max b ((build_row (local_profile main_str tids name)).getD 5 0))
      ranks none (some p) (fun s hs fnd q h => (hstep s hs fnd q h).2.1) hrows
    rw [List.foldl_map]
    simpa using this

/-- The type and the allocation fields of the merged profile of a name are
those of the row of the last rank. -/
theorem reduce_rows_last (main_str : List Char) (all_names : List (List Char))
    (ranks : List registry) (last : registry) (name : List Char) (hnd : all_names.Nodup)
    (hmem : name ∈ all_names)
    (hrep : ∀ tids ∈ ranks ++ [last], ∀ n q,
      local_profile main_str tids n = some q → q.representable) :
    ∃ all_profiles p,
      reduce_rows main_str all_names (ranks ++ [last]) = some all_profiles ∧
      std_map.find all_profiles name = some p ∧
      p.type = ((local_profile main_str last name).map apex_profile.type).getD
        apex_profile_type.APEX_TIMER ∧
      p.allocations = ((local_profile main_str last name).map apex_profile.allocations).getD 0 ∧
      p.frees = ((local_profile main_str last name).map apex_profile.frees).getD 0 ∧
      p.bytes_allocated
        = ((local_profile main_str last name).map apex_profile.bytes_allocated).getD 0 ∧
      p.bytes_freed = ((local_profile main_str last name).map apex_profile.bytes_freed).getD 0 := by
  obtain ⟨m, p, h1, h2, hrows⟩ := reduce_rows_find main_str all_names (ranks ++ [last]) name
    hnd hmem (by simp) hrep
  have hstep := fun (tids : registry) (ht : tids ∈ ranks ++ [last])
      (fnd : Option apex_profile) (q : apex_profile)
      (h : merge_entry fnd (build_row (local_profile main_str tids name)) = some q) =>
    merge_entry_build_row_assigned fnd (local_profile main_str tids name)
      (fun x hx => hrep tids ht name x hx) q h
  have hfold : ∀ {β : Type} (g : registry → β) (b : β),
      (ranks ++ [last]).foldl (fun _ tids => g tids) b = g last := by
    intro β g b
    rw [List.foldl_append]
    rfl
  refine ⟨m, p, h1, h2, ?_, ?_, ?_, ?_, ?_⟩
  · have := merge_rows_foldl (fun tids => build_row (local_profile main_str tids name))
      (fun o => (o.map apex_profile.type).getD apex_profile_type.APEX_TIMER)
      (fun _ tids => ((local_profile main_str tids name).map apex_profile.type).getD
        apex_profile_type.APEX_TIMER)
      (ranks ++ [last]) none (some p) (fun s hs fnd q h => (hstep s hs fnd q h).2.2.1) hrows
    rw [hfold] at this
    exact this
  · have := merge_rows_foldl (fun tids => build_row (local_profile main_str tids name))
      (fun o => (o.map apex_profile.allocations).getD 0)
      (fun _ tids => ((local_profile main_str tids name).map apex_profile.allocations).getD 0)
      (ranks ++ [last]) none (some p) (fun s hs fnd q h => (hstep s hs fnd q h).2.2.2.1) hrows
    rw [hfold] at this
    exact this
  · have := merge_rows_foldl (fun tids => build_row (local_profile main_str tids name))
      (fun o => (o.map apex_profile.frees).getD 0)
      (fun _ tids => ((local_profile main_str tids name).map apex_profile.frees).getD 0)
      (ranks ++ [last]) none (some p) (fun s hs fnd q h => (hstep s hs fnd q h).2.2.2.2.1) hrows
    rw [hfold] at this
    exact this
  · have := merge_rows_foldl (fun tids => build_row (local_profile main_str tids name))
      (fun o => (o.map apex_profile.bytes_allocated).getD 0)
      (fun _ tids =>
        ((local_profile main_str tids name).map apex_profile.bytes_allocated).getD 0)
      (ranks ++ [last]) none (some p) (fun s hs fnd q h => (hstep s hs fnd q h).2.2.2.2.2.1)
      hrows
    rw [hfold] at this
    exact this
  · have := merge_rows_foldl (fun tids => build_row (local_profile main_str tids name))
      (fun o => (o.map apex_profile.bytes_freed).getD 0)
      (fun _ tids => ((local_profile main_str tids name).map apex_profile.bytes_freed).getD 0)
      (ranks ++ [last]) none (some p) (fun s hs fnd q h => (hstep s hs fnd q h).2.2.2.2.2.2)
      hrows
    rw [hfold] at this
    exact this

theorem registry_representable_of_in_range (tids : registry)
    (h : registry_in_range tids = true) : registry_representable tids := by
  intro e he q hq
  have h1 := List.all_eq_true.mp h e he
  rw [hq] at h1
  simp only [Bool.and_eq_true, decide_eq_true_eq] at h1
  exact ⟨h1.1.1.1, h1.1.1.2, h1.1.2, h1.2⟩

theorem ranks_representable_of_in_range (ranks : List registry)
    (h : ranks.all registry_in_range = true) : ∀ tids ∈ ranks, registry_representable tids :=
  fun tids ht => registry_representable_of_in_range tids (List.all_eq_true.mp h tids ht)

theorem min_right_commutative : RightCommutative (min : ℚ → ℚ → ℚ) :=
  ⟨fun a b c => by rw [min_assoc, min_comm b c, ← min_assoc]⟩

theorem max_right_commutative : RightCommutative (max : ℚ → ℚ → ℚ) :=
  ⟨fun a b c => by rw [max_assoc, max_comm b c, ← max_assoc]⟩

/-- Claim C26: for a name of the unified name set, the merged minimum is
min(DBL_MAX, m_1, ..., m_k) and the merged maximum is max(0, M_1, ..., M_k),
where m_i and M_i are the minimum slot and the maximum slot of the row of
participant i for the name, i = 1..k. -/
theorem merged_minimum_and_maximum (main_str : List Char) (all_names : List (List Char))
    (ranks : List registry) (name : List Char) (hnd : all_names.Nodup)
    (hmem : name ∈ all_names) (hne : ranks ≠ [])
    (hrep : ∀ tids ∈ ranks, registry_representable tids) :
    ∃ all_profiles p,
      reduce_rows main_str all_names ranks = some all_profiles ∧
      std_map.find all_profiles name = some p ∧
      p.minimum = (ranks.map fun tids =>
        (build_row (local_profile main_str tids name)).getD 4 0).foldl min DBL_MAX ∧
      p.maximum = (ranks.map fun tids =>
        (build_row (local_profile main_str tids name)).getD 5 0).foldl max 0 :=
  reduce_rows_min_max main_str all_names ranks name hnd hmem hne
    (local_profile_representable main_str ranks hrep)

/-- Witness of claim C26: ranks whose records for `work` have the minima 1
and 1 and the maxima 100 and 40 give the merged minimum 1 and the merged
maximum 100. -/
theorem merged_minimum_and_maximum_witness :
    (reduce_rows "APEX MAIN".toList ["work".toList]
      [[("work".toList, some (sample_timer 10 100))],
       [("work".toList, some (sample_timer 5 40))]]).bind
      (fun m => (std_map.find m "work".toList).map fun p => (p.minimum, p.maximum))
      = some (1, 100) := by
  obtain ⟨m, p, h1, h2, h3, h4⟩ := merged_minimum_and_maximum "APEX MAIN".toList
    ["work".toList]
    [[("work".toList, some (sample_timer 10 100))],
     [("work".toList, some (sample_timer 5 40))]]
    "work".toList (by decide) (by decide) (by simp)
    (ranks_representable_of_in_range _ (by decide))
  rw [h1]
  simp only [Option.some_bind, h2, Option.map_some', h3, h4, List.map_cons, List.map_nil,
    List.foldl_cons, List.foldl_nil]
  have hl0 : local_profile "APEX MAIN".toList [("work".toList, some (sample_timer 10 100))]
      "work".toList = some (sample_timer 10 100) := rfl
  have hl1 : local_profile "APEX MAIN".toList [("work".toList, some (sample_timer 5 40))]
      "work".toList = some (sample_timer 5 40) := rfl
  rw [hl0, hl1]
  have s4 : ∀ c a, (build_row (some (sample_timer c a))).getD 4 0 = 1 := fun _ _ => rfl
  have s5 : ∀ c a, (build_row (some (sample_timer c a))).getD 5 0 = a := fun _ _ => rfl
  rw [s4, s4, s5, s5]
  have hD : (1 : ℚ) ≤ DBL_MAX := by norm_num [DBL_MAX]
  rw [min_eq_right hD]
  norm_num

/-- Claim C24: for a name of the unified name set, the merged calls,
accumulated value, sum of squares, minimum and maximum are the same for every
permutation of the participants. -/
theorem merged_fields_order_independent (main_str : List Char)
    (all_names : List (List Char)) (ranks ranks' : List registry) (name : List Char)
    (hperm : ranks.Perm ranks') (hnd : all_names.Nodup) (hmem : name ∈ all_names)
    (hne : ranks ≠ []) (hrep : ∀ tids ∈ ranks, registry_representable tids) :
    ∃ m m' p p',
      reduce_rows main_str all_names ranks = some m ∧
      reduce_rows main_str all_names ranks' = some m' ∧
      std_map.find m name = some p ∧ std_map.find m' name = some p' ∧
      p.calls = p'.calls ∧ p.accumulated = p'.accumulated ∧
      p.sum_squares = p'.sum_squares ∧ p.minimum = p'.minimum ∧ p.maximum = p'.maximum := by
  have hne' : ranks' ≠ [] := fun h => hne (List.Perm.eq_nil (h ▸ hperm))
  have hrep' : ∀ tids ∈ ranks', registry_representable tids :=
    fun tids ht => hrep tids (hperm.mem_iff.mpr ht)
  obtain ⟨m, p, h1, h2, hc, -, ha, hs, -, -⟩ := reduce_rows_fields main_str all_names ranks
    name hnd hmem hne (local_profile_representable main_str ranks hrep)
  obtain ⟨m', p', h1', h2', hc', -, ha', hs', -, -⟩ := reduce_rows_fields main_str all_names
    ranks' name hnd hmem hne' (local_profile_representable main_str ranks' hrep')
  obtain ⟨m0, p0, g1, g2, hmin, hmax⟩ := reduce_rows_min_max main_str all_names ranks
    name hnd hmem hne (local_profile_representable main_str ranks hrep)
  obtain ⟨m0', p0', g1', g2', hmin', hmax'⟩ := reduce_rows_min_max main_str all_names ranks'
    name hnd hmem hne' (local_profile_representable main_str ranks' hrep')
  rw [h1] at g1
  cases Option.some.inj g1
  rw [h2] at g2
  cases Option.some.inj g2
  rw [h1'] at g1'
  cases Option.some.inj g1'
  rw [h2'] at g2'
  cases Option.some.inj g2'
  refine ⟨m, m', p, p', h1, h1', h2, h2', ?_, ?_, ?_, ?_, ?_⟩
  · rw [hc, hc']; exact (hperm.map _).sum_eq
  · rw [ha, ha']; exact (hperm.map _).sum_eq
  · rw [hs, hs']; exact (hperm.map _).sum_eq
  · rw [hmin, hmin']
    haveI := min_right_commutative
    exact (hperm.map _).foldl_eq DBL_MAX
  · rw [hmax, hmax']
    haveI := max_right_commutative
    exact (hperm.map _).foldl_eq 0

/-- Witness of claim C24: two ranks with records for `work`, in both orders. -/
theorem merged_fields_order_independent_witness :
    ∃ m m' p p',
      reduce_rows "APEX MAIN".toList ["work".toList]
        [[("work".toList, some (sample_timer 10 100))],
         [("work".toList, some (sample_timer 5 40))]] = some m ∧
      reduce_rows "APEX MAIN".toList ["work".toList]
        [[("work".toList, some (sample_timer 5 40))],
         [("work".toList, some (sample_timer 10 100))]] = some m' ∧
      std_map.find m "work".toList = some p ∧ std_map.find m' "work".toList = some p' ∧
      p.calls = p'.calls ∧ p.accumulated = p'.accumulated ∧
      p.sum_squares = p'.sum_squares ∧ p.minimum = p'.minimum ∧ p.maximum = p'.maximum :=
  merged_fields_order_independent "APEX MAIN".toList ["work".toList]
    [[("work".toList, some (sample_timer 10 100))],
     [("work".toList, some (sample_timer 5 40))]]
    [[("work".toList, some (sample_timer 5 40))],
     [("work".toList, some (sample_timer 10 100))]]
    "work".toList (List.Perm.swap _ _ []) (by decide) (by decide) (by simp)
    (ranks_representable_of_in_range _ (by decide))

/-! ## The unified name set -/

theorem mem_std_set_insert (s : std_set) (x y : List Char) :
    y ∈ std_set.insert s x ↔ y = x ∨ y ∈ s := by
  unfold std_set.insert
  split_ifs with h
  · constructor
    · exact Or.inr
    · rintro (rfl | h') <;> assumption
  · exact List.mem_orderedInsert _

theorem std_set_insert_sorted (s : std_set) (x : List Char) (h : s.Sorted (· ≤ ·)) :
    (std_set.insert s x).Sorted (· ≤ ·) := by
  unfold std_set.insert
  split_ifs
  · exact h
  · exact h.orderedInsert x s

theorem std_set_insert_nodup (s : std_set) (x : List Char) (h : s.Nodup) :
    (std_set.insert s x).Nodup := by
  unfold std_set.insert
  split_ifs with hx
  · exact h
  · exact (List.perm_orderedInsert _ x s).nodup_iff.mpr (List.nodup_cons.mpr ⟨hx, h⟩)

theorem std_set_ext (a b : std_set) (ha : a.Sorted (· ≤ ·)) (ha' : a.Nodup)
    (hb : b.Sorted (· ≤ ·)) (hb' : b.Nodup) (h : ∀ x, x ∈ a ↔ x ∈ b) : a = b :=
  List.eq_of_perm_of_sorted ((List.perm_ext_iff_of_nodup ha' hb').mpr h) ha hb

/-- A loop that inserts into a set some of the values `g x`, for `x` in a
list: order, absence of duplicates, and the members of the result. -/
theorem foldl_insert_facts {α : Type} (g : α → List Char) (skip : std_set → α → Prop)
    [∀ s x, Decidable (skip s x)] :
    ∀ (l : List α) (s : std_set),
      (s.Sorted (· ≤ ·) → (l.foldl (fun names x =>
        if skip names x then names else std_set.insert names (g x)) s).Sorted (· ≤ ·)) ∧
      (s.Nodup → (l.foldl (fun names x =>
        if skip names x then names else std_set.insert names (g x)) s).Nodup) ∧
      (∀ y, y ∈ l.foldl (fun names x =>
        if skip names x then names else std_set.insert names (g x)) s →
          y ∈ s ∨ ∃ x ∈ l, g x = y) ∧
      (∀ y, y ∈ s → y ∈ l.foldl (fun names x =>
        if skip names x then names else std_set.insert names (g x)) s) ∧
      ((∀ names x, skip names x → g x ∈ names) → ∀ x ∈ l, g x ∈ l.foldl (fun names x =>
        if skip names x then names else std_set.insert names (g x)) s) := by
  intro l
  induction l with
  | nil =>
    intro s
    exact ⟨id, id, fun y h => Or.inl h, fun y h => h, fun _ x hx => absurd hx (List.not_mem_nil x)⟩
  | cons a l ih =>
    intro s
    simp only [List.foldl_cons]
    obtain ⟨i1, i2, i3, i4, i5⟩ := ih (if skip s a then s else std_set.insert s (g a))
    refine ⟨?_, ?_, ?_, ?_, ?_⟩
    · intro hs
      apply i1
      split_ifs
      · exact hs
      · exact std_set_insert_sorted s _ hs
    · intro hs
      apply i2
      split_ifs
      · exact hs
      · exact std_set_insert_nodup s _ hs
    · intro y hy
      rcases i3 y hy with h | ⟨x, hx, hg⟩
      · split_ifs at h
        · exact Or.inl h
        · rcases (mem_std_set_insert s _ y).mp h with h' | h'
          · exact Or.inr ⟨a, List.mem_cons_self a l, h'.symm⟩
          · exact Or.inl h'
      · exact Or.inr ⟨x, List.mem_cons_of_mem a hx, hg⟩
    · intro y hy
      apply i4
      split_ifs
      · exact hy
      · exact (mem_std_set_insert s _ y).mpr (Or.inr hy)
    · intro hskip x hx
      rcases List.mem_cons.mp hx with hxa | hxl
      · subst hxa
        apply i4
        split_ifs with hs
        · exact hskip s x hs
        · exact (mem_std_set_insert s _ _).mpr (Or.inl rfl)
      · exact i5 hskip x hxl

theorem local_names_sorted (main_str : List Char) (tids : registry) :
    (local_names main_str tids).Sorted (· ≤ ·) :=
  (foldl_insert_facts (fun e : List Char × Option apex_profile => e.1)
    (fun _ e => e.1 = main_str) tids []).1 List.sorted_nil

theorem local_names_nodup (main_str : List Char) (tids : registry) :
    (local_names main_str tids).Nodup :=
  (foldl_insert_facts (fun e : List Char × Option apex_profile => e.1)
    (fun _ e => e.1 = main_str) tids []).2.1 List.nodup_nil

theorem mem_local_names (main_str : List Char) (n : List Char) :
    ∀ (tids : registry) (s : std_set),
      n ∈ tids.foldl (fun all_names e =>
        if e.1 = main_str then all_names else std_set.insert all_names e.1) s ↔
      n ∈ s ∨ (n ≠ main_str ∧ ∃ e ∈ tids, e.1 = n) := by
  intro tids
  induction tids with
  | nil => intro s; simp
  | cons a tids ih =>
    intro s
    simp only [List.foldl_cons]
    rw [ih]
    by_cases ha : a.1 = main_str
    · rw [if_pos ha]
      constructor
      · rintro (h | ⟨h1, e, he, h2⟩)
        · exact Or.inl h
        · exact Or.inr ⟨h1, e, List.mem_cons_of_mem a he, h2⟩
      · rintro (h | ⟨h1, e, he, h2⟩)
        · exact Or.inl h
        · rcases List.mem_cons.mp he with hea | he'
          · subst hea
            exact absurd (h2 ▸ ha) h1
          · exact Or.inr ⟨h1, e, he', h2⟩
    · rw [if_neg ha, mem_std_set_insert]
      constructor
      · rintro ((h | h) | ⟨h1, e, he, h2⟩)
        · exact Or.inr ⟨h ▸ ha, a, List.mem_cons_self a tids, h.symm⟩
        · exact Or.inl h
        · exact Or.inr ⟨h1, e, List.mem_cons_of_mem a he, h2⟩
      · rintro (h | ⟨h1, e, he, h2⟩)
        · exact Or.inl (Or.inr h)
        · rcases List.mem_cons.mp he with hea | he'
          · subst hea
            exact Or.inl (Or.inl h2.symm)
          · exact Or.inr ⟨h1, e, he', h2⟩

/-- The local names of a rank are the names of its registry other than
`main_str`. -/
theorem mem_local_names_iff (main_str : List Char) (tids : registry) (n : List Char) :
    n ∈ local_names main_str tids ↔ n ≠ main_str ∧ ∃ e ∈ tids, e.1 = n := by
  unfold local_names
  rw [mem_local_names]
  simp

theorem foldl_length_ge (l : List (List Char)) :
    ∀ a : Nat,
      a ≤ l.foldl (fun len1 name => if name.length > len1 then name.length else len1) a ∧
      ∀ x ∈ l, x.length
        ≤ l.foldl (fun len1 name => if name.length > len1 then name.length else len1) a := by
  induction l with
  | nil => intro a; exact ⟨le_refl a, fun x hx => absurd hx (List.not_mem_nil x)⟩
  | cons b l ih =>
    intro a
    simp only [List.foldl_cons]
    obtain ⟨h1, h2⟩ := ih (if b.length > a then b.length else a)
    have hstep : a ≤ (if b.length > a then b.length else a) ∧
        b.length ≤ (if b.length > a then b.length else a) := by
      split_ifs with h <;> omega
    refine ⟨le_trans hstep.1 h1, ?_⟩
    intro x hx
    rcases List.mem_cons.mp hx with hxb | hxl
    · subst hxb
      exact le_trans hstep.2 h1
    · exact h2 x hxl

/-- The second length of a rank is above the size of each of its names. -/
theorem name_lengths_gt (names : std_set) (name : List Char) (h : name ∈ names) :
    name.length < (name_lengths names).2 :=
  Nat.lt_succ_of_le ((foldl_length_ge names 0).2 name h)

theorem name_lengths_pos (names : std_set) : 0 < (name_lengths names).2 :=
  Nat.succ_pos _

theorem foldl_max_nat_ge {α : Type} (f : α → Nat) (l : List α) :
    ∀ a : Nat, a ≤ l.foldl (fun m x => max m (f x)) a ∧
      ∀ x ∈ l, f x ≤ l.foldl (fun m x => max m (f x)) a := by
  induction l with
  | nil => intro a; exact ⟨le_refl a, fun x hx => absurd hx (List.not_mem_nil x)⟩
  | cons b l ih =>
    intro a
    simp only [List.foldl_cons]
    obtain ⟨h1, h2⟩ := ih (max a (f b))
    refine ⟨le_trans (le_max_left a (f b)) h1, ?_⟩
    intro x hx
    rcases List.mem_cons.mp hx with hxb | hxl
    · subst hxb
      exact le_trans (le_max_right a (f x)) h1
    · exact h2 x hxl

/-- The all-reduce yields, in each component, a value that is not below the
value of any rank. -/
theorem allreduce_max_ge (lengths : List (Nat × Nat)) (l : Nat × Nat) (h : l ∈ lengths) :
    l.1 ≤ (allreduce_max lengths).1 ∧ l.2 ≤ (allreduce_max lengths).2 :=
  ⟨(foldl_max_nat_ge Prod.fst lengths 0).2 l h, (foldl_max_nat_ge Prod.snd lengths 0).2 l h⟩

theorem max_length_ge (main_str : List Char) (ranks : List registry) (r : registry)
    (hr : r ∈ ranks) :
    (local_names main_str r).length ≤ (max_length main_str ranks).1 ∧
    (∀ name ∈ local_names main_str r, name.length < (max_length main_str ranks).2) ∧
    0 < (max_length main_str ranks).2 := by
  have h := allreduce_max_ge (ranks.map fun r => name_lengths (local_names main_str r))
    (name_lengths (local_names main_str r)) (List.mem_map_of_mem _ hr)
  refine ⟨h.1, ?_, lt_of_lt_of_le (name_lengths_pos _) h.2⟩
  intro name hn
  exact lt_of_lt_of_le (name_lengths_gt _ name hn) h.2

theorem strncpy_length (src : List Char) (n : Nat) : (strncpy src n).length = n := by
  unfold strncpy
  rw [List.length_append, List.length_take, List.length_replicate]
  omega

theorem takeWhile_until_NUL (w t : List Char) (hw : NUL ∉ w) :
    (w ++ NUL :: t).takeWhile (· ≠ NUL) = w := by
  induction w with
  | nil => simp [List.takeWhile]
  | cons c w ih =>
    have hc : c ≠ NUL := fun h => hw (h ▸ List.mem_cons_self c w)
    have hw' : NUL ∉ w := fun h => hw (List.mem_cons_of_mem c h)
    simp only [List.cons_append, List.takeWhile_cons, ne_eq, hc, not_false_eq_true,
      decide_True, if_true]
    rw [ih hw']

theorem c_str_of_no_NUL (s : List Char) (h : NUL ∉ s) : c_str s = s := by
  unfold c_str
  induction s with
  | nil => rfl
  | cons c s ih =>
    have hc : c ≠ NUL := fun h' => h (h' ▸ List.mem_cons_self c s)
    have hs : NUL ∉ s := fun h' => h (List.mem_cons_of_mem c h')
    simp only [List.takeWhile_cons, ne_eq, hc, not_false_eq_true, decide_True, if_true]
    rw [ih hs]

/-- The slot that holds a name without NUL, when the slot is longer than the
name: the name and at least one NUL. -/
theorem strncpy_of_no_NUL (name : List Char) (n : Nat) (h : NUL ∉ name)
    (hlen : name.length < n) :
    strncpy name n = name ++ NUL :: List.replicate (n - name.length - 1) NUL := by
  unfold strncpy
  rw [c_str_of_no_NUL name h, List.take_of_length_le (le_of_lt hlen)]
  have : n - name.length = (n - name.length - 1) + 1 := by omega
  rw [this, List.replicate_succ]
  simp

theorem name_buffer_eq (ml : Nat × Nat) (all_names : std_set) :
    name_buffer ml all_names = (name_slots ml all_names).flatten := by
  unfold name_buffer name_slots
  rw [List.flatten_append]
  congr 1
  generalize ml.1 - all_names.length = k
  induction k with
  | zero => simp
  | succ k ih =>
    rw [List.replicate_succ, List.flatten_cons, ← ih, Nat.succ_mul, Nat.add_comm,
      List.replicate_add]

theorem name_slots_length (ml : Nat × Nat) (all_names : std_set)
    (h : all_names.length ≤ ml.1) : (name_slots ml all_names).length = ml.1 := by
  unfold name_slots
  rw [List.length_append, List.length_map, List.length_replicate]
  omega

theorem name_slots_block_length (ml : Nat × Nat) (all_names : std_set) :
    ∀ b ∈ name_slots ml all_names, b.length = ml.2 := by
  intro b hb
  unfold name_slots at hb
  rcases List.mem_append.mp hb with h | h
  · obtain ⟨name, -, rfl⟩ := List.mem_map.mp h
    exact strncpy_length name ml.2
  · rw [(List.mem_replicate.mp h).2, List.length_replicate]

theorem drop_flatten_blocks (n : Nat) :
    ∀ (bs : List (List Char)), (∀ b ∈ bs, b.length = n) →
      ∀ i, (bs.flatten).drop (i * n) = (bs.drop i).flatten := by
  intro bs
  induction bs with
  | nil => intro _ i; simp
  | cons b bs ih =>
    intro hlen i
    cases i with
    | zero => simp
    | succ i =>
      have hb : b.length = n := hlen b (List.mem_cons_self b bs)
      rw [List.flatten_cons, List.drop_succ_cons, Nat.succ_mul, Nat.add_comm (i * n) n,
        ← List.drop_drop, ← hb, List.drop_left, hb]
      exact ih (fun x hx => hlen x (List.mem_cons_of_mem b hx)) i

/-- The string read at the start of slot `i` of a buffer of slots of `n`
characters, when the slot holds `w`, without NUL, and then a NUL. -/
theorem string_at_slot (n : Nat) (bs : List (List Char)) (hlen : ∀ b ∈ bs, b.length = n)
    (i : Nat) (hi : i < bs.length) (w t : List Char) (hb : bs.get ⟨i, hi⟩ = w ++ NUL :: t)
    (hw : NUL ∉ w) : string_at bs.flatten (i * n) = w := by
  unfold string_at
  rw [drop_flatten_blocks n bs hlen i, List.drop_eq_getElem_cons hi, List.flatten_cons]
  have hb' : bs[i] = w ++ NUL :: t := hb
  rw [hb', List.append_assoc, List.cons_append]
  exact takeWhile_until_NUL w _ hw

theorem rbuf_eq (main_str : List Char) (ranks : List registry) :
    rbuf main_str ranks = (all_slots main_str ranks).flatten := by
  unfold rbuf all_slots
  rw [List.flatten_flatten, List.map_map]
  congr 1
  apply List.map_congr_left
  intro r _
  exact name_buffer_eq _ _

theorem length_flatten_of_const {α : Type} (k : Nat) :
    ∀ (L : List (List α)), (∀ l ∈ L, l.length = k) → L.flatten.length = k * L.length := by
  intro L
  induction L with
  | nil => intro _; simp
  | cons a L ih =>
    intro h
    rw [List.flatten_cons, List.length_append, h a (List.mem_cons_self a L),
      ih (fun l hl => h l (List.mem_cons_of_mem a hl)), List.length_cons, Nat.mul_succ,
      Nat.add_comm]

theorem all_slots_length (main_str : List Char) (ranks : List registry) :
    (all_slots main_str ranks).length = (max_length main_str ranks).1 * ranks.length := by
  unfold all_slots
  rw [length_flatten_of_const (max_length main_str ranks).1, List.length_map]
  intro l hl
  obtain ⟨r, hr, rfl⟩ := List.mem_map.mp hl
  exact name_slots_length _ _ (max_length_ge main_str ranks r hr).1

theorem all_slots_block_length (main_str : List Char) (ranks : List registry) :
    ∀ b ∈ all_slots main_str ranks, b.length = (max_length main_str ranks).2 := by
  intro b hb
  unfold all_slots at hb
  obtain ⟨l, hl, hbl⟩ := List.mem_flatten.mp hb
  obtain ⟨r, -, rfl⟩ := List.mem_map.mp hl
  exact name_slots_block_length _ _ b hbl

theorem local_names_no_NUL (main_str : List Char) (tids : registry)
    (hnul : ∀ e ∈ tids, NUL ∉ e.1) : ∀ name ∈ local_names main_str tids, NUL ∉ name := by
  intro name hn
  obtain ⟨-, e, he, rfl⟩ := (mem_local_names_iff main_str tids name).mp hn
  exact hnul e he

/-- What a slot of the gathered buffer holds: a local name of a rank and then
a NUL, or nothing but NUL when the rank has fewer names than slots. -/
theorem all_slots_sound (main_str : List Char) (ranks : List registry)
    (hnul : ∀ r ∈ ranks, ∀ e ∈ r, NUL ∉ e.1) :
    ∀ b ∈ all_slots main_str ranks, ∃ w t, b = w ++ NUL :: t ∧ NUL ∉ w ∧
      ((∃ r ∈ ranks, w ∈ local_names main_str r) ∨
        (w = [] ∧ ∃ r ∈ ranks, (local_names main_str r).length
          < (max_length main_str ranks).1)) := by
  intro b hb
  unfold all_slots at hb
  obtain ⟨l, hl, hbl⟩ := List.mem_flatten.mp hb
  obtain ⟨r, hr, rfl⟩ := List.mem_map.mp hl
  obtain ⟨hcount, hlen, hpos⟩ := max_length_ge main_str ranks r hr
  unfold name_slots at hbl
  rcases List.mem_append.mp hbl with h | h
  · obtain ⟨name, hname, rfl⟩ := List.mem_map.mp h
    have hn := local_names_no_NUL main_str r (hnul r hr) name hname
    exact ⟨name, _, strncpy_of_no_NUL name _ hn (hlen name hname), hn,
      Or.inl ⟨r, hr, hname⟩⟩
  · obtain ⟨hk, rfl⟩ := List.mem_replicate.mp h
    refine ⟨[], List.replicate ((max_length main_str ranks).2 - 1) NUL, ?_,
      List.not_mem_nil _, Or.inr ⟨rfl, r, hr, by omega⟩⟩
    have : (max_length main_str ranks).2 = ((max_length main_str ranks).2 - 1) + 1 := by omega
    rw [List.nil_append, ← List.replicate_succ, ← this]

theorem all_slots_complete (main_str : List Char) (ranks : List registry)
    (hnul : ∀ r ∈ ranks, ∀ e ∈ r, NUL ∉ e.1) (r : registry) (hr : r ∈ ranks) :
    (∀ w ∈ local_names main_str r, ∃ t, w ++ NUL :: t ∈ all_slots main_str ranks) ∧
    ((local_names main_str r).length < (max_length main_str ranks).1 →
      ∃ t, NUL :: t ∈ all_slots main_str ranks) := by
  obtain ⟨hcount, hlen, hpos⟩ := max_length_ge main_str ranks r hr
  have hsub : ∀ b ∈ name_slots (max_length main_str ranks) (local_names main_str r),
      b ∈ all_slots main_str ranks := by
    intro b hb
    unfold all_slots
    exact List.mem_flatten.mpr ⟨_, List.mem_map_of_mem _ hr, hb⟩
  constructor
  · intro w hw
    have hn := local_names_no_NUL main_str r (hnul r hr) w hw
    refine ⟨List.replicate ((max_length main_str ranks).2 - w.length - 1) NUL, ?_⟩
    rw [← strncpy_of_no_NUL w _ hn (hlen w hw)]
    apply hsub
    unfold name_slots
    exact List.mem_append_left _ (List.mem_map_of_mem _ hw)
  · intro hlt
    refine ⟨List.replicate ((max_length main_str ranks).2 - 1) NUL, ?_⟩
    have : (max_length main_str ranks).2 = ((max_length main_str ranks).2 - 1) + 1 := by omega
    rw [← List.replicate_succ, ← this]
    apply hsub
    unfold name_slots
    apply List.mem_append_right
    exact List.mem_replicate.mpr ⟨by omega, rfl⟩

/-- The strings that the loop over the gathered names reads (when no name has
a NUL): the local names of the ranks, and the empty string when a rank has
fewer names than there are slots for a rank. -/
theorem gathered_string_iff (main_str : List Char) (ranks : List registry)
    (hnul : ∀ r ∈ ranks, ∀ e ∈ r, NUL ∉ e.1) (y : List Char) :
    (∃ i, i < (max_length main_str ranks).1 * ranks.length ∧
      string_at (rbuf main_str ranks) (i * (max_length main_str ranks).2) = y) ↔
    ((∃ r ∈ ranks, y ∈ local_names main_str r) ∨
      (y = [] ∧ ∃ r ∈ ranks, (local_names main_str r).length
        < (max_length main_str ranks).1)) := by
  have hread : ∀ (i : Nat) (hi : i < (all_slots main_str ranks).length) (w t : List Char),
      (all_slots main_str ranks).get ⟨i, hi⟩ = w ++ NUL :: t → NUL ∉ w →
      string_at (rbuf main_str ranks) (i * (max_length main_str ranks).2) = w := by
    intro i hi w t hb hw
    rw [rbuf_eq]
    exact string_at_slot _ _ (all_slots_block_length main_str ranks) i hi w t hb hw
  constructor
  · rintro ⟨i, hi, hy⟩
    rw [← all_slots_length] at hi
    obtain ⟨w, t, hb, hw, hcase⟩ := all_slots_sound main_str ranks hnul _
      (List.get_mem (all_slots main_str ranks) i hi)
    rw [hread i hi w t hb hw] at hy
    subst hy
    exact hcase
  · have hfind : ∀ (w t : List Char), NUL ∉ w → w ++ NUL :: t ∈ all_slots main_str ranks →
        ∃ i, i < (max_length main_str ranks).1 * ranks.length ∧
          string_at (rbuf main_str ranks) (i * (max_length main_str ranks).2) = w := by
      intro w t hw hmem
      obtain ⟨⟨i, hi⟩, hget⟩ := List.get_of_mem hmem
      exact ⟨i, by rw [← all_slots_length]; exact hi, hread i hi w t hget hw⟩
    rintro (⟨r, hr, hy⟩ | ⟨rfl, r, hr, hlt⟩)
    · obtain ⟨t, ht⟩ := (all_slots_complete main_str ranks hnul r hr).1 y hy
      exact hfind y t (local_names_no_NUL main_str r (hnul r hr) y hy) ht
    · obtain ⟨t, ht⟩ := (all_slots_complete main_str ranks hnul r hr).2 hlt
      exact hfind [] t (List.not_mem_nil _) ht

/-- The members of the unified name set of a rank: its local names and the
strings read from the gathered buffer. -/
theorem mem_unified_names (main_str : List Char) (ranks : List registry) (tids : registry)
    (y : List Char) :
    y ∈ unified_names main_str ranks tids ↔
      y ∈ local_names main_str tids ∨
      ∃ i, i < (max_length main_str ranks).1 * ranks.length ∧
        string_at (rbuf main_str ranks) (i * (max_length main_str ranks).2) = y := by
  obtain ⟨-, -, h3, h4, h5⟩ := foldl_insert_facts
    (fun i => string_at (rbuf main_str ranks) (i * (max_length main_str ranks).2))
    (fun names i =>
      string_at (rbuf main_str ranks) (i * (max_length main_str ranks).2) ∈ names)
    (List.range ((max_length main_str ranks).1 * ranks.length)) (local_names main_str tids)
  constructor
  · intro hy
    rcases h3 y hy with h | ⟨i, hi, hg⟩
    · exact Or.inl h
    · exact Or.inr ⟨i, List.mem_range.mp hi, hg⟩
  · rintro (h | ⟨i, hi, hg⟩)
    · exact h4 y h
    · rw [← hg]
      exact h5 (fun _ _ h => h) i (List.mem_range.mpr hi)

theorem unified_names_sorted (main_str : List Char) (ranks : List registry) (tids : registry) :
    (unified_names main_str ranks tids).Sorted (· ≤ ·) :=
  (foldl_insert_facts
    (fun i => string_at (rbuf main_str ranks) (i * (max_length main_str ranks).2))
    (fun names i =>
      string_at (rbuf main_str ranks) (i * (max_length main_str ranks).2) ∈ names)
    (List.range ((max_length main_str ranks).1 * ranks.length))
    (local_names main_str tids)).1 (local_names_sorted main_str tids)

theorem unified_names_nodup (main_str : List Char) (ranks : List registry) (tids : registry) :
    (unified_names main_str ranks tids).Nodup :=
  (foldl_insert_facts
    (fun i => string_at (rbuf main_str ranks) (i * (max_length main_str ranks).2))
    (fun names i =>
      string_at (rbuf main_str ranks) (i * (max_length main_str ranks).2) ∈ names)
    (List.range ((max_length main_str ranks).1 * ranks.length))
    (local_names main_str tids)).2.1 (local_names_nodup main_str tids)

/-- The members of the unified name set of a rank of the run, when no name has
a NUL. -/
theorem mem_unified_names_iff (main_str : List Char) (ranks : List registry)
    (hnul : ∀ r ∈ ranks, ∀ e ∈ r, NUL ∉ e.1) (tids : registry) (ht : tids ∈ ranks)
    (y : List Char) :
    y ∈ unified_names main_str ranks tids ↔
      ((∃ r ∈ ranks, y ∈ local_names main_str r) ∨
        (y = [] ∧ ∃ r ∈ ranks, (local_names main_str r).length
          < (max_length main_str ranks).1)) := by
  rw [mem_unified_names, gathered_string_iff main_str ranks hnul]
  constructor
  · rintro (h | h)
    · exact Or.inl ⟨tids, ht, h⟩
    · exact h
  · exact Or.inr

/-- Every rank of the run ends the first phase with the same name set, when no
name has a NUL. -/
theorem unified_names_eq (main_str : List Char) (ranks : List registry)
    (hnul : ∀ r ∈ ranks, ∀ e ∈ r, NUL ∉ e.1) (tids tids' : registry) (ht : tids ∈ ranks)
    (ht' : tids' ∈ ranks) :
    unified_names main_str ranks tids = unified_names main_str ranks tids' :=
  std_set_ext _ _ (unified_names_sorted _ _ _) (unified_names_nodup _ _ _)
    (unified_names_sorted _ _ _) (unified_names_nodup _ _ _)
    (fun y => by
      rw [mem_unified_names_iff main_str ranks hnul tids ht,
        mem_unified_names_iff main_str ranks hnul tids' ht'])

theorem max_length_single (main_str : List Char) (tids : registry) :
    (max_length main_str [tids]).1 = (local_names main_str tids).length := by
  simp [max_length, allreduce_max, name_lengths]

/-- With a single rank the unified name set is the local one, when no name
has a NUL. -/
theorem unified_names_single (main_str : List Char) (tids : registry)
    (hnul : ∀ e ∈ tids, NUL ∉ e.1) :
    unified_names main_str [tids] tids = local_names main_str tids := by
  have hnul' : ∀ r ∈ [tids], ∀ e ∈ r, NUL ∉ e.1 := by
    intro r hr
    rw [List.mem_singleton.mp hr]
    exact hnul
  apply std_set_ext _ _ (unified_names_sorted _ _ _) (unified_names_nodup _ _ _)
    (local_names_sorted _ _) (local_names_nodup _ _)
  intro y
  rw [mem_unified_names_iff main_str [tids] hnul' tids (List.mem_singleton.mpr rfl)]
  constructor
  · rintro (⟨r, hr, hy⟩ | ⟨-, r, hr, hlt⟩)
    · rw [List.mem_singleton.mp hr] at hy
      exact hy
    · rw [List.mem_singleton.mp hr, max_length_single] at hlt
      exact absurd hlt (lt_irrefl _)
  · intro hy
    exact Or.inl ⟨tids, List.mem_singleton.mpr rfl, hy⟩

/-! ## The whole call of `reduce_profiles` -/

theorem gather_rows_eq_flatten (main_str : List Char) (all_names : List (List Char)) :
    ∀ ranks : List registry,
      gather_rows main_str all_names ranks
        = (ranks.map fun r => build_rows main_str r all_names).flatten := by
  intro ranks
  induction ranks with
  | nil => rfl
  | cons r ranks ih => simp only [gather_rows, List.map_cons, List.flatten_cons, ih]

/-- A rank with an empty registry returns an empty table and has called no
collective. -/
theorem reduce_profiles_of_empty (main_str : List Char) (ranks : List registry)
    (commrank : Nat) (h : ranks.getD commrank [] = []) :
    reduce_profiles main_str ranks commrank = some { all_profiles := [], collectives := [] } := by
  unfold reduce_profiles
  simp only [h, List.length_nil, Nat.lt_one_iff, if_true]

theorem any_empty_eq_false (ranks : List registry) (hne : ∀ r ∈ ranks, r ≠ []) :
    ranks.any (fun r => decide (r.length < 1)) = false := by
  rw [List.any_eq_false]
  intro r hr
  have := List.length_pos.mpr (hne r hr)
  simp only [decide_eq_true_eq]
  omega

/-- Rank 0 of a run in which no rank has an empty registry, and every rank has
the name set `all_names` after the first phase: the table is the one of the
second phase. -/
theorem reduce_profiles_rank_zero (main_str : List Char) (ranks : List registry)
    (all_names : List (List Char)) (h0 : ranks ≠ []) (hne : ∀ r ∈ ranks, r ≠ [])
    (hsame : ∀ r ∈ ranks, unified_names main_str ranks r = all_names) :
    reduce_profiles main_str ranks 0
      = (reduce_rows main_str all_names ranks).map fun m =>
          { all_profiles := m, collectives := collective_calls ranks.length } := by
  cases ranks with
  | nil => exact absurd rfl h0
  | cons t0 rest =>
    have hlen : ¬ (t0.length < 1) := by
      have := List.length_pos.mpr (hne t0 (List.mem_cons_self t0 rest))
      omega
    have hdata : (List.map (fun r => build_rows main_str r
        (unified_names main_str (t0 :: rest) r)) (t0 :: rest)).flatten
        = gather_rows main_str all_names (t0 :: rest) := by
      rw [gather_rows_eq_flatten]
      congr 1
      apply List.map_congr_left
      intro r hr
      rw [hsame r hr]
    unfold reduce_profiles
    simp only [List.getD_cons_zero, hlen, if_false, any_empty_eq_false (t0 :: rest) hne,
      Bool.false_eq_true, if_true, hdata, hsame t0 (List.mem_cons_self t0 rest)]
    unfold reduce_rows
    rw [Option.map_map]
    rfl

/-- A rank other than 0 of a run in which no rank has an empty registry
returns an empty table. -/
theorem reduce_profiles_rank_other (main_str : List Char) (ranks : List registry)
    (commrank : Nat) (hc : commrank ≠ 0) (hne : ∀ r ∈ ranks, r ≠ []) :
    reduce_profiles main_str ranks commrank
      = some { all_profiles := [],
               collectives :=
                if (ranks.getD commrank []).length < 1 then []
                else collective_calls ranks.length } := by
  unfold reduce_profiles
  by_cases hlen : (ranks.getD commrank []).length < 1
  · simp only [hlen, if_true]
  · simp only [hlen, if_false, any_empty_eq_false ranks hne, Bool.false_eq_true, hc]

theorem merge_ranks_find_not_mem (main_str : List Char) (all_names : List (List Char))
    (hnd : all_names.Nodup) (name : List Char) (hn : name ∉ all_names) :
    ∀ (ranks : List registry) (m m' : std_map (List Char) apex_profile),
      merge_ranks main_str all_names ranks m = some m' →
      std_map.find m' name = std_map.find m name := by
  intro ranks
  induction ranks with
  | nil =>
    intro m m' h
    simp only [merge_ranks] at h
    cases Option.some.inj h
    rfl
  | cons tids ranks ih =>
    intro m m' h
    simp only [merge_ranks] at h
    cases hm1 : merge_names (fun name => build_row (local_profile main_str tids name))
        all_names m with
    | none => rw [hm1] at h; cases h
    | some m1 =>
      rw [hm1] at h
      simp only [Option.some_bind] at h
      rw [ih m1 m' h]
      exact (merge_names_find _ all_names m m1 hnd hm1 name).2 hn

/-- The keys of the table that rank 0 builds are the names of `all_names`. -/
theorem reduce_rows_keys (main_str : List Char) (all_names : List (List Char))
    (ranks : List registry) (hnd : all_names.Nodup) (hne : ranks ≠ [])
    (hrep : ∀ tids ∈ ranks, ∀ n q, local_profile main_str tids n = some q → q.representable) :
    ∃ m, reduce_rows main_str all_names ranks = some m ∧
      ∀ n, (std_map.find m n).isSome ↔ n ∈ all_names := by
  obtain ⟨m, hm⟩ := merge_ranks_isSome main_str all_names ranks []
    (fun tids ht n _ found => by
      obtain ⟨ty, a, f, ba, bf, h, -⟩ := merge_entry_build_row found
        (local_profile main_str tids n) (fun q hq => hrep tids ht n q hq)
      exact ⟨_, h⟩)
  have hred : reduce_rows main_str all_names ranks = some m := by
    rw [reduce_rows_eq]; exact hm
  refine ⟨m, hred, ?_⟩
  intro n
  constructor
  · intro hs
    by_contra hn
    rw [merge_ranks_find_not_mem main_str all_names hnd n hn ranks [] m hm] at hs
    cases hs
  · intro hn
    obtain ⟨m2, p, h1, h2, -⟩ := reduce_rows_find main_str all_names ranks n hnd hn hne hrep
    rw [hred] at h1
    cases Option.some.inj h1
    rw [h2]
    rfl

theorem build_tid_map_find_main (main_str : List Char) :
    ∀ (tids : registry) (m : std_map (List Char) (Option apex_profile)),
      std_map.find m main_str = none →
      std_map.find (tids.foldl (fun tid_map e =>
        if e.1 = main_str then tid_map else std_map.insert_new tid_map e.1 e.2) m) main_str
        = none := by
  intro tids
  induction tids with
  | nil => intro m h; exact h
  | cons e tids ih =>
    intro m h
    simp only [List.foldl_cons]
    apply ih
    split_ifs with he
    · exact h
    · unfold std_map.insert_new
      split_ifs
      · exact h
      · rw [find_assign_ne e.1 main_str e.2 (fun hc => he hc.symm) m]
        exact h

/-- A name for which the row building finds a profile is a local name. -/
theorem local_profile_local_name (main_str : List Char) (tids : registry) (n : List Char)
    (q : apex_profile) (h : local_profile main_str tids n = some q) :
    n ∈ local_names main_str tids := by
  rw [mem_local_names_iff]
  refine ⟨?_, (n, some q), local_profile_mem main_str tids n q h, rfl⟩
  intro hn
  rw [hn] at h
  have hm : std_map.find (build_tid_map main_str tids) main_str = none :=
    build_tid_map_find_main main_str tids [] rfl
  unfold local_profile at h
  rw [hm] at h
  cases h

/-- The call of `reduce_profiles` in a run of a single rank, when no name has
a NUL: the keys of the table are the local names, and the record of a name
with a local record `q` holds the fields of `q`, with 1 in place of a count of
0, the minimum capped at `DBL_MAX`, the maximum raised to 0 and the hardware
counters of a timer only. -/
theorem reduce_profiles_single (main_str : List Char) (tids : registry)
    (hnul : ∀ e ∈ tids, NUL ∉ e.1) (hrep : registry_representable tids) :
    ∃ o, reduce_profiles main_str [tids] 0 = some o ∧
      (∀ n, (std_map.find o.all_profiles n).isSome ↔
        (n ≠ main_str ∧ ∃ e ∈ tids, e.1 = n)) ∧
      ∀ n q, local_profile main_str tids n = some q →
        ∃ p, std_map.find o.all_profiles n = some p ∧
          p.calls = (if q.calls = 0 then 1 else q.calls) ∧
          p.stops = (if q.stops = 0 then 1 else q.stops) ∧
          p.accumulated = q.accumulated ∧ p.sum_squares = q.sum_squares ∧
          p.minimum = min DBL_MAX q.minimum ∧ p.maximum = max 0 q.maximum ∧
          p.times_reset = q.times_reset ∧ p.type = q.type ∧
          p.allocations = q.allocations ∧ p.frees = q.frees ∧
          p.bytes_allocated = q.bytes_allocated ∧ p.bytes_freed = q.bytes_freed ∧
          ∀ j, j < 8 → p.papi_metrics.getD j 0
            = (if q.type = apex_profile_type.APEX_TIMER then q.papi_metrics.getD j 0
               else 0) := by
  by_cases ht : tids = []
  · subst ht
    refine ⟨_, reduce_profiles_of_empty main_str [[]] 0 rfl, ?_, ?_⟩
    · intro n
      constructor
      · intro h; cases h
      · rintro ⟨-, e, he, -⟩; cases he
    · intro n q h
      cases h
  · have hne : ∀ r ∈ [tids], r ≠ [] := by
      intro r hr
      rw [List.mem_singleton.mp hr]
      exact ht
    have hsame : ∀ r ∈ [tids], unified_names main_str [tids] r = local_names main_str tids := by
      intro r hr
      rw [List.mem_singleton.mp hr]
      exact unified_names_single main_str tids hnul
    have hrep' : ∀ r ∈ [tids], ∀ n q, local_profile main_str r n = some q → q.representable :=
      local_profile_representable main_str [tids] (by
        intro r hr
        rw [List.mem_singleton.mp hr]
        exact hrep)
    have hrun := reduce_profiles_rank_zero main_str [tids] (local_names main_str tids)
      (by simp) hne hsame
    obtain ⟨m, hm, hkeys⟩ := reduce_rows_keys main_str (local_names main_str tids) [tids]
      (local_names_nodup main_str tids) (by simp) hrep'
    rw [hm] at hrun
    refine ⟨_, hrun, ?_, ?_⟩
    · intro n
      rw [← mem_local_names_iff]
      exact hkeys n
    · intro n q hq
      obtain ⟨m2, p, h1, h2, hrows⟩ := reduce_rows_find main_str (local_names main_str tids)
        [tids] n (local_names_nodup main_str tids)
        (local_profile_local_name main_str tids n q hq) (by simp) hrep'
      rw [hm] at h1
      cases Option.some.inj h1
      simp only [List.map_cons, List.map_nil, merge_rows, hq] at hrows
      cases hp : merge_entry none (build_row (some q)) with
      | none => rw [hp] at hrows; cases hrows
      | some p1 =>
        rw [hp] at hrows
        simp only [Option.some_bind] at hrows
        cases Option.some.inj (Option.some.inj hrows)
        have hq' : ∀ x, some q = some x → x.representable := by
          intro x hx
          cases Option.some.inj hx
          exact hrep' tids (List.mem_singleton.mpr rfl) n q hq
        obtain ⟨f1, f2, f3, f4, f5, f6⟩ :=
          merge_entry_build_row_fields none (some q) hq' p hp
        obtain ⟨g1, g2, g3, g4, g5, g6, g7⟩ :=
          merge_entry_build_row_assigned none (some q) hq' p hp
        obtain ⟨-, -, -, -, s4, s5, -⟩ := build_row_some_slots q
        refine ⟨p, h2, ?_, ?_, ?_, ?_, ?_, ?_, ?_, g3, g4, g5, g6, g7, ?_⟩
        · rw [f1]; simp [sent_calls]
        · rw [f2]; simp [sent_stops]
        · rw [f3]; simp
        · rw [f4]; simp
        · rw [g1, s4]; rfl
        · rw [g2, s5]; rfl
        · have : ((p.times_reset : Int) : ℚ) = ((q.times_reset : Int) : ℚ) := by
            rw [f5]; simp
          exact_mod_cast this
        · intro j hj
          rw [f6 j hj]
          simp [sent_papi]

theorem reduce_profiles_blocked (main_str : List Char) (ranks : List registry)
    (commrank : Nat) (hown : ranks.getD commrank [] ≠ []) (r : registry) (hr : r ∈ ranks)
    (hempty : r = []) : reduce_profiles main_str ranks commrank = none := by
  have hlen : ¬ ((ranks.getD commrank []).length < 1) := by
    have := List.length_pos.mpr hown
    omega
  have hany : ranks.any (fun r => decide (r.length < 1)) = true := by
    rw [List.any_eq_true]
    exact ⟨r, hr, by rw [hempty]; rfl⟩
  unfold reduce_profiles
  simp only [hlen, if_false, hany, if_true]

/-- The name `main_str` is not in the unified name set of a rank, when it is
not empty and no name has a NUL. -/
theorem main_str_not_unified (main_str : List Char) (ranks : List registry)
    (hmain : main_str ≠ []) (hnul : ∀ r ∈ ranks, ∀ e ∈ r, NUL ∉ e.1) (tids : registry)
    (ht : tids ∈ ranks) : main_str ∉ unified_names main_str ranks tids := by
  rw [mem_unified_names_iff main_str ranks hnul tids ht]
  rintro (⟨r, -, hr⟩ | ⟨h, -⟩)
  · exact ((mem_local_names_iff main_str r main_str).mp hr).1 rfl
  · exact hmain h

/-- Claim C22, evaluated at a failing input: rank 0 has observed `a` and `b`,
rank 1 has observed `c`.  The buffer of rank 1 has two slots, the second one
unused, and the loop over the gathered names reads the empty string from it:
the unified name set of both ranks is the empty string, `a`, `b`, `c`, and the
table of rank 0 has a record under the empty string, which no rank has
observed. -/
theorem unified_names_gain_empty_string :
    local_names "APEX MAIN".toList
      [("b".toList, some (sample_timer 1 1)), ("a".toList, some (sample_timer 1 1))]
      = ["a".toList, "b".toList] ∧
    local_names "APEX MAIN".toList [("c".toList, some (sample_timer 1 1))] = ["c".toList] ∧
    (∀ r ∈ [[("b".toList, some (sample_timer 1 1)), ("a".toList, some (sample_timer 1 1))],
        [("c".toList, some (sample_timer 1 1))]],
      unified_names "APEX MAIN".toList
        [[("b".toList, some (sample_timer 1 1)), ("a".toList, some (sample_timer 1 1))],
         [("c".toList, some (sample_timer 1 1))]] r
        = ["".toList, "a".toList, "b".toList, "c".toList]) ∧
    ∃ o, reduce_profiles "APEX MAIN".toList
        [[("b".toList, some (sample_timer 1 1)), ("a".toList, some (sample_timer 1 1))],
         [("c".toList, some (sample_timer 1 1))]] 0 = some o ∧
      (std_map.find o.all_profiles "".toList).isSome := by
  have hsame : ∀ r ∈ [[("b".toList, some (sample_timer 1 1)),
        ("a".toList, some (sample_timer 1 1))], [("c".toList, some (sample_timer 1 1))]],
      unified_names "APEX MAIN".toList
        [[("b".toList, some (sample_timer 1 1)), ("a".toList, some (sample_timer 1 1))],
         [("c".toList, some (sample_timer 1 1))]] r
        = ["".toList, "a".toList, "b".toList, "c".toList] := by
    intro r hr
    simp only [List.mem_cons, List.mem_singleton, List.not_mem_nil, or_false] at hr
    rcases hr with hr | hr <;> subst hr <;> decide
  refine ⟨by decide, by decide, hsame, ?_⟩
  have hrun := reduce_profiles_rank_zero "APEX MAIN".toList
    [[("b".toList, some (sample_timer 1 1)), ("a".toList, some (sample_timer 1 1))],
     [("c".toList, some (sample_timer 1 1))]]
    ["".toList, "a".toList, "b".toList, "c".toList] (by simp) (by simp) hsame
  obtain ⟨m, hm, hkeys⟩ := reduce_rows_keys "APEX MAIN".toList
    ["".toList, "a".toList, "b".toList, "c".toList]
    [[("b".toList, some (sample_timer 1 1)), ("a".toList, some (sample_timer 1 1))],
     [("c".toList, some (sample_timer 1 1))]] (by decide) (by simp)
    (local_profile_representable _ _ (ranks_representable_of_in_range _ (by decide)))
  rw [hm] at hrun
  exact ⟨_, hrun, (hkeys "".toList).mpr (by decide)⟩

theorem registry_representable_of_exactly_convertible (tids : registry)
    (h : registry_exactly_convertible tids) : registry_representable tids := by
  intro e he q hq
  obtain ⟨h1, h2, h3, h4⟩ := h e he q hq
  have hb : (2 : Nat) ^ 53 < 2 ^ 64 := by norm_num
  exact ⟨lt_of_le_of_lt h1 hb, lt_of_le_of_lt h2 hb, lt_of_le_of_lt h3 hb,
    lt_of_le_of_lt h4 hb⟩

theorem registry_exactly_convertible_of_check (tids : registry)
    (h : registry_exactly_convertible_check tids = true) :
    registry_exactly_convertible tids := by
  intro e he q hq
  have h1 := List.all_eq_true.mp h e he
  rw [hq] at h1
  simp only [Bool.and_eq_true, decide_eq_true_eq] at h1
  exact ⟨h1.1.1.1, h1.1.1.2, h1.1.2, h1.2⟩

/-- Claim C23, refuted as stated: in a run of a single rank the record of a
timer that has been reset has 0 calls and 0 stops, and the merged record has 1
call and 1 stop; the record of a counter built from the sample -1 and one
hardware counter 5 has the maximum -1 and the first hardware counter 5, and
the merged record has the maximum 0 and the first hardware counter 0.  In a
run of a single rank whose only name is `a`, a NUL and `b`, the table has a
record under `a`, which is no name of the registry. -/
theorem single_rank_table_differs :
    ((profile.construct false 7 7 0 [] false
      apex_profile_type.APEX_TIMER).reset._profile.calls = 0 ∧
     (profile.construct false 7 7 0 [] false
      apex_profile_type.APEX_TIMER).reset._profile.stops = 0 ∧
     (profile.construct true (-1) 0 1 [5] false
      apex_profile_type.APEX_COUNTER)._profile.maximum = -1 ∧
     (profile.construct true (-1) 0 1 [5] false
      apex_profile_type.APEX_COUNTER)._profile.papi_metrics.getD 0 0 = 5) ∧
    (∃ o, reduce_profiles "APEX MAIN".toList
        [[("work".toList, some (profile.construct false 7 7 0 [] false
            apex_profile_type.APEX_TIMER).reset._profile),
          ("level".toList, some (profile.construct true (-1) 0 1 [5] false
            apex_profile_type.APEX_COUNTER)._profile)]] 0 = some o ∧
      (std_map.find o.all_profiles "work".toList).map apex_profile.calls = some 1 ∧
      (std_map.find o.all_profiles "work".toList).map apex_profile.stops = some 1 ∧
      (std_map.find o.all_profiles "level".toList).map apex_profile.maximum = some 0 ∧
      (std_map.find o.all_profiles "level".toList).map
        (fun p => p.papi_metrics.getD 0 0) = some 0) ∧
    ∃ o, reduce_profiles "APEX MAIN".toList
        [[("a".toList ++ NUL :: "b".toList, some (sample_timer 1 1))]] 0 = some o ∧
      (std_map.find o.all_profiles "a".toList).isSome := by
  refine ⟨⟨rfl, rfl, rfl, rfl⟩, ?_, ?_⟩
  · obtain ⟨o, ho, -, hf⟩ := reduce_profiles_single "APEX MAIN".toList
      [("work".toList, some (profile.construct false 7 7 0 [] false
          apex_profile_type.APEX_TIMER).reset._profile),
        ("level".toList, some (profile.construct true (-1) 0 1 [5] false
          apex_profile_type.APEX_COUNTER)._profile)]
      (by decide) (registry_representable_of_in_range _ (by decide))
    obtain ⟨p, hp, hc, hs, -⟩ := hf "work".toList _ rfl
    obtain ⟨p', hp', -, -, -, -, -, hmax, -, -, -, -, -, -, hpapi⟩ := hf "level".toList _ rfl
    refine ⟨o, ho, ?_, ?_, ?_, ?_⟩
    · rw [hp, Option.map_some', hc]
      simp [profile.reset]
    · rw [hp, Option.map_some', hs]
      simp [profile.reset]
    · rw [hp', Option.map_some', hmax]
      simp [profile.construct]
    · rw [hp', Option.map_some', hpapi 0 (by decide)]
      simp [profile.construct]
  · have hu : unified_names "APEX MAIN".toList
        [[("a".toList ++ NUL :: "b".toList, some (sample_timer 1 1))]]
        [("a".toList ++ NUL :: "b".toList, some (sample_timer 1 1))]
        = ["a".toList, "a".toList ++ NUL :: "b".toList] := by decide
    have hrun := reduce_profiles_rank_zero "APEX MAIN".toList
      [[("a".toList ++ NUL :: "b".toList, some (sample_timer 1 1))]]
      ["a".toList, "a".toList ++ NUL :: "b".toList] (by simp) (by simp)
      (by
        intro r hr
        rw [List.mem_singleton.mp hr]
        exact hu)
    obtain ⟨m, hm, hkeys⟩ := reduce_rows_keys "APEX MAIN".toList
      ["a".toList, "a".toList ++ NUL :: "b".toList]
      [[("a".toList ++ NUL :: "b".toList, some (sample_timer 1 1))]]
      (by decide) (by simp)
      (local_profile_representable _ _ (ranks_representable_of_in_range _ (by decide)))
    rw [hm] at hrun
    exact ⟨_, hrun, (hkeys "a".toList).mpr (by decide)⟩

/-- Claim C23, amended: in a run of a single rank whose names have no NUL
character and whose allocation fields are at most 2^53 (they travel as
`double`), `reduce_profiles` returns a table whose keys are exactly the names
of the local registry other than the root name, and for every name with a
local record the merged record has the accumulated value, sum of squares,
reset count, kind and allocation fields of the local record, its calls and
stops with 1 in place of 0, the smaller of its minimum and `DBL_MAX`, the
greater of its maximum and 0, and its hardware counters when it is a timer,
zeros when it is a counter. -/
theorem single_rank_table (main_str : List Char) (tids : registry)
    (hnul : ∀ e ∈ tids, NUL ∉ e.1) (hrep : registry_exactly_convertible tids) :
    ∃ o, reduce_profiles main_str [tids] 0 = some o ∧
      (∀ n, (std_map.find o.all_profiles n).isSome ↔
        (n ≠ main_str ∧ ∃ e ∈ tids, e.1 = n)) ∧
      ∀ n q, local_profile main_str tids n = some q →
        ∃ p, std_map.find o.all_profiles n = some p ∧
          p.calls = (if q.calls = 0 then 1 else q.calls) ∧
          p.stops = (if q.stops = 0 then 1 else q.stops) ∧
          p.accumulated = q.accumulated ∧ p.sum_squares = q.sum_squares ∧
          p.minimum = min DBL_MAX q.minimum ∧ p.maximum = max 0 q.maximum ∧
          p.times_reset = q.times_reset ∧ p.type = q.type ∧
          p.allocations = q.allocations ∧ p.frees = q.frees ∧
          p.bytes_allocated = q.bytes_allocated ∧ p.bytes_freed = q.bytes_freed ∧
          ∀ j, j < 8 → p.papi_metrics.getD j 0
            = (if q.type = apex_profile_type.APEX_TIMER then q.papi_metrics.getD j 0
               else 0) :=
  reduce_profiles_single main_str tids hnul
    (registry_representable_of_exactly_convertible tids hrep)

/-- Witness of the amended claim C23: a single rank with the root name and a
record for `work` with 10 calls returns a table with the key `work`, 10 calls
under it, and no key for the root name. -/
theorem single_rank_table_witness :
    ∃ o, reduce_profiles "APEX MAIN".toList
        [[("APEX MAIN".toList, some (sample_timer 1 1)),
          ("work".toList, some (sample_timer 10 100))]] 0 = some o ∧
      (std_map.find o.all_profiles "work".toList).map apex_profile.calls = some 10 ∧
      (std_map.find o.all_profiles "APEX MAIN".toList).isSome = false := by
  obtain ⟨o, ho, hk, hf⟩ := single_rank_table "APEX MAIN".toList
    [("APEX MAIN".toList, some (sample_timer 1 1)),
     ("work".toList, some (sample_timer 10 100))]
    (by decide) (registry_exactly_convertible_of_check _ (by decide))
  obtain ⟨p, hp, hc, -⟩ := hf "work".toList (sample_timer 10 100) rfl
  refine ⟨o, ho, ?_, ?_⟩
  · rw [hp, Option.map_some', hc]
    norm_num [sample_timer]
  · rw [Bool.eq_false_iff]
    intro h
    exact ((hk "APEX MAIN".toList).mp h).1 rfl

/-- The table that a call of `reduce_profiles` returns has no key outside the
unified name set of rank 0, here for the name `main_str`. -/
theorem reduce_profiles_no_main (main_str : List Char) (ranks : List registry)
    (hmain : main_str ≠ []) (hnul : ∀ r ∈ ranks, ∀ e ∈ r, NUL ∉ e.1) (commrank : Nat)
    (o : reduce_outcome) (h : reduce_profiles main_str ranks commrank = some o) :
    std_map.find o.all_profiles main_str = none := by
  by_cases hown : ranks.getD commrank [] = []
  · rw [reduce_profiles_of_empty main_str ranks commrank hown] at h
    cases Option.some.inj h
    rfl
  · by_cases hall : ∀ r ∈ ranks, r ≠ []
    · by_cases hc : commrank = 0
      · subst hc
        have h0 : ranks ≠ [] := by
          intro hr
          apply hown
          rw [hr]
          rfl
        have hhead : ranks.getD 0 [] ∈ ranks := by
          cases ranks with
          | nil => exact absurd rfl h0
          | cons t rest => exact List.mem_cons_self t rest
        have hsame : ∀ r ∈ ranks, unified_names main_str ranks r
            = unified_names main_str ranks (ranks.getD 0 []) :=
          fun r hr => unified_names_eq main_str ranks hnul r _ hr hhead
        rw [reduce_profiles_rank_zero main_str ranks _ h0 hall hsame] at h
        cases hm : reduce_rows main_str (unified_names main_str ranks (ranks.getD 0 []))
            ranks with
        | none => rw [hm] at h; cases h
        | some m =>
          rw [hm] at h
          cases Option.some.inj h
          rw [reduce_rows_eq] at hm
          exact merge_ranks_find_not_mem main_str _ (unified_names_nodup _ _ _) main_str
            (main_str_not_unified main_str ranks hmain hnul _ hhead) ranks [] m hm
      · rw [reduce_profiles_rank_other main_str ranks commrank hc hall] at h
        cases Option.some.inj h
        rfl
    · have hex : ∃ r ∈ ranks, r = [] := by
        by_contra hcon
        exact hall (fun r hr hr0 => hcon ⟨r, hr, hr0⟩)
      obtain ⟨r, hr, hr0⟩ := hex
      rw [reduce_profiles_blocked main_str ranks commrank hown r hr hr0] at h
      cases h

/-- Claim C28, refuted as stated: a name that holds the root name, a NUL and
more characters is not the root name and is not skipped; `strncpy` copies it up
to the NUL, so the loop over the gathered names reads the root name and inserts
it, and the table of the single rank has a record under the root name. -/
theorem main_str_enters_through_buffer :
    unified_names "APEX MAIN".toList
      [[("APEX MAIN".toList ++ NUL :: "x".toList, some (sample_timer 1 1))]]
      [("APEX MAIN".toList ++ NUL :: "x".toList, some (sample_timer 1 1))]
      = ["APEX MAIN".toList, "APEX MAIN".toList ++ NUL :: "x".toList] ∧
    ∃ o, reduce_profiles "APEX MAIN".toList
        [[("APEX MAIN".toList ++ NUL :: "x".toList, some (sample_timer 1 1))]] 0 = some o ∧
      (std_map.find o.all_profiles "APEX MAIN".toList).isSome := by
  have hu : unified_names "APEX MAIN".toList
      [[("APEX MAIN".toList ++ NUL :: "x".toList, some (sample_timer 1 1))]]
      [("APEX MAIN".toList ++ NUL :: "x".toList, some (sample_timer 1 1))]
      = ["APEX MAIN".toList, "APEX MAIN".toList ++ NUL :: "x".toList] := by decide
  refine ⟨hu, ?_⟩
  have hrun := reduce_profiles_rank_zero "APEX MAIN".toList
    [[("APEX MAIN".toList ++ NUL :: "x".toList, some (sample_timer 1 1))]]
    ["APEX MAIN".toList, "APEX MAIN".toList ++ NUL :: "x".toList] (by simp) (by simp)
    (by
      intro r hr
      rw [List.mem_singleton.mp hr]
      exact hu)
  obtain ⟨m, hm, hkeys⟩ := reduce_rows_keys "APEX MAIN".toList
    ["APEX MAIN".toList, "APEX MAIN".toList ++ NUL :: "x".toList]
    [[("APEX MAIN".toList ++ NUL :: "x".toList, some (sample_timer 1 1))]]
    (by decide) (by simp)
    (local_profile_representable _ _ (ranks_representable_of_in_range _ (by decide)))
  rw [hm] at hrun
  exact ⟨_, hrun, (hkeys "APEX MAIN".toList).mpr (by decide)⟩

/-- Claim C28, amended: when the root name `APEX_MAIN_STR` is not the empty
string and no task name contains a NUL character, the root name is not a local
name of any registry, the local name count is the number of distinct names of
the registry other than the root name, the root name is not a member of the
unified name set of any rank, and a table that `reduce_profiles` returns has no
key equal to it. -/
theorem main_str_excluded (main_str : List Char) (ranks : List registry)
    (hmain : main_str ≠ []) (hnul : ∀ r ∈ ranks, ∀ e ∈ r, NUL ∉ e.1) :
    (∀ tids : registry, main_str ∉ local_names main_str tids ∧
      (name_lengths (local_names main_str tids)).1
        = ((tids.map Prod.fst).dedup.filter fun n => decide (n ≠ main_str)).length) ∧
    (∀ tids ∈ ranks, main_str ∉ unified_names main_str ranks tids) ∧
    (∀ commrank o, reduce_profiles main_str ranks commrank = some o →
      std_map.find o.all_profiles main_str = none) := by
  refine ⟨?_, ?_, ?_⟩
  · intro tids
    refine ⟨fun h => ((mem_local_names_iff main_str tids main_str).mp h).1 rfl, ?_⟩
    have hperm : (local_names main_str tids).Perm
        ((tids.map Prod.fst).dedup.filter fun n => decide (n ≠ main_str)) := by
      apply (List.perm_ext_iff_of_nodup (local_names_nodup main_str tids)
        ((List.nodup_dedup _).filter _)).mpr
      intro y
      rw [mem_local_names_iff, List.mem_filter, List.mem_dedup, List.mem_map]
      simp only [decide_eq_true_eq]
      exact and_comm
    exact hperm.length_eq
  · exact fun tids ht => main_str_not_unified main_str ranks hmain hnul tids ht
  · exact fun commrank o h => reduce_profiles_no_main main_str ranks hmain hnul commrank o h

/-- Witness of the amended claim C28: two ranks, the first with the root name
and `work`, the second with `work` and `idle`. -/
theorem main_str_excluded_witness :
    (∀ tids : registry, "APEX MAIN".toList ∉ local_names "APEX MAIN".toList tids ∧
      (name_lengths (local_names "APEX MAIN".toList tids)).1
        = ((tids.map Prod.fst).dedup.filter
            fun n => decide (n ≠ "APEX MAIN".toList)).length) ∧
    (∀ tids ∈ [[("APEX MAIN".toList, some (sample_timer 1 1)),
          ("work".toList, some (sample_timer 10 100))],
         [("work".toList, some (sample_timer 5 40)),
          ("idle".toList, some (sample_timer 1 1))]],
      "APEX MAIN".toList ∉ unified_names "APEX MAIN".toList
        [[("APEX MAIN".toList, some (sample_timer 1 1)),
          ("work".toList, some (sample_timer 10 100))],
         [("work".toList, some (sample_timer 5 40)),
          ("idle".toList, some (sample_timer 1 1))]] tids) ∧
    (∀ commrank o, reduce_profiles "APEX MAIN".toList
        [[("APEX MAIN".toList, some (sample_timer 1 1)),
          ("work".toList, some (sample_timer 10 100))],
         [("work".toList, some (sample_timer 5 40)),
          ("idle".toList, some (sample_timer 1 1))]] commrank = some o →
      std_map.find o.all_profiles "APEX MAIN".toList = none) :=
  main_str_excluded "APEX MAIN".toList
    [[("APEX MAIN".toList, some (sample_timer 1 1)),
      ("work".toList, some (sample_timer 10 100))],
     [("work".toList, some (sample_timer 5 40)),
      ("idle".toList, some (sample_timer 1 1))]]
    (by decide) (by decide)

/-- Claim C29: in a run in which no registry is empty and no name has a NUL
character (allocation fields within `size_t`), the call on every rank returns;
on a rank other than 0 the table is empty, and on rank 0 the keys of the table
are exactly the names of the unified name set. -/
theorem table_only_on_rank_zero (main_str : List Char) (ranks : List registry)
    (commrank : Nat) (hlt : commrank < ranks.length) (hne : ∀ r ∈ ranks, r ≠ [])
    (hnul : ∀ r ∈ ranks, ∀ e ∈ r, NUL ∉ e.1)
    (hrep : ∀ tids ∈ ranks, registry_representable tids) :
    ∃ o, reduce_profiles main_str ranks commrank = some o ∧
      (commrank ≠ 0 → o.all_profiles = []) ∧
      (commrank = 0 → ∀ n, (std_map.find o.all_profiles n).isSome ↔
        n ∈ unified_names main_str ranks (ranks.getD 0 [])) := by
  have h0 : ranks ≠ [] := by
    intro hr
    rw [hr] at hlt
    exact absurd hlt (Nat.not_lt_zero _)
  by_cases hc : commrank = 0
  · subst hc
    have hhead : ranks.getD 0 [] ∈ ranks := by
      cases ranks with
      | nil => exact absurd rfl h0
      | cons t rest => exact List.mem_cons_self t rest
    have hsame : ∀ r ∈ ranks, unified_names main_str ranks r
        = unified_names main_str ranks (ranks.getD 0 []) :=
      fun r hr => unified_names_eq main_str ranks hnul r _ hr hhead
    have hrun := reduce_profiles_rank_zero main_str ranks _ h0 hne hsame
    obtain ⟨m, hm, hkeys⟩ := reduce_rows_keys main_str
      (unified_names main_str ranks (ranks.getD 0 [])) ranks (unified_names_nodup _ _ _) h0
      (local_profile_representable main_str ranks hrep)
    rw [hm] at hrun
    exact ⟨_, hrun, fun h => absurd rfl h, fun _ => hkeys⟩
  · exact ⟨_, reduce_profiles_rank_other main_str ranks commrank hc hne, fun _ => rfl,
      fun h => absurd h hc⟩

/-- Witness of claim C29: of two ranks that hold records for `work`, rank 1
returns an empty table and rank 0 a table whose only key is `work`. -/
theorem table_only_on_rank_zero_witness :
    ∃ o0 o1,
      reduce_profiles "APEX MAIN".toList
        [[("work".toList, some (sample_timer 10 100))],
         [("work".toList, some (sample_timer 5 40))]] 0 = some o0 ∧
      reduce_profiles "APEX MAIN".toList
        [[("work".toList, some (sample_timer 10 100))],
         [("work".toList, some (sample_timer 5 40))]] 1 = some o1 ∧
      o1.all_profiles = [] ∧
      ∀ n, (std_map.find o0.all_profiles n).isSome ↔ n ∈ ["work".toList] := by
  obtain ⟨o0, h0, -, hk⟩ := table_only_on_rank_zero "APEX MAIN".toList
    [[("work".toList, some (sample_timer 10 100))],
     [("work".toList, some (sample_timer 5 40))]] 0 (by decide) (by simp) (by decide)
    (ranks_representable_of_in_range _ (by decide))
  obtain ⟨o1, h1, he, -⟩ := table_only_on_rank_zero "APEX MAIN".toList
    [[("work".toList, some (sample_timer 10 100))],
     [("work".toList, some (sample_timer 5 40))]] 1 (by decide) (by simp) (by decide)
    (ranks_representable_of_in_range _ (by decide))
  have hu : unified_names "APEX MAIN".toList
      [[("work".toList, some (sample_timer 10 100))],
       [("work".toList, some (sample_timer 5 40))]]
      ([[("work".toList, some (sample_timer 10 100))],
        [("work".toList, some (sample_timer 5 40))]].getD 0 []) = ["work".toList] := by
    decide
  refine ⟨o0, o1, h0, h1, he (by decide), ?_⟩
  intro n
  rw [← hu]
  exact hk rfl n

/-- Claim C30, evaluated at a failing input: of two ranks, rank 1 with a
record for `other` calls the all-reduce, the all-gather, the gather and the
barrier, and rank 1 with an empty registry returns without calling any
collective, while rank 0 has entered the all-reduce, which then does not
complete. -/
theorem empty_registry_skips_collectives :
    (reduce_profiles "APEX MAIN".toList
      [[("work".toList, some (sample_timer 10 100))],
       [("other".toList, some (sample_timer 1 1))]] 1).map reduce_outcome.collectives
      = some [collective.allreduce, collective.allgather, collective.gather,
          collective.barrier] ∧
    (reduce_profiles "APEX MAIN".toList
      [[("work".toList, some (sample_timer 10 100))], []] 1).map reduce_outcome.collectives
      = some [] ∧
    (reduce_profiles "APEX MAIN".toList
      [[("work".toList, some (sample_timer 10 100))], []] 0).isNone = true := by
  refine ⟨by decide, by decide, by decide⟩
/-- What rank 0 returns for a name, read through the table of the second
phase. -/
theorem reduce_profiles_rank_zero_bind {β : Type} (main_str : List Char)
    (ranks : List registry) (all_names : List (List Char)) (h0 : ranks ≠ [])
    (hne : ∀ r ∈ ranks, r ≠ [])
    (hsame : ∀ r ∈ ranks, unified_names main_str ranks r = all_names)
    (g : std_map (List Char) apex_profile → Option β) :
    (reduce_profiles main_str ranks 0).bind (fun o => g o.all_profiles)
      = (reduce_rows main_str all_names ranks).bind g := by
  rw [reduce_profiles_rank_zero main_str ranks all_names h0 hne hsame]
  cases reduce_rows main_str all_names ranks <;> rfl

/-- Claim C21, evaluated at a failing input: two ranks hold for `work` the
allocation fields (3, 1, 30, 10) and (4, 2, 40, 20).  The sums are
(7, 3, 70, 30), and the record that rank 0 returns holds (4, 2, 40, 20), the
fields of the last rank: the combining loop assigns the four slots where it
adds the others. -/
theorem merged_allocations_are_of_last_rank :
    (reduce_profiles "APEX MAIN".toList
      [[("work".toList, some (sample_allocations 3 1 30 10))],
       [("work".toList, some (sample_allocations 4 2 40 20))]] 0).bind
      (fun o => (std_map.find o.all_profiles "work".toList).map
        fun p => (p.allocations, p.frees, p.bytes_allocated, p.bytes_freed))
      = some (4, 2, 40, 20) := by
  have hsame : ∀ r ∈ [[("work".toList, some (sample_allocations 3 1 30 10))],
        [("work".toList, some (sample_allocations 4 2 40 20))]],
      unified_names "APEX MAIN".toList
        [[("work".toList, some (sample_allocations 3 1 30 10))],
         [("work".toList, some (sample_allocations 4 2 40 20))]] r = ["work".toList] := by
    intro r hr
    simp only [List.mem_cons, List.mem_singleton, List.not_mem_nil, or_false] at hr
    rcases hr with hr | hr <;> subst hr <;> decide
  refine (reduce_profiles_rank_zero_bind "APEX MAIN".toList _ ["work".toList] (by simp)
    (by simp) hsame
    (fun m => (std_map.find m "work".toList).map
      fun p => (p.allocations, p.frees, p.bytes_allocated, p.bytes_freed))).trans ?_
  obtain ⟨m, p, h1, h2, -, h4, h5, h6, h7⟩ := reduce_rows_last "APEX MAIN".toList
    ["work".toList] [[("work".toList, some (sample_allocations 3 1 30 10))]]
    [("work".toList, some (sample_allocations 4 2 40 20))]
    "work".toList (by decide) (by decide)
    (local_profile_representable _ _ (ranks_representable_of_in_range _ (by decide)))
  have h1' : reduce_rows "APEX MAIN".toList ["work".toList]
      [[("work".toList, some (sample_allocations 3 1 30 10))],
       [("work".toList, some (sample_allocations 4 2 40 20))]] = some m := h1
  rw [h1']
  simp only [Option.some_bind, h2, Option.map_some', h4, h5, h6, h7]
  rfl

/-- Claim C25, evaluated at a failing input: one rank holds for `work` a
record with 10 calls, the accumulated value 100, the minimum 1 and the maximum
100.  A second rank that has a record for `other` only sends a zero row for
`work`.  Merged calls, stops, accumulated value, sum of squares and maximum
are the same with and without the second rank, and the merged minimum is 1
without it and 0 with it. -/
theorem zero_row_lowers_minimum :
    (reduce_profiles "APEX MAIN".toList
      [[("work".toList, some (sample_timer 10 100))]] 0).bind
      (fun o => (std_map.find o.all_profiles "work".toList).map
        fun p => (p.calls, p.stops, p.accumulated, p.sum_squares, p.maximum, p.minimum))
      = some (10, 10, 100, 10000, 100, 1) ∧
    (reduce_profiles "APEX MAIN".toList
      [[("work".toList, some (sample_timer 10 100))],
       [("other".toList, some (sample_timer 1 1))]] 0).bind
      (fun o => (std_map.find o.all_profiles "work".toList).map
        fun p => (p.calls, p.stops, p.accumulated, p.sum_squares, p.maximum, p.minimum))
      = some (10, 10, 100, 10000, 100, 0) := by
  have hD : (1 : ℚ) ≤ DBL_MAX := by norm_num [DBL_MAX]
  have hl0 : local_profile "APEX MAIN".toList [("work".toList, some (sample_timer 10 100))]
      "work".toList = some (sample_timer 10 100) := rfl
  have hl1 : local_profile "APEX MAIN".toList [("other".toList, some (sample_timer 1 1))]
      "work".toList = none := rfl
  have s4 : ∀ c a, (build_row (some (sample_timer c a))).getD 4 0 = 1 := fun _ _ => rfl
  have s5 : ∀ c a, (build_row (some (sample_timer c a))).getD 5 0 = a := fun _ _ => rfl
  have hsame1 : ∀ r ∈ [[("work".toList, some (sample_timer 10 100))]],
      unified_names "APEX MAIN".toList [[("work".toList, some (sample_timer 10 100))]] r
        = ["work".toList] := by
    intro r hr
    rw [List.mem_singleton.mp hr]
    decide
  have hsame2 : ∀ r ∈ [[("work".toList, some (sample_timer 10 100))],
        [("other".toList, some (sample_timer 1 1))]],
      unified_names "APEX MAIN".toList
        [[("work".toList, some (sample_timer 10 100))],
         [("other".toList, some (sample_timer 1 1))]] r
        = ["other".toList, "work".toList] := by
    intro r hr
    simp only [List.mem_cons, List.mem_singleton, List.not_mem_nil, or_false] at hr
    rcases hr with hr | hr <;> subst hr <;> decide
  constructor
  · refine (reduce_profiles_rank_zero_bind "APEX MAIN".toList _ ["work".toList] (by simp)
      (by simp) hsame1
      (fun m => (std_map.find m "work".toList).map
        fun p => (p.calls, p.stops, p.accumulated, p.sum_squares, p.maximum,
          p.minimum))).trans ?_
    obtain ⟨m, p, h1, h2, hc, hs, ha, hq, -, -⟩ := reduce_rows_fields "APEX MAIN".toList
      ["work".toList] [[("work".toList, some (sample_timer 10 100))]]
      "work".toList (by decide) (by decide) (by simp)
      (local_profile_representable _ _ (ranks_representable_of_in_range _ (by decide)))
    obtain ⟨m0, p0, g1, g2, hmin, hmax⟩ := reduce_rows_min_max "APEX MAIN".toList
      ["work".toList] [[("work".toList, some (sample_timer 10 100))]]
      "work".toList (by decide) (by decide) (by simp)
      (local_profile_representable _ _ (ranks_representable_of_in_range _ (by decide)))
    rw [h1] at g1
    cases Option.some.inj g1
    rw [h2] at g2
    cases Option.some.inj g2
    rw [h1]
    simp only [Option.some_bind, h2, Option.map_some', hc, hs, ha, hq, hmin, hmax,
      List.map_cons, List.map_nil, List.foldl_cons, List.foldl_nil, List.sum_cons,
      List.sum_nil, hl0, s4, s5, min_eq_right hD]
    norm_num [sent_calls, sent_stops, sample_timer]
  · refine (reduce_profiles_rank_zero_bind "APEX MAIN".toList _
      ["other".toList, "work".toList] (by simp) (by simp) hsame2
      (fun m => (std_map.find m "work".toList).map
        fun p => (p.calls, p.stops, p.accumulated, p.sum_squares, p.maximum,
          p.minimum))).trans ?_
    obtain ⟨m, p, h1, h2, hc, hs, ha, hq, -, -⟩ := reduce_rows_fields "APEX MAIN".toList
      ["other".toList, "work".toList]
      [[("work".toList, some (sample_timer 10 100))],
       [("other".toList, some (sample_timer 1 1))]]
      "work".toList (by decide) (by decide) (by simp)
      (local_profile_representable _ _ (ranks_representable_of_in_range _ (by decide)))
    obtain ⟨m0, p0, g1, g2, hmin, hmax⟩ := reduce_rows_min_max "APEX MAIN".toList
      ["other".toList, "work".toList]
      [[("work".toList, some (sample_timer 10 100))],
       [("other".toList, some (sample_timer 1 1))]]
      "work".toList (by decide) (by decide) (by simp)
      (local_profile_representable _ _ (ranks_representable_of_in_range _ (by decide)))
    rw [h1] at g1
    cases Option.some.inj g1
    rw [h2] at g2
    cases Option.some.inj g2
    rw [h1]
    simp only [Option.some_bind, h2, Option.map_some', hc, hs, ha, hq, hmin, hmax,
      List.map_cons, List.map_nil, List.foldl_cons, List.foldl_nil, List.sum_cons,
      List.sum_nil, hl0, hl1, s4, s5, min_eq_right hD, build_row_none_slot]
    norm_num [sent_calls, sent_stops, sample_timer]

/-- Claim C27, evaluated at a failing input: rank 0 holds a counter record for
`c`, and rank 1, the last one, has a record for `t` only, so its row for `c`
is a zero row.  Every rank that observed `c` reports a counter, and the record
of `c` that rank 0 returns is a timer; with the two ranks in the other order it
is a counter. -/
theorem merged_type_is_of_last_rank :
    (reduce_profiles "APEX MAIN".toList
      [[("c".toList, some (sample_counter 3 6))],
       [("t".toList, some (sample_timer 1 1))]] 0).bind
      (fun o => (std_map.find o.all_profiles "c".toList).map apex_profile.type)
      = some apex_profile_type.APEX_TIMER ∧
    (reduce_profiles "APEX MAIN".toList
      [[("t".toList, some (sample_timer 1 1))],
       [("c".toList, some (sample_counter 3 6))]] 0).bind
      (fun o => (std_map.find o.all_profiles "c".toList).map apex_profile.type)
      = some apex_profile_type.APEX_COUNTER := by
  have hsame1 : ∀ r ∈ [[("c".toList, some (sample_counter 3 6))],
        [("t".toList, some (sample_timer 1 1))]],
      unified_names "APEX MAIN".toList
        [[("c".toList, some (sample_counter 3 6))],
         [("t".toList, some (sample_timer 1 1))]] r = ["c".toList, "t".toList] := by
    intro r hr
    simp only [List.mem_cons, List.mem_singleton, List.not_mem_nil, or_false] at hr
    rcases hr with hr | hr <;> subst hr <;> decide
  have hsame2 : ∀ r ∈ [[("t".toList, some (sample_timer 1 1))],
        [("c".toList, some (sample_counter 3 6))]],
      unified_names "APEX MAIN".toList
        [[("t".toList, some (sample_timer 1 1))],
         [("c".toList, some (sample_counter 3 6))]] r = ["c".toList, "t".toList] := by
    intro r hr
    simp only [List.mem_cons, List.mem_singleton, List.not_mem_nil, or_false] at hr
    rcases hr with hr | hr <;> subst hr <;> decide
  constructor
  · refine (reduce_profiles_rank_zero_bind "APEX MAIN".toList _ ["c".toList, "t".toList]
      (by simp) (by simp) hsame1
      (fun m => (std_map.find m "c".toList).map apex_profile.type)).trans ?_
    obtain ⟨m, p, h1, h2, h3, -⟩ := reduce_rows_last "APEX MAIN".toList
      ["c".toList, "t".toList] [[("c".toList, some (sample_counter 3 6))]]
      [("t".toList, some (sample_timer 1 1))]
      "c".toList (by decide) (by decide)
      (local_profile_representable _ _ (ranks_representable_of_in_range _ (by decide)))
    have h1' : reduce_rows "APEX MAIN".toList ["c".toList, "t".toList]
        [[("c".toList, some (sample_counter 3 6))],
         [("t".toList, some (sample_timer 1 1))]] = some m := h1
    rw [h1']
    simp only [Option.some_bind, h2, Option.map_some', h3]
    rfl
  · refine (reduce_profiles_rank_zero_bind "APEX MAIN".toList _ ["c".toList, "t".toList]
      (by simp) (by simp) hsame2
      (fun m => (std_map.find m "c".toList).map apex_profile.type)).trans ?_
    obtain ⟨m, p, h1, h2, h3, -⟩ := reduce_rows_last "APEX MAIN".toList
      ["c".toList, "t".toList] [[("t".toList, some (sample_timer 1 1))]]
      [("c".toList, some (sample_counter 3 6))]
      "c".toList (by decide) (by decide)
      (local_profile_representable _ _ (ranks_representable_of_in_range _ (by decide)))
    have h1' : reduce_rows "APEX MAIN".toList ["c".toList, "t".toList]
        [[("t".toList, some (sample_timer 1 1))],
         [("c".toList, some (sample_counter 3 6))]] = some m := h1
    rw [h1']
    simp only [Option.some_bind, h2, Option.map_some', h3]
    rfl

/-! ## Frame of `reset`, inclusive value of a timer, variance of completed samples -/

/-- Claim C36: `reset()` leaves the inclusive accumulated value, the hardware
counters, the four allocation fields, the kind and the throttled flag of every
record as they were (the other fields of the record are the ones it writes: calls,
stops, accumulated, sum_squares, minimum, maximum, times_reset and
num_threads). -/
theorem reset_frame (r : profile) :
    r.reset._profile.inclusive_accumulated = r._profile.inclusive_accumulated ∧
    r.reset._profile.papi_metrics = r._profile.papi_metrics ∧
    r.reset._profile.allocations = r._profile.allocations ∧
    r.reset._profile.frees = r._profile.frees ∧
    r.reset._profile.bytes_allocated = r._profile.bytes_allocated ∧
    r.reset._profile.bytes_freed = r._profile.bytes_freed ∧
    r.reset._profile.type = r._profile.type ∧
    r.reset._profile.throttled = r._profile.throttled :=
  ⟨rfl, rfl, rfl, rfl, rfl, rfl, rfl, rfl⟩

/-- Claim C38: for a timer `get_inclusive_accumulated()` is the greater of the
accumulated and the inclusive accumulated value, so it is not below
`get_accumulated()`. -/
theorem timer_inclusive_is_max (r : profile)
    (h : r.get_type = apex_profile_type.APEX_TIMER) :
    r.get_inclusive_accumulated
      = max r._profile.accumulated r._profile.inclusive_accumulated ∧
    r.get_accumulated ≤ r.get_inclusive_accumulated := by
  have hmax : r.get_inclusive_accumulated
      = max r._profile.accumulated r._profile.inclusive_accumulated := by
    unfold profile.get_inclusive_accumulated
    unfold profile.get_type at h
    rw [if_pos h]
    unfold std_max
    split_ifs with hlt
    · exact (max_eq_right (le_of_lt hlt)).symm
    · exact (max_eq_left (not_lt.mp hlt)).symm
  refine ⟨hmax, ?_⟩
  rw [hmax]
  exact le_max_left _ _

/-- Witness of claim C38: a timer built from a sample with the value 3 and the
inclusive value 8 reports the inclusive value 8. -/
theorem timer_inclusive_is_max_witness :
    (profile.construct false 3 8 0 [] false
      apex_profile_type.APEX_TIMER).get_inclusive_accumulated = 8 ∧
    (profile.construct false 3 8 0 [] false apex_profile_type.APEX_TIMER).get_accumulated
      ≤ (profile.construct false 3 8 0 [] false
          apex_profile_type.APEX_TIMER).get_inclusive_accumulated := by
  obtain ⟨h1, h2⟩ := timer_inclusive_is_max
    (profile.construct false 3 8 0 [] false apex_profile_type.APEX_TIMER) rfl
  refine ⟨?_, h2⟩
  rw [h1]
  norm_num [profile.construct]

theorem add_samples_sum_squares (have_papi : Bool) (l : List Sample) :
    ∀ p : profile, (p.add_samples have_papi l)._profile.sum_squares =
      p._profile.sum_squares + (l.map fun s => s.value * s.value).sum := by
  induction l with
  | nil => intro p; simp [add_samples_nil]
  | cons s l ih =>
    intro p
    rw [add_samples_cons, ih]
    show p._profile.sum_squares + s.value * s.value + _ = _
    rw [List.map_cons, List.sum_cons, add_assoc]

theorem completed_of_none_yielded (l : List Sample) (h : ∀ s ∈ l, s.yielded = false) :
    completed l = l.length := by
  induction l with
  | nil => rfl
  | cons s l ih =>
    rw [completed_cons, h s (List.mem_cons_self s l),
      ih (fun x hx => h x (List.mem_cons_of_mem s hx)), List.length_cons]
    simp [Nat.add_comm]

theorem sum_squared_deviations (c : ℚ) (vs : List ℚ) :
    (vs.map fun v => (v - c) ^ 2).sum
      = (vs.map fun v => v * v).sum - 2 * c * vs.sum + (vs.length : ℚ) * c ^ 2 := by
  induction vs with
  | nil => simp
  | cons v vs ih =>
    simp only [List.map_cons, List.sum_cons, List.length_cons, ih]
    push_cast
    ring

/-- The mean of the squares minus the square of the mean is the population
variance. -/
theorem population_variance_eq (vs : List ℚ) (hne : vs ≠ []) :
    (vs.map fun v => v * v).sum / (vs.length : ℚ) - (vs.sum / (vs.length : ℚ)) ^ 2
      = population_variance vs := by
  have hn : (vs.length : ℚ) ≠ 0 := by
    have := List.length_pos.mpr hne
    exact_mod_cast (Nat.pos_iff_ne_zero.mp this)
  unfold population_variance population_mean
  rw [sum_squared_deviations]
  field_simp
  ring

theorem population_variance_nonneg (vs : List ℚ) : 0 ≤ population_variance vs := by
  unfold population_variance
  apply div_nonneg
  · apply List.sum_nonneg
    intro x hx
    obtain ⟨v, -, rfl⟩ := List.mem_map.mp hx
    exact sq_nonneg _
  · exact Nat.cast_nonneg _

/-- A record whose calls, accumulated value and sum of squares are the count,
the sum and the sum of squares of a non-empty list of values: the clamp of
`get_variance` is not active, and the variance is the population variance. -/
theorem variance_of_summary (r : profile) (vs : List ℚ) (hne : vs ≠ [])
    (hc : r._profile.calls = (vs.length : ℚ)) (ha : r._profile.accumulated = vs.sum)
    (hs : r._profile.sum_squares = (vs.map fun v => v * v).sum) :
    0 ≤ r._profile.sum_squares / r._profile.calls
        - (r._profile.accumulated / r._profile.calls) ^ 2 ∧
    r.get_variance = r._profile.sum_squares / r._profile.calls
        - (r._profile.accumulated / r._profile.calls) ^ 2 ∧
    r.get_variance = population_variance vs := by
  have hv : r._profile.sum_squares / r._profile.calls
      - (r._profile.accumulated / r._profile.calls) ^ 2 = population_variance vs := by
    rw [hc, ha, hs]
    exact population_variance_eq vs hne
  have h0 : 0 ≤ r._profile.sum_squares / r._profile.calls
      - (r._profile.accumulated / r._profile.calls) ^ 2 := by
    rw [hv]
    exact population_variance_nonneg vs
  have hg : r.get_variance = r._profile.sum_squares / r._profile.calls
      - (r._profile.accumulated / r._profile.calls) ^ 2 := by
    show (if r._profile.sum_squares / r._profile.calls - r.get_mean * r.get_mean ≥ 0
        then r._profile.sum_squares / r._profile.calls - r.get_mean * r.get_mean else 0) = _
    have hm : r.get_mean * r.get_mean = (r._profile.accumulated / r._profile.calls) ^ 2 := by
      unfold profile.get_mean profile.get_accumulated
      rw [pow_two]
    rw [hm, if_pos h0]
  exact ⟨h0, hg, hg.trans hv⟩

/-- Claim C37: for a record built from a non-yielded sample and non-yielded
increments, and for a record that was reset and then got at least one
increment, all of them non-yielded, the mean of the squares minus the square of
the mean is not negative, so `get_variance` returns it unclamped, and it is the
population variance of the values applied. -/
theorem variance_of_completed_samples (have_papi : Bool) (type : apex_profile_type)
    (s0 : Sample) (l : List Sample) (h0 : s0.yielded = false)
    (hl : ∀ s ∈ l, s.yielded = false) (p : profile) (l' : List Sample) (hne : l' ≠ [])
    (hl' : ∀ s ∈ l', s.yielded = false) :
    (0 ≤ ((profile.of_sample have_papi type s0).add_samples have_papi l)._profile.sum_squares
          / ((profile.of_sample have_papi type s0).add_samples have_papi l)._profile.calls
        - (((profile.of_sample have_papi type s0).add_samples have_papi l)._profile.accumulated
          / ((profile.of_sample have_papi type s0).add_samples have_papi l)._profile.calls) ^ 2 ∧
      ((profile.of_sample have_papi type s0).add_samples have_papi l).get_variance
        = ((profile.of_sample have_papi type s0).add_samples have_papi l)._profile.sum_squares
          / ((profile.of_sample have_papi type s0).add_samples have_papi l)._profile.calls
        - (((profile.of_sample have_papi type s0).add_samples have_papi l)._profile.accumulated
          / ((profile.of_sample have_papi type s0).add_samples have_papi l)._profile.calls) ^ 2 ∧
      ((profile.of_sample have_papi type s0).add_samples have_papi l).get_variance
        = population_variance ((s0 :: l).map Sample.value)) ∧
    (0 ≤ (p.reset.add_samples have_papi l')._profile.sum_squares
          / (p.reset.add_samples have_papi l')._profile.calls
        - ((p.reset.add_samples have_papi l')._profile.accumulated
          / (p.reset.add_samples have_papi l')._profile.calls) ^ 2 ∧
      (p.reset.add_samples have_papi l').get_variance
        = (p.reset.add_samples have_papi l')._profile.sum_squares
          / (p.reset.add_samples have_papi l')._profile.calls
        - ((p.reset.add_samples have_papi l')._profile.accumulated
          / (p.reset.add_samples have_papi l')._profile.calls) ^ 2 ∧
      (p.reset.add_samples have_papi l').get_variance
        = population_variance (l'.map Sample.value)) := by
  constructor
  · apply variance_of_summary _ ((s0 :: l).map Sample.value) (by simp)
    · rw [add_samples_calls, completed_of_none_yielded l hl]
      have hc : (profile.of_sample have_papi type s0)._profile.calls = 1 := by
        show (if (!s0.yielded) = true then (1 : ℚ) else 0) = 1
        rw [h0]
        rfl
      rw [hc, List.length_map, List.length_cons]
      push_cast
      ring
    · rw [add_samples_accumulated]
      rfl
    · rw [add_samples_sum_squares, List.map_map]
      rfl
  · apply variance_of_summary _ (l'.map Sample.value) (by simpa using hne)
    · rw [add_samples_calls, completed_of_none_yielded l' hl', List.length_map]
      show (0 : ℚ) + _ = _
      rw [zero_add]
    · rw [add_samples_accumulated]
      show (0 : ℚ) + _ = _
      rw [zero_add]
    · rw [add_samples_sum_squares, List.map_map]
      show (0 : ℚ) + _ = _
      rw [zero_add]
      rfl

/-- Witness of claim C37: a record built from the samples 3 and 5, and a
record reset and then incremented with 2, 4 and 6. -/
theorem variance_of_completed_samples_witness :
    ((profile.of_sample false apex_profile_type.APEX_TIMER
        { value := 3, inclusive := 3, num_metrics := 0, papi_metrics := [], yielded := false,
          thread_id := 0 }).add_samples false
        [{ value := 5, inclusive := 5, num_metrics := 0, papi_metrics := [], yielded := false,
           thread_id := 0 }]).get_variance = 1 ∧
    ((profile.construct false 9 9 0 [] false apex_profile_type.APEX_TIMER).reset.add_samples
        false
        [{ value := 2, inclusive := 2, num_metrics := 0, papi_metrics := [], yielded := false,
           thread_id := 0 },
         { value := 4, inclusive := 4, num_metrics := 0, papi_metrics := [], yielded := false,
           thread_id := 1 },
         { value := 6, inclusive := 6, num_metrics := 0, papi_metrics := [], yielded := false,
           thread_id := 0 }]).get_variance = 8 / 3 := by
  obtain ⟨⟨-, -, h1⟩, ⟨-, -, h2⟩⟩ := variance_of_completed_samples false
    apex_profile_type.APEX_TIMER
    { value := 3, inclusive := 3, num_metrics := 0, papi_metrics := [], yielded := false,
      thread_id := 0 }
    [{ value := 5, inclusive := 5, num_metrics := 0, papi_metrics := [], yielded := false,
       thread_id := 0 }]
    rfl (by decide)
    (profile.construct false 9 9 0 [] false apex_profile_type.APEX_TIMER)
    [{ value := 2, inclusive := 2, num_metrics := 0, papi_metrics := [], yielded := false,
       thread_id := 0 },
     { value := 4, inclusive := 4, num_metrics := 0, papi_metrics := [], yielded := false,
       thread_id := 1 },
     { value := 6, inclusive := 6, num_metrics := 0, papi_metrics := [], yielded := false,
       thread_id := 0 }]
    (by simp) (by decide)
  refine ⟨?_, ?_⟩
  · rw [h1]
    norm_num [population_variance, population_mean]
  · rw [h2]
    norm_num [population_variance, population_mean]

/-! ## The short name and the GPU markers -/

theorem find_single (ch : Char) :
    ∀ s : List Char,
      (∀ k, find [ch] s = some k → s.take k = s.takeWhile (· ≠ ch)) ∧
      (find [ch] s = none → s.takeWhile (· ≠ ch) = s) := by
  intro s
  induction s with
  | nil =>
    constructor
    · intro k _; simp
    · intro _; rfl
  | cons c s ih =>
    by_cases hc : ch = c
    · subst hc
      have hf : find [ch] (ch :: s) = some 0 := by simp [find, List.isPrefixOf]
      constructor
      · intro k hk
        rw [hf] at hk
        cases Option.some.inj hk
        simp
      · intro hn
        rw [hf] at hn
        cases hn
    · have hf : find [ch] (c :: s) = (find [ch] s).map (· + 1) := by
        simp [find, List.isPrefixOf, hc]
      have hne : c ≠ ch := fun h => hc h.symm
      constructor
      · intro k hk
        rw [hf] at hk
        cases hfs : find [ch] s with
        | none => rw [hfs] at hk; cases hk
        | some j =>
          rw [hfs] at hk
          cases Option.some.inj hk
          simp only [List.take_succ_cons, List.takeWhile_cons, ne_eq, hne, not_false_eq_true,
            decide_True, if_true]
          rw [ih.1 j hfs]
      · intro hn
        rw [hf] at hn
        cases hfs : find [ch] s with
        | none =>
          simp only [List.takeWhile_cons, ne_eq, hne, not_false_eq_true, decide_True, if_true]
          rw [ih.2 hfs]
        | some j => rw [hfs] at hn; cases hn

theorem not_mem_takeWhile_ne (ch : Char) (s : List Char) : ch ∉ s.takeWhile (· ≠ ch) := by
  intro h
  have := List.mem_takeWhile_imp h
  simp at this

/-- The first step of the short name keeps what stands before the first `(`. -/
theorem trim_arguments_eq (s : List Char) : trim_arguments s = s.takeWhile (· ≠ '(') := by
  unfold trim_arguments
  cases h : find "(".toList s with
  | none => exact ((find_single '(' s).2 h).symm
  | some k => exact (find_single '(' s).1 k h

/-- The second step of the short name keeps what stands before the first `<`,
unless the name contains `addr`. -/
theorem trim_template_eq (s : List Char) :
    trim_template s = if contains "addr".toList s then s else s.takeWhile (· ≠ '<') := by
  unfold trim_template contains
  cases ha : find "addr".toList s with
  | some j =>
    cases h : find "<".toList s <;> simp
  | none =>
    cases h : find "<".toList s with
    | none => simpa using ((find_single '<' s).2 h).symm
    | some k => simpa using (find_single '<' s).1 k h

theorem trim_length_mem (s : List Char) (ch : Char) (hdot : ch ≠ '.')
    (h : ch ∈ trim_length s) : ch ∈ s := by
  unfold trim_length at h
  simp only at h
  split_ifs at h
  · rcases List.mem_append.mp h with h1 | h1
    · exact List.mem_of_mem_take h1
    · exact absurd (List.mem_replicate.mp h1).2 hdot
  · exact h

/-- Claim C32: for every identifier the short name contains no `(`; when the
name cut at its first `(` does not contain `addr`, the short name contains no
`<` either; and before the length cap the result is a prefix of the resolved
name: what stands before the first `(`, cut again before the first `<` unless
it contains `addr`. -/
theorem short_name_cuts (c : resolver) (have_bfd : Bool) (t : task_identifier) :
    '(' ∉ (t.get_short_name c have_bfd).retval ∧
    (contains "addr".toList (trim_arguments (t.get_name c have_bfd true).retval) = false →
      '<' ∉ (t.get_short_name c have_bfd).retval) ∧
    (t.get_short_name c have_bfd).retval
      = trim_length (trim_template (trim_arguments (t.get_name c have_bfd true).retval)) ∧
    trim_template (trim_arguments (t.get_name c have_bfd true).retval)
      <+: (t.get_name c have_bfd true).retval ∧
    trim_arguments (t.get_name c have_bfd true).retval
      = (t.get_name c have_bfd true).retval.takeWhile (· ≠ '(') ∧
    (contains "addr".toList (trim_arguments (t.get_name c have_bfd true).retval) = false →
      trim_template (trim_arguments (t.get_name c have_bfd true).retval)
        = ((t.get_name c have_bfd true).retval.takeWhile (· ≠ '(')).takeWhile (· ≠ '<')) := by
  have hshort : (t.get_short_name c have_bfd).retval
      = trim_length (trim_template (trim_arguments (t.get_name c have_bfd true).retval)) := rfl
  have hsub : ∀ ch, ch ∈ trim_template (trim_arguments (t.get_name c have_bfd true).retval) →
      ch ∈ trim_arguments (t.get_name c have_bfd true).retval := by
    intro ch h
    rw [trim_template_eq] at h
    split_ifs at h
    · exact h
    · exact (List.takeWhile_sublist _).subset h
  refine ⟨?_, ?_, hshort, ?_, trim_arguments_eq _, ?_⟩
  · intro h
    rw [hshort] at h
    have h1 := hsub _ (trim_length_mem _ '(' (by decide) h)
    rw [trim_arguments_eq] at h1
    exact not_mem_takeWhile_ne '(' _ h1
  · intro ha h
    rw [hshort] at h
    have h1 := trim_length_mem _ '<' (by decide) h
    rw [trim_template_eq, ha] at h1
    exact not_mem_takeWhile_ne '<' _ h1
  · rw [trim_template_eq, trim_arguments_eq]
    split_ifs
    · exact List.takeWhile_prefix _
    · exact (List.takeWhile_prefix _).trans (List.takeWhile_prefix _)
  · intro ha
    rw [trim_template_eq, ha, trim_arguments_eq]
    rfl

/-- Witness of claim C32: the name `run<int>(x)` has the short name `run`. -/
theorem short_name_cuts_witness :
    ((task_identifier.of_name "run<int>(x)".toList).get_short_name sample_resolver
      false).retval = "run".toList ∧
    '<' ∉ ((task_identifier.of_name "run<int>(x)".toList).get_short_name sample_resolver
      false).retval := by
  obtain ⟨-, h2, -⟩ := short_name_cuts sample_resolver false
    (task_identifier.of_name "run<int>(x)".toList)
  exact ⟨by decide, h2 (by decide)⟩

theorem contains_append_left (pat rest : List Char) : contains pat (pat ++ rest) = true := by
  unfold contains
  cases pat with
  | nil => cases rest <;> simp [find]
  | cons p ps => simp [find, List.isPrefixOf_iff_prefix]

/-- A name that starts with a GPU marker, and does not contain a marker that
is tested before it, is the marker followed by the demangled rest; a name
without any marker is left as it is. -/
theorem demangle_gpu_name_of_leading_marker (c : resolver) (rest : List Char) :
    demangle_gpu_name c ("GPU: ".toList ++ rest) = "GPU: ".toList ++ c.demangle rest ∧
    (contains "GPU: ".toList ("cudaLaunchKernel: ".toList ++ rest) = false →
      demangle_gpu_name c ("cudaLaunchKernel: ".toList ++ rest)
        = "cudaLaunchKernel: ".toList ++ c.demangle rest) ∧
    (contains "GPU: ".toList ("cuLaunchKernel: ".toList ++ rest) = false →
      contains "cudaLaunchKernel: ".toList ("cuLaunchKernel: ".toList ++ rest) = false →
      demangle_gpu_name c ("cuLaunchKernel: ".toList ++ rest)
        = "cuLaunchKernel: ".toList ++ c.demangle rest) := by
  refine ⟨?_, ?_, ?_⟩
  · unfold demangle_gpu_name
    simp only [contains_append_left, if_true, List.drop_left]
  · intro h1
    unfold demangle_gpu_name
    simp only [h1, Bool.false_eq_true, if_false, contains_append_left, if_true, List.drop_left]
  · intro h1 h2
    unfold demangle_gpu_name
    simp only [h1, h2, Bool.false_eq_true, if_false, contains_append_left, if_true,
      List.drop_left]

theorem demangle_gpu_name_of_no_marker (c : resolver) (s : List Char)
    (h1 : contains "GPU: ".toList s = false)
    (h2 : contains "cudaLaunchKernel: ".toList s = false)
    (h3 : contains "cuLaunchKernel: ".toList s = false) : demangle_gpu_name c s = s := by
  unfold demangle_gpu_name
  simp only [h1, h2, h3, Bool.false_eq_true, if_false]

/-- Claim C33, evaluated at a failing input: the name `launch GPU: k` contains
the marker `GPU: ` at index 7, and the part that follows the marker is `k`.
The marker is looked for with `find`, anywhere in the name, and the name is
then cut with `substr(marker.size(), ...)`, as if the marker stood at index 0:
`get_name(true)` returns the marker followed by the demangled `h GPU: k`,
whatever the collaborators are. -/
theorem gpu_marker_cut_at_marker_size (c : resolver) (have_bfd : Bool) :
    find "GPU: ".toList "launch GPU: k".toList = some 7 ∧
    "launch GPU: k".toList.drop (7 + "GPU: ".toList.length) = "k".toList ∧
    ((task_identifier.of_name "launch GPU: k".toList).get_name c have_bfd true).retval
      = "GPU: ".toList ++ c.demangle "h GPU: k".toList := by
  refine ⟨by decide, by decide, ?_⟩
  cases have_bfd <;> rfl

/-! ## The rows of the send buffer and the slots of the name buffer -/

theorem build_rows_length (main_str : List Char) (tids : registry) :
    ∀ all_names : List (List Char),
      (build_rows main_str tids all_names).length = num_fields * all_names.length := by
  intro all_names
  induction all_names with
  | nil => rfl
  | cons n ns ih =>
    simp only [build_rows, List.length_append, build_row_length, ih, List.length_cons,
      num_fields]
    omega

theorem build_rows_drop (main_str : List Char) (tids : registry) :
    ∀ (all_names : List (List Char)) (i : Nat),
      (build_rows main_str tids all_names).drop (num_fields * i)
        = build_rows main_str tids (all_names.drop i) := by
  intro all_names
  induction all_names with
  | nil => intro i; simp [build_rows]
  | cons n ns ih =>
    intro i
    cases i with
    | zero => simp
    | succ i =>
      have hmul : num_fields * (i + 1) = num_fields + num_fields * i := by
        rw [Nat.mul_succ, Nat.add_comm]
      rw [hmul, ← List.drop_drop]
      simp only [build_rows, List.drop_succ_cons]
      rw [drop_row_append _ _ (build_row_length _)]
      exact ih i

/-- The row of the name at index `i` of the name set stands at index `20 * i`
of the send buffer. -/
theorem build_rows_row (main_str : List Char) (tids : registry)
    (all_names : List (List Char)) (i : Nat) (hi : i < all_names.length) :
    ((build_rows main_str tids all_names).drop (num_fields * i)).take num_fields
        = build_row (local_profile main_str tids (all_names.get ⟨i, hi⟩)) ∧
    ∀ k, k < num_fields →
      (build_rows main_str tids all_names).getD (num_fields * i + k) 0
        = (build_row (local_profile main_str tids (all_names.get ⟨i, hi⟩))).getD k 0 := by
  have hdrop : (build_rows main_str tids all_names).drop (num_fields * i)
      = build_row (local_profile main_str tids (all_names.get ⟨i, hi⟩))
        ++ build_rows main_str tids (all_names.drop (i + 1)) := by
    rw [build_rows_drop, List.drop_eq_getElem_cons hi]
    rfl
  constructor
  · rw [hdrop]
    have hlen : num_fields
        = (build_row (local_profile main_str tids (all_names.get ⟨i, hi⟩))).length := by
      rw [build_row_length]; rfl
    rw [hlen, List.take_left]
  · intro k hk
    have hget : (build_rows main_str tids all_names).getD (num_fields * i + k) 0
        = ((build_rows main_str tids all_names).drop (num_fields * i)).getD k 0 := by
      simp [List.getD_eq_getElem?_getD, List.getElem?_drop]
    rw [hget, hdrop]
    apply getD_append_lt
    rw [build_row_length]
    exact hk

/-- Claim C34: the send buffer of a rank holds one row of 20 slots for each
name of the name set, in the order of the set, the row of the name at index
`i` at index `20 * i`.  The row of a name for which the rank finds no profile
is all zeros.  For a counter the slots 2 to 11 hold accumulated, sum_squares,
minimum, maximum, times_reset, the kind, allocations, frees, bytes_allocated
and bytes_freed, and the slots 12 to 19 are zero. -/
theorem send_buffer_rows (main_str : List Char) (tids : registry)
    (all_names : List (List Char)) :
    (build_rows main_str tids all_names).length = 20 * all_names.length ∧
    ∀ (i : Nat) (hi : i < all_names.length),
      ((build_rows main_str tids all_names).drop (20 * i)).take 20
        = build_row (local_profile main_str tids (all_names.get ⟨i, hi⟩)) ∧
      (local_profile main_str tids (all_names.get ⟨i, hi⟩) = none →
        ∀ k, k < 20 → (build_rows main_str tids all_names).getD (20 * i + k) 0 = 0) ∧
      (∀ q, local_profile main_str tids (all_names.get ⟨i, hi⟩) = some q →
        q.type = apex_profile_type.APEX_COUNTER →
        (build_rows main_str tids all_names).getD (20 * i + 2) 0 = q.accumulated ∧
        (build_rows main_str tids all_names).getD (20 * i + 3) 0 = q.sum_squares ∧
        (build_rows main_str tids all_names).getD (20 * i + 4) 0 = q.minimum ∧
        (build_rows main_str tids all_names).getD (20 * i + 5) 0 = q.maximum ∧
        (build_rows main_str tids all_names).getD (20 * i + 6) 0 = (q.times_reset : ℚ) ∧
        (build_rows main_str tids all_names).getD (20 * i + 7) 0
          = profile_type_to_double q.type ∧
        (build_rows main_str tids all_names).getD (20 * i + 8) 0 = (q.allocations : ℚ) ∧
        (build_rows main_str tids all_names).getD (20 * i + 9) 0 = (q.frees : ℚ) ∧
        (build_rows main_str tids all_names).getD (20 * i + 10) 0
          = (q.bytes_allocated : ℚ) ∧
        (build_rows main_str tids all_names).getD (20 * i + 11) 0 = (q.bytes_freed : ℚ) ∧
        ∀ k, 12 ≤ k → k < 20 →
          (build_rows main_str tids all_names).getD (20 * i + k) 0 = 0) := by
  refine ⟨build_rows_length main_str tids all_names, ?_⟩
  intro i hi
  obtain ⟨hrow, hslot⟩ := build_rows_row main_str tids all_names i hi
  refine ⟨hrow, ?_, ?_⟩
  · intro hnone k hk
    have := hslot k hk
    rw [hnone, build_row_none_slot] at this
    exact this
  · intro q hq hty
    rw [hq] at hslot
    obtain ⟨-, -, s2, s3, s4, s5, s6, s7, s8, s9, s10, s11⟩ := build_row_some_slots q
    refine ⟨(hslot 2 (by decide)).trans s2, (hslot 3 (by decide)).trans s3,
      (hslot 4 (by decide)).trans s4, (hslot 5 (by decide)).trans s5,
      (hslot 6 (by decide)).trans s6, (hslot 7 (by decide)).trans s7,
      (hslot 8 (by decide)).trans s8, (hslot 9 (by decide)).trans s9,
      (hslot 10 (by decide)).trans s10, (hslot 11 (by decide)).trans s11, ?_⟩
    intro k hk1 hk2
    have hk : k = 12 + (k - 12) := by omega
    have h20 : k < num_fields := hk2
    refine (hslot k h20).trans ?_
    rw [hk, build_row_some_papi q (k - 12) (by omega)]
    simp [sent_papi, hty]

/-- Witness of claim C34: a rank with a counter record for `c` and the name
set `a`, `c`: the row of `a` is zero, and the row of `c` holds the accumulated
value 6 in slot 2 and 0 in slot 12. -/
theorem send_buffer_rows_witness :
    (build_rows "APEX MAIN".toList [("c".toList, some (sample_counter 3 6))]
      ["a".toList, "c".toList]).length = 40 ∧
    (build_rows "APEX MAIN".toList [("c".toList, some (sample_counter 3 6))]
      ["a".toList, "c".toList]).getD (20 * 0 + 5) 0 = 0 ∧
    (build_rows "APEX MAIN".toList [("c".toList, some (sample_counter 3 6))]
      ["a".toList, "c".toList]).getD (20 * 1 + 2) 0 = 6 ∧
    (build_rows "APEX MAIN".toList [("c".toList, some (sample_counter 3 6))]
      ["a".toList, "c".toList]).getD (20 * 1 + 12) 0 = 0 := by
  obtain ⟨hlen, hrows⟩ := send_buffer_rows "APEX MAIN".toList
    [("c".toList, some (sample_counter 3 6))] ["a".toList, "c".toList]
  obtain ⟨-, h0, -⟩ := hrows 0 (by decide)
  obtain ⟨-, -, h1⟩ := hrows 1 (by decide)
  obtain ⟨s2, -, -, -, -, -, -, -, -, -, s12⟩ := h1 (sample_counter 3 6) rfl rfl
  exact ⟨hlen, h0 rfl 5 (by decide), s2, s12 12 (by decide) (by decide)⟩

/-- Claim C35: for names without NUL and a stride of at least the length of
the longest name plus 1, the string read at slot `i` of the name buffer is the
name at index `i`, for every `i` below the number of names. -/
theorem name_buffer_round_trip (max_length : Nat × Nat) (all_names : std_set)
    (hnul : ∀ name ∈ all_names, NUL ∉ name)
    (hstride : ∀ name ∈ all_names, name.length + 1 ≤ max_length.2) (i : Nat)
    (hi : i < all_names.length) :
    string_at (name_buffer max_length all_names) (i * max_length.2)
      = all_names.get ⟨i, hi⟩ := by
  have hmem : all_names.get ⟨i, hi⟩ ∈ all_names := List.get_mem all_names i hi
  have hi' : i < (name_slots max_length all_names).length := by
    unfold name_slots
    rw [List.length_append, List.length_map]
    omega
  have hslot : (name_slots max_length all_names).get ⟨i, hi'⟩
      = all_names.get ⟨i, hi⟩ ++ NUL ::
          List.replicate (max_length.2 - (all_names.get ⟨i, hi⟩).length - 1) NUL := by
    rw [← strncpy_of_no_NUL _ _ (hnul _ hmem) (hstride _ hmem)]
    show (name_slots max_length all_names)[i] = _
    unfold name_slots
    rw [List.getElem_append_left (by rw [List.length_map]; exact hi), List.getElem_map]
    rfl
  rw [name_buffer_eq]
  exact string_at_slot max_length.2 _ (name_slots_block_length max_length all_names) i hi'
    _ _ hslot (hnul _ hmem)

/-- Witness of claim C35: the names `ab` and `c` in a buffer of three slots of
three characters; slot 1 reads `c`. -/
theorem name_buffer_round_trip_witness :
    name_buffer (3, 3) ["ab".toList, "c".toList]
      = ['a', 'b', NUL, 'c', NUL, NUL, NUL, NUL, NUL] ∧
    string_at (name_buffer (3, 3) ["ab".toList, "c".toList]) (1 * 3) = "c".toList :=
  ⟨by decide,
    name_buffer_round_trip (3, 3) ["ab".toList, "c".toList] (by decide) (by decide) 1
      (by decide)⟩

/-! ## The group of a name, by the prefix relation -/

/-- Claim C18: the group is decided by the prefix of the resolved name: each
of the nine groups is returned exactly when its prefix is a prefix of the
name, and `TAU_USER` exactly when none of the nine prefixes is. -/
theorem group_by_prefix (c : resolver) (have_bfd : Bool) (t : task_identifier) :
    ((t.get_group c have_bfd).retval = "TAU_GPU".toList ↔
      "GPU: ".toList <+: (t.get_name c have_bfd true).retval) ∧
    ((t.get_group c have_bfd).retval = "TAU_OPENMP".toList ↔
      "OpenMP ".toList <+: (t.get_name c have_bfd true).retval) ∧
    ((t.get_group c have_bfd).retval = "TAU_OPENACC".toList ↔
      "OpenACC ".toList <+: (t.get_name c have_bfd true).retval) ∧
    ((t.get_group c have_bfd).retval = "TAU_KOKKOS".toList ↔
      "Kokkos".toList <+: (t.get_name c have_bfd true).retval) ∧
    ((t.get_group c have_bfd).retval = "MPI".toList ↔
      "MPI_".toList <+: (t.get_name c have_bfd true).retval) ∧
    ((t.get_group c have_bfd).retval = "TAU_CUDA".toList ↔
      "cuda".toList <+: (t.get_name c have_bfd true).retval) ∧
    ((t.get_group c have_bfd).retval = "TAU_HIP".toList ↔
      "hip".toList <+: (t.get_name c have_bfd true).retval) ∧
    ((t.get_group c have_bfd).retval = "TAU_PTHREAD".toList ↔
      "pthread".toList <+: (t.get_name c have_bfd true).retval) ∧
    ((t.get_group c have_bfd).retval = "TAU_HPX".toList ↔
      "hpx".toList <+: (t.get_name c have_bfd true).retval) ∧
    ((t.get_group c have_bfd).retval = "TAU_USER".toList ↔
      (¬ "GPU: ".toList <+: (t.get_name c have_bfd true).retval ∧
        ¬ "OpenMP ".toList <+: (t.get_name c have_bfd true).retval ∧
        ¬ "OpenACC ".toList <+: (t.get_name c have_bfd true).retval ∧
        ¬ "Kokkos".toList <+: (t.get_name c have_bfd true).retval ∧
        ¬ "MPI_".toList <+: (t.get_name c have_bfd true).retval ∧
        ¬ "cuda".toList <+: (t.get_name c have_bfd true).retval ∧
        ¬ "hip".toList <+: (t.get_name c have_bfd true).retval ∧
        ¬ "pthread".toList <+: (t.get_name c have_bfd true).retval ∧
        ¬ "hpx".toList <+: (t.get_name c have_bfd true).retval)) := by
  have ht : ∀ s p : List Char, starts_with s p = true ↔ p <+: s :=
    fun s p => List.isPrefixOf_iff_prefix
  have hf : ∀ s p : List Char, starts_with s p = false ↔ ¬ p <+: s := by
    intro s p
    rw [← ht, Bool.not_eq_true]
  obtain ⟨h1, h2, h3, h4, h5, h6, h7, h8, h9, h10⟩ := group_by_tests c have_bfd t
  rw [ht] at h1 h2 h3 h4 h5 h6 h7 h8 h9
  simp only [hf] at h10
  exact ⟨h1, h2, h3, h4, h5, h6, h7, h8, h9, h10⟩

/-- Witness of claim C18: one name for each group, and a name that holds a
prefix elsewhere than at its start. -/
theorem group_by_prefix_witness :
    ((task_identifier.of_name "GPU: kernel".toList).get_group sample_resolver false).retval
      = "TAU_GPU".toList ∧
    ((task_identifier.of_name "OpenMP parallel".toList).get_group sample_resolver false).retval
      = "TAU_OPENMP".toList ∧
    ((task_identifier.of_name "OpenACC enter data".toList).get_group sample_resolver
      false).retval = "TAU_OPENACC".toList ∧
    ((task_identifier.of_name "Kokkos::parallel_for".toList).get_group sample_resolver
      false).retval = "TAU_KOKKOS".toList ∧
    ((task_identifier.of_name "MPI_Send".toList).get_group sample_resolver false).retval
      = "MPI".toList ∧
    ((task_identifier.of_name "cudaMalloc".toList).get_group sample_resolver false).retval
      = "TAU_CUDA".toList ∧
    ((task_identifier.of_name "hipMalloc".toList).get_group sample_resolver false).retval
      = "TAU_HIP".toList ∧
    ((task_identifier.of_name "pthread_create".toList).get_group sample_resolver false).retval
      = "TAU_PTHREAD".toList ∧
    ((task_identifier.of_name "hpx_main".toList).get_group sample_resolver false).retval
      = "TAU_HPX".toList ∧
    ((task_identifier.of_name "compute".toList).get_group sample_resolver false).retval
      = "TAU_USER".toList ∧
    ((task_identifier.of_name "my MPI_Send".toList).get_group sample_resolver false).retval
      = "TAU_USER".toList ∧
    ((task_identifier.of_name "my MPI_Send".toList).get_group sample_resolver false).retval
      ≠ "MPI".toList :=
  ⟨( group_by_prefix sample_resolver false
      (task_identifier.of_name "GPU: kernel".toList)).1.mpr (by decide),
    ( group_by_prefix sample_resolver false
      (task_identifier.of_name "OpenMP parallel".toList)).2.1.mpr (by decide),
    ( group_by_prefix sample_resolver false
      (task_identifier.of_name "OpenACC enter data".toList)).2.2.1.mpr (by decide),
    ( group_by_prefix sample_resolver false
      (task_identifier.of_name "Kokkos::parallel_for".toList)).2.2.2.1.mpr (by decide),
    ( group_by_prefix sample_resolver false
      (task_identifier.of_name "MPI_Send".toList)).2.2.2.2.1.mpr (by decide),
    ( group_by_prefix sample_resolver false
      (task_identifier.of_name "cudaMalloc".toList)).2.2.2.2.2.1.mpr (by decide),
    ( group_by_prefix sample_resolver false
      (task_identifier.of_name "hipMalloc".toList)).2.2.2.2.2.2.1.mpr (by decide),
    ( group_by_prefix sample_resolver false
      (task_identifier.of_name "pthread_create".toList)).2.2.2.2.2.2.2.1.mpr (by decide),
    ( group_by_prefix sample_resolver false
      (task_identifier.of_name "hpx_main".toList)).2.2.2.2.2.2.2.2.1.mpr (by decide),
    ( group_by_prefix sample_resolver false
      (task_identifier.of_name "compute".toList)).2.2.2.2.2.2.2.2.2.mpr (by decide),
    ( group_by_prefix sample_resolver false
      (task_identifier.of_name "my MPI_Send".toList)).2.2.2.2.2.2.2.2.2.mpr (by decide),
    fun h => absurd (( group_by_prefix sample_resolver false
      (task_identifier.of_name "my MPI_Send".toList)).2.2.2.2.1.mp h) (by decide)⟩

/-! ## What a reader without the lock can see of an increment -/

/-- The first record of the stages of an increment is the record before the
call, and the last one is the record that `increment` returns. -/
theorem increment_stages_ends (have_papi : Bool) (p : profile) (increase inclusive : ℚ)
    (num_metrics : Nat) (papi_metrics : List ℚ) (yielded : Bool) (thread_id : Nat) :
    (p.increment_stages have_papi increase inclusive num_metrics papi_metrics yielded
      thread_id).head? = some p ∧
    (p.increment_stages have_papi increase inclusive num_metrics papi_metrics yielded
      thread_id).getLast?
      = some (p.increment have_papi increase inclusive num_metrics papi_metrics yielded
          thread_id) := by
  constructor
  · simp [profile.increment_stages]
  · simp only [profile.increment_stages]
    rw [List.getLast?_append_of_ne_nil _ (by simp)]
    rfl

theorem increment_stages_second (have_papi : Bool) (p : profile) (increase inclusive : ℚ)
    (num_metrics : Nat) (papi_metrics : List ℚ) (yielded : Bool) (thread_id : Nat) :
    ({ _profile := { p._profile with accumulated := p._profile.accumulated + increase },
       thread_ids := p.thread_ids } : profile)
      ∈ p.increment_stages have_papi increase inclusive num_metrics papi_metrics yielded
          thread_id := by
  simp only [profile.increment_stages]
  apply List.mem_append_left
  apply List.mem_map.mpr
  refine ⟨_, ?_, rfl⟩
  apply List.mem_append_left
  apply List.mem_append_left
  exact List.mem_cons_of_mem _ (List.mem_cons_self _ _)

/-- Claim C31, refuted as stated: a record built from the sample 10 has the
mean 10; an increment with 20 leaves the mean 15.  After the first statement
of the increment (`accumulated += increase`) the accumulated value is 30 and
the calls are still 1, and the accessors take no lock: a reader gets the mean
30, which is neither the value before nor the value after the increment. -/
theorem partial_increment_is_observable :
    (profile.construct false 10 10 0 [] false apex_profile_type.APEX_TIMER).get_mean = 10 ∧
    ((profile.construct false 10 10 0 [] false apex_profile_type.APEX_TIMER).increment
      false 20 20 0 [] false 0).get_mean = 15 ∧
    ∃ s ∈ (profile.construct false 10 10 0 [] false
        apex_profile_type.APEX_TIMER).increment_stages false 20 20 0 [] false 0,
      s.get_mean = 30 := by
  refine ⟨?_, ?_, ?_⟩
  · norm_num [profile.get_mean, profile.get_accumulated, profile.construct]
  · norm_num [profile.get_mean, profile.get_accumulated, profile.construct,
      profile.increment]
  · refine ⟨_, increment_stages_second false
      (profile.construct false 10 10 0 [] false apex_profile_type.APEX_TIMER) 20 20 0 []
      false 0, ?_⟩
    norm_num [profile.get_mean, profile.get_accumulated, profile.construct]

/-- Claim C31, amended: with each statement of `increment` taken as one step, a
reader that takes no lock sees, at every stage of the increment and through
every accessor that returns one field (calls, stops, accumulated and its unit
conversions, sum_squares, minimum, maximum, times_reset, num_threads, the four
allocation fields, the kind, the throttled flag), the value from before the
whole increment or the value from after it. -/
theorem single_field_reads_are_whole (have_papi : Bool) (p : profile)
    (increase inclusive : ℚ) (num_metrics : Nat) (papi_metrics : List ℚ) (yielded : Bool)
    (thread_id : Nat) (s : profile)
    (hs : s ∈ p.increment_stages have_papi increase inclusive num_metrics papi_metrics
      yielded thread_id) :
    (s.get_calls = p.get_calls ∨
      s.get_calls = (p.increment have_papi increase inclusive num_metrics papi_metrics
        yielded thread_id).get_calls) ∧
    (s.get_stops = p.get_stops ∨
      s.get_stops = (p.increment have_papi increase inclusive num_metrics papi_metrics
        yielded thread_id).get_stops) ∧
    (s.get_accumulated = p.get_accumulated ∨
      s.get_accumulated = (p.increment have_papi increase inclusive num_metrics papi_metrics
        yielded thread_id).get_accumulated) ∧
    (s.get_accumulated_useconds = p.get_accumulated_useconds ∨
      s.get_accumulated_useconds = (p.increment have_papi increase inclusive num_metrics
        papi_metrics yielded thread_id).get_accumulated_useconds) ∧
    (s.get_accumulated_seconds = p.get_accumulated_seconds ∨
      s.get_accumulated_seconds = (p.increment have_papi increase inclusive num_metrics
        papi_metrics yielded thread_id).get_accumulated_seconds) ∧
    (s.get_sum_squares = p.get_sum_squares ∨
      s.get_sum_squares = (p.increment have_papi increase inclusive num_metrics papi_metrics
        yielded thread_id).get_sum_squares) ∧
    (s.get_minimum = p.get_minimum ∨
      s.get_minimum = (p.increment have_papi increase inclusive num_metrics papi_metrics
        yielded thread_id).get_minimum) ∧
    (s.get_maximum = p.get_maximum ∨
      s.get_maximum = (p.increment have_papi increase inclusive num_metrics papi_metrics
        yielded thread_id).get_maximum) ∧
    (s.get_times_reset = p.get_times_reset ∨
      s.get_times_reset = (p.increment have_papi increase inclusive num_metrics papi_metrics
        yielded thread_id).get_times_reset) ∧
    (s.get_num_threads = p.get_num_threads ∨
      s.get_num_threads = (p.increment have_papi increase inclusive num_metrics papi_metrics
        yielded thread_id).get_num_threads) ∧
    (s.get_allocations = p.get_allocations ∨
      s.get_allocations = (p.increment have_papi increase inclusive num_metrics papi_metrics
        yielded thread_id).get_allocations) ∧
    (s.get_frees = p.get_frees ∨
      s.get_frees = (p.increment have_papi increase inclusive num_metrics papi_metrics
        yielded thread_id).get_frees) ∧
    (s.get_bytes_allocated = p.get_bytes_allocated ∨
      s.get_bytes_allocated = (p.increment have_papi increase inclusive num_metrics
        papi_metrics yielded thread_id).get_bytes_allocated) ∧
    (s.get_bytes_freed = p.get_bytes_freed ∨
      s.get_bytes_freed = (p.increment have_papi increase inclusive num_metrics papi_metrics
        yielded thread_id).get_bytes_freed) ∧
    (s.get_type = p.get_type ∨
      s.get_type = (p.increment have_papi increase inclusive num_metrics papi_metrics
        yielded thread_id).get_type) ∧
    (s.get_throttled = p.get_throttled ∨
      s.get_throttled = (p.increment have_papi increase inclusive num_metrics papi_metrics
        yielded thread_id).get_throttled) := by
  simp only [profile.increment_stages] at hs
  rcases List.mem_append.mp hs with h1 | h2
  · obtain ⟨a, ha, rfl⟩ := List.mem_map.mp h1
    rcases List.mem_append.mp ha with ha | ha
    · rcases List.mem_append.mp ha with ha | hl
      · simp only [List.mem_cons, List.mem_singleton, List.not_mem_nil, or_false] at ha
        rcases ha with rfl | rfl | rfl | rfl <;>
          refine ⟨?_, ?_, ?_, ?_, ?_, ?_, ?_, ?_, ?_, ?_, ?_, ?_, ?_, ?_, ?_, ?_⟩ <;>
            first | exact Or.inl rfl | exact Or.inr rfl
      · cases have_papi with
        | false => simp at hl
        | true =>
          simp only [if_true, List.mem_map] at hl
          obtain ⟨i, -, rfl⟩ := hl
          refine ⟨?_, ?_, ?_, ?_, ?_, ?_, ?_, ?_, ?_, ?_, ?_, ?_, ?_, ?_, ?_, ?_⟩ <;>
            first | exact Or.inl rfl | exact Or.inr rfl
    · simp only [List.mem_cons, List.mem_singleton, List.not_mem_nil, or_false] at ha
      rcases ha with rfl | rfl | rfl | rfl | rfl <;>
        refine ⟨?_, ?_, ?_, ?_, ?_, ?_, ?_, ?_, ?_, ?_, ?_, ?_, ?_, ?_, ?_, ?_⟩ <;>
          first | exact Or.inl rfl | exact Or.inr rfl
  · simp only [List.mem_cons, List.mem_singleton, List.not_mem_nil, or_false] at h2
    rcases h2 with rfl | rfl <;>
      refine ⟨?_, ?_, ?_, ?_, ?_, ?_, ?_, ?_, ?_, ?_, ?_, ?_, ?_, ?_, ?_, ?_⟩ <;>
        first | exact Or.inl rfl | exact Or.inr rfl

/-- Witness of the amended claim C31: the stage after the first statement of
an increment with 20 of a record built from the sample 10 has the accumulated
value 30, the value after the increment, and the calls of before it. -/
theorem single_field_reads_are_whole_witness :
    ∃ s ∈ (profile.construct false 10 10 0 [] false
        apex_profile_type.APEX_TIMER).increment_stages false 20 20 0 [] false 0,
      s.get_accumulated = 30 ∧ s.get_calls = 1 ∧
      (s.get_calls
          = (profile.construct false 10 10 0 [] false apex_profile_type.APEX_TIMER).get_calls ∨
        s.get_calls
          = ((profile.construct false 10 10 0 [] false apex_profile_type.APEX_TIMER).increment
              false 20 20 0 [] false 0).get_calls) ∧
      (s.get_accumulated
          = (profile.construct false 10 10 0 [] false
              apex_profile_type.APEX_TIMER).get_accumulated ∨
        s.get_accumulated
          = ((profile.construct false 10 10 0 [] false apex_profile_type.APEX_TIMER).increment
              false 20 20 0 [] false 0).get_accumulated) :=
  ⟨_, increment_stages_second false
      (profile.construct false 10 10 0 [] false apex_profile_type.APEX_TIMER) 20 20 0 []
      false 0,
    by norm_num [profile.get_accumulated, profile.construct],
    by norm_num [profile.get_calls, profile.construct],
    (single_field_reads_are_whole false
      (profile.construct false 10 10 0 [] false apex_profile_type.APEX_TIMER) 20 20 0 []
      false 0 _ (increment_stages_second false
        (profile.construct false 10 10 0 [] false apex_profile_type.APEX_TIMER) 20 20 0 []
        false 0)).1,
    (single_field_reads_are_whole false
      (profile.construct false 10 10 0 [] false apex_profile_type.APEX_TIMER) 20 20 0 []
      false 0 _ (increment_stages_second false
        (profile.construct false 10 10 0 [] false apex_profile_type.APEX_TIMER) 20 20 0 []
        false 0)).2.2.1⟩

end apex
